import Mathlib

/-!
# Directory printer: override resolution, roster layout, children section,
index, calendar difference, text fitting, driver and downloader

A shallow embedding of the document-composition core of the directory printer
(`src/pdf.go`, with the data types of `src/pc_pdf_generator/pc_pdf_generator.go`
and `src/pc_pdf_generator/pc_downloader.go`).

Conventions of the embedding:

* `float64` quantities (margins, coordinates, font sizes) are exact rationals; a
  quotient by 0, an infinity or NaN in `float64`, is no number (`none`);
* a Go `map[string]T` is an association list, looked up by its first matching
  key; a `nil` map is `none`;
* the receiver `dir *PdfDir` is threaded explicitly: a method returns the
  updated receiver next to its results;
* everything the code asks of its collaborators (override store, font metrics,
  transliteration, the case mappings `strings.ToLower` and `strings.ToUpper`,
  country names, object storage, the clock) is read from an `Env`;
* the drawing surface reads a negative argument of `SetY` from the bottom edge
  of the page and a negative argument of `SetX` from its right edge;
* a `time.Time` is its calendar date and clock, to the second, with the offset
  from UTC at which they are read; its location is given next to it
  (`Location`) where a location that changes its offset is meant;
* `writeSection` and `writeFirstNames` are embedded with the surface they draw
  on; `writeChildren` is embedded as the texts it writes, household block by
  household block;
* the driver `generatePDF` is embedded as the sequence of composer calls it
  makes, and the downloader as the household update of `downloadPerson`, the
  digit extraction `extractDigits` and the page requests of `downloadList`.
-/

namespace DirectoryPrinter

/-! ## Data model -/

/-- A Go `time.Time` as the code reads it: the calendar date and the clock in
the location of the value, and that location, given by its offset `zone` in
seconds east of UTC. -/
structure Time where
  year : Int
  month : Nat
  day : Nat
  hour : Nat
  min : Nat
  sec : Nat
  zone : Int
deriving DecidableEq

/-- The zero `time.Time` (January 1, year 1, 00:00:00 UTC). -/
def Time.zero : Time := ⟨1, 1, 1, 0, 0, 0, 0⟩

/-- The struct `Section` of `pc_pdf_generator.go`, field for field. -/
structure Section where
  KeyFirstName : String
  KeyLastName : String
  KeyBirthday : String
  ShowHousehold : Bool
  ShowChildren : Bool
  Show : Bool
  Header : String
  ListName : String
  ExcludeDirSections : List String
  PhoneCount : Int
  JobTitle : Bool
  Employer : Bool
  Occupation : Bool
  Children : Bool
  School : Bool
  Age : Bool
  Birthday : Bool
  DateJoined : Bool
  Address : Bool
  City : Bool
  State : Bool
  PostalCode : Bool
  Country : Bool
  Email : Bool
  Phones : Bool
  NewMemberFootnote : Bool
  BaptismFootnote : Bool
  LineSpacing : ℚ
  Columns : ℚ
deriving DecidableEq

/-- The zero value of `Section`: what a Go map lookup yields for an absent key. -/
def Section.zero : Section :=
  { KeyFirstName := "", KeyLastName := "", KeyBirthday := "",
    ShowHousehold := false, ShowChildren := false, Show := false,
    Header := "", ListName := "", ExcludeDirSections := [], PhoneCount := 0,
    JobTitle := false, Employer := false, Occupation := false, Children := false,
    School := false, Age := false, Birthday := false, DateJoined := false,
    Address := false, City := false, State := false, PostalCode := false,
    Country := false, Email := false, Phones := false,
    NewMemberFootnote := false, BaptismFootnote := false,
    LineSpacing := 0, Columns := 0 }

/-- The struct `Person` of `pc_downloader.go`, field for field.
`DirectorySections` is the Go `map[string]bool` as an association list. -/
structure Person where
  Id : String
  FirstName : String
  LastName : String
  Address1 : String
  Address2 : String
  City : String
  State : String
  Country : String
  PostalCode : String
  DateJoined : Time
  Birthday : Time
  HomePhone : Int
  CellPhone : Int
  WorkPhone : Int
  EmailAddress : String
  Thumbnail : Bool
  NewMember90 : Bool
  PendingBaptism : Bool
  Occupation : String
  Children1 : String
  Children2 : String
  Married : Bool
  Title : String
  Employer : String
  School : String
  DirectorySections : List (String × Bool)
deriving DecidableEq

/-- The struct `Household` of `pc_downloader.go`. `Head` is `none` for a nil
pointer. -/
structure Household where
  Id : String
  SortKey : String
  Members : List Person
  Children : List (String × Person)
  Head : Option Person
deriving DecidableEq

/-- The override table `map[string]Section`. -/
abbrev OverrideTable := List (String × Section)

/-! ## The rendering surface -/

/-- One drawing call received by the rendering surface. -/
inductive Op where
  | cell (x y w h : ℚ) (txt : String) (sizePt : ℚ) (style : String) (align : String)
  | rect (x y w h : ℚ) (gray : Int)
  | image (id : String) (x y w h : ℚ)
  | line (x1 y1 x2 y2 : ℚ)
  | addPage (auto : Bool)
deriving DecidableEq

/-- Model of the rendering surface, the `gofpdf.Fpdf` document the code draws
on (an external library): the state the code reads back through `GetY`,
`GetX`, `GetMargins`, `GetPageSize`, `GetFontSize`, `GetConversionRatio` and
`GetCellMargin`, and the list of drawing calls made so far (newest first).
Coordinates are absolute and the surface is in its error-free state. -/
structure Pdf where
  page : Nat
  x : ℚ
  y : ℚ
  w : ℚ
  h : ℚ
  k : ℚ
  lMargin : ℚ
  tMargin : ℚ
  rMargin : ℚ
  bMargin : ℚ
  cMargin : ℚ
  autoPageBreak : Bool
  pageBreakTrigger : ℚ
  fontFamily : String
  fontStyle : String
  fontSizePt : ℚ
  fillGray : Int
  drawGray : Int
  images : List String
  ops : List Op
deriving DecidableEq

/-- What one `datastore.Get` of the override record, followed by
`json.Unmarshal` of its bytes, yields. -/
inductive StoreRead where
  /-- `datastore.Get` returned an error. -/
  | getError
  /-- The record was read and its `Overrides` bytes are nil. -/
  | noBytes
  /-- `json.Unmarshal` returned an error, leaving `left` in `dir.overrides`. -/
  | parseError (left : Option OverrideTable)
  /-- `json.Unmarshal` succeeded and stored `table` in `dir.overrides`. -/
  | parsed (table : Option OverrideTable)
deriving DecidableEq

/-- The collaborators of the composition core. `store n` is the outcome of the
`n`-th read of the override store, `charWidth family style c` the width of `c`
in the font's `Cw` table, `translate` the transliteration installed by
`generatePDF`, `toLower` and `toUpper` the library functions `strings.ToLower`
and `strings.ToUpper` (the case mapping of Unicode), `countryName` the common
name `gountries` reports for an ISO code, `bucketOk` and `clientOk` whether
`file.DefaultBucketName` and `storage.NewClient` succeed, `thumbnailOk name`
whether the stored object `name` can be read and decoded as an image. -/
structure Env where
  store : Nat → StoreRead
  translate : String → String
  toLower : String → String
  toUpper : String → String
  countryName : String → String
  charWidth : String → String → Char → Int
  now : Time
  bucketOk : Bool
  clientOk : Bool
  thumbnailOk : String → Bool

/-- The struct `PdfDir` of `pdf.go`. `overrides = none` is the nil map. The
fields `storeReads` and `warnings` are observations added by the embedding: the
number of `datastore.Get` calls made so far and the warnings logged so far
(newest first). -/
structure PdfDir where
  leftMargin : ℚ
  topMargin : ℚ
  rightMargin : ℚ
  bottomMargin : ℚ
  pageSize : String
  colWd : ℚ
  colNum : ℚ
  firstNameColumns : ℚ
  padding : ℚ
  gutter : ℚ
  imagePadding : ℚ
  imageWidth : ℚ
  columnHeight : ℚ
  fontFamily : String
  fontSize : ℚ
  lineHeight : ℚ
  textWidth : ℚ
  highlightOpacity : ℚ
  overrides : Option OverrideTable
  fileName : String
  domain : String
  pdf : Pdf
  gountries : Bool
  storeReads : Nat
  warnings : List String
deriving DecidableEq

/-! ## Override resolver (`getSectionOverride`) -/

/-- Decimal digits of `n`, zero-padded on the left to at least `width`. -/
def padNat (width n : Nat) : String :=
  String.mk (List.replicate (width - (Nat.toDigits 10 n).length) '0' ++ Nat.toDigits 10 n)

/-- Go's `appendInt`: a sign for negative values, then the padded magnitude. -/
def appendInt (x : Int) (width : Nat) : String :=
  if x < 0 then "-" ++ padNat width x.natAbs else padNat width x.toNat

/-- The layout `"2006-01-02"` of `time.Time.Format`. -/
def Time.formatISO (t : Time) : String :=
  appendInt t.year 4 ++ "-" ++ padNat 2 t.month ++ "-" ++ padNat 2 t.day

/-- The normalized key of a person:
`strings.ToLower(fmt.Sprintf("%s-%s-%s", FirstName, LastName, Birthday.Format("2006-01-02")))`. -/
def overrideKey (env : Env) (p : Person) : String :=
  env.toLower (p.FirstName ++ "-" ++ p.LastName ++ "-" ++ p.Birthday.formatISO)

/-- The comma-ok lookup `_, ok := m[key]` on a `map[string]bool`. -/
def hasKey (m : List (String × Bool)) (key : String) : Bool :=
  m.any (fun kv => kv.1 == key)

/-- The exclusion loop shared by `getSectionOverride`, `writeSection` and
`writeChildren`: some identifier of `excl` is a key of the person's
`DirectorySections`. The guard `cap(excl) > 0` of the source is implied by the
loop finding an element. -/
def isExcluded (p : Person) (excl : List String) : Bool :=
  excl.any (fun e => hasKey p.DirectorySections e)

/-- The map read `dir.overrides[key]` as an option: `none` for a nil map or an
absent key. -/
def lookupOverride (t : Option OverrideTable) (key : String) : Option Section :=
  match t with
  | none => none
  | some tbl => tbl.lookup key

/-- The lazy load of lines 536-551: when `dir.overrides` is nil, read the store.
The boolean is `false` when the function returns early on a store failure. -/
def loadOverrides (env : Env) (dir : PdfDir) : Bool × PdfDir :=
  match dir.overrides with
  | some _ => (true, dir)
  | none =>
    let d := { dir with storeReads := dir.storeReads + 1 }
    match env.store dir.storeReads with
    | .getError => (false, { d with warnings := "Error pulling overrides" :: d.warnings })
    | .noBytes => (true, d)
    | .parseError left =>
        (false, { d with overrides := left, warnings := "Error parsing overrides" :: d.warnings })
    | .parsed table => (true, { d with overrides := table })

/-- The narrowing block of lines 557-603, one line per `if` statement of the
source: `if displayOptions.F && !overrideOptions.F { displayOptions.F = false }`.
Each statement reads and writes its own field only. -/
def narrow (displayOptions overrideOptions : Section) : Section :=
  { displayOptions with
    Show := if displayOptions.Show && !overrideOptions.Show then false else displayOptions.Show
    Phones := if displayOptions.Phones && !overrideOptions.Phones then false else displayOptions.Phones
    Email := if displayOptions.Email && !overrideOptions.Email then false else displayOptions.Email
    Address := if displayOptions.Address && !overrideOptions.Address then false else displayOptions.Address
    DateJoined :=
      if displayOptions.DateJoined && !overrideOptions.DateJoined then false else displayOptions.DateJoined
    Birthday := if displayOptions.Birthday && !overrideOptions.Birthday then false else displayOptions.Birthday
    City := if displayOptions.City && !overrideOptions.City then false else displayOptions.City
    State := if displayOptions.State && !overrideOptions.State then false else displayOptions.State
    PostalCode :=
      if displayOptions.PostalCode && !overrideOptions.PostalCode then false else displayOptions.PostalCode
    Country := if displayOptions.Country && !overrideOptions.Country then false else displayOptions.Country
    ShowHousehold :=
      if displayOptions.ShowHousehold && !overrideOptions.ShowHousehold then false
      else displayOptions.ShowHousehold
    ShowChildren :=
      if displayOptions.ShowChildren && !overrideOptions.ShowChildren then false
      else displayOptions.ShowChildren }

/-- The method `getSectionOverride`: the effective Section of a person and the
updated receiver. -/
def getSectionOverride (env : Env) (dir : PdfDir) (directoryEntry : Person)
    (oldDisplayOptions : Section) : Section × PdfDir :=
  let displayOptions := { oldDisplayOptions with ShowHousehold := true, ShowChildren := true }
  if isExcluded directoryEntry displayOptions.ExcludeDirSections then
    ({ displayOptions with Show := false }, dir)
  else
    let key := overrideKey env directoryEntry
    match loadOverrides env dir with
    | (false, dir1) => (displayOptions, dir1)
    | (true, dir1) =>
      let overrideOptions := (lookupOverride dir1.overrides key).getD Section.zero
      if overrideOptions.KeyFirstName ≠ "" then
        (narrow displayOptions overrideOptions, dir1)
      else
        (displayOptions, dir1)

/-! ## Operations of the rendering surface -/

namespace Pdf

/-- Second result of `GetFontSize`: the font size in user units. -/
def fontSize (f : Pdf) : ℚ := f.fontSizePt / f.k

/-- The call `SetY`: back to the left margin, at ordinate `y`; a negative `y` is
measured up from the bottom edge of the page. -/
def SetY (f : Pdf) (y : ℚ) : Pdf :=
  { f with x := f.lMargin, y := if 0 ≤ y then y else f.h + y }

/-- The call `SetX`; a negative `x` is measured back from the right edge of the
page. -/
def SetX (f : Pdf) (x : ℚ) : Pdf := { f with x := if 0 ≤ x then x else f.w + x }

/-- The call `SetLeftMargin`: the abscissa is pushed right to the new margin when
a page is open and it lies left of it. -/
def SetLeftMargin (f : Pdf) (margin : ℚ) : Pdf :=
  { f with lMargin := margin, x := if 0 < f.page ∧ f.x < margin then margin else f.x }

/-- The call `SetTopMargin`. -/
def SetTopMargin (f : Pdf) (margin : ℚ) : Pdf := { f with tMargin := margin }

/-- The call `SetRightMargin`. -/
def SetRightMargin (f : Pdf) (margin : ℚ) : Pdf := { f with rMargin := margin }

/-- The call `SetAutoPageBreak`: the bottom margin is the break margin. -/
def SetAutoPageBreak (f : Pdf) (auto : Bool) (margin : ℚ) : Pdf :=
  { f with autoPageBreak := auto, bMargin := margin, pageBreakTrigger := f.h - margin }

/-- The call `AddPage`: a new page, cursor at its top-left margin corner. -/
def AddPage (f : Pdf) : Pdf :=
  { f with page := f.page + 1, x := f.lMargin, y := f.tMargin, ops := .addPage false :: f.ops }

/-- The call `SetFont`: a size of 0 keeps the current size. -/
def SetFont (f : Pdf) (family style : String) (size : ℚ) : Pdf :=
  { f with fontFamily := family, fontStyle := style,
           fontSizePt := if size = 0 then f.fontSizePt else size }

/-- The call `SetFontSize` (size in points). -/
def SetFontSize (f : Pdf) (size : ℚ) : Pdf := { f with fontSizePt := size }

/-- The call `SetFillColor` with a gray level. -/
def SetFillColor (f : Pdf) (gray : Int) : Pdf := { f with fillGray := gray }

/-- The call `SetDrawColor` with a gray level. -/
def SetDrawColor (f : Pdf) (gray : Int) : Pdf := { f with drawGray := gray }

/-- Sum of the `Cw` entries of the characters of `s` up to the first NUL. -/
def rawWidth (env : Env) (f : Pdf) (s : String) : Int :=
  ((s.data.takeWhile (fun c => c ≠ Char.ofNat 0)).map
    (fun c => env.charWidth f.fontFamily f.fontStyle c)).sum

/-- The call `GetStringWidth`: the raw width scaled by the font size in user
units, over 1000. -/
def GetStringWidth (env : Env) (f : Pdf) (s : String) : ℚ :=
  (rawWidth env f s : ℚ) * f.fontSize / 1000

/-- The call `CellFormat`. When automatic page breaks are on and the cell would
cross the break trigger, a page is added first (keeping the abscissa); a width
of 0 extends the cell to the right margin; afterwards the cursor moves right
(`ln = 0`), to the next line at the left margin (`ln = 1`) or below (`ln = 2`). -/
def CellFormat (f : Pdf) (w h : ℚ) (txt : String) (ln : Nat) (align : String) : Pdf :=
  let f1 : Pdf :=
    if f.autoPageBreak = true ∧ f.y + h > f.pageBreakTrigger then
      { f with page := f.page + 1, y := f.tMargin, ops := .addPage true :: f.ops }
    else f
  let w1 := if w = 0 then f1.w - f1.rMargin - f1.x else w
  let f2 : Pdf :=
    { f1 with ops := .cell f1.x f1.y w1 h txt f1.fontSizePt f1.fontStyle align :: f1.ops }
  if 0 < ln then
    { f2 with y := f2.y + h, x := if ln = 1 then f2.lMargin else f2.x }
  else
    { f2 with x := f2.x + w1 }

/-- The call `Rect` with style `"FD"`: filled with the current fill color. -/
def Rect (f : Pdf) (x y w h : ℚ) : Pdf := { f with ops := .rect x y w h f.fillGray :: f.ops }

/-- The call `Image` with `flow = false`: the cursor does not move. -/
def Image (f : Pdf) (id : String) (x y w h : ℚ) : Pdf :=
  { f with ops := .image id x y w h :: f.ops }

/-- The call `RegisterImageOptionsReader`. -/
def RegisterImage (f : Pdf) (id : String) : Pdf := { f with images := id :: f.images }

end Pdf

/-! ## Footer, shrink-to-fit and phone formatting -/

/-- The method `writeFooter`. It changes the surface `dir.pdf` only, and the
result is the surface after the call. -/
def writeFooter (env : Env) (dir : PdfDir) (displayOptions : Section) : Pdf :=
  let bottom := dir.pdf.bMargin
  let width := dir.pdf.w
  let height := dir.pdf.h
  let lineHeight := dir.pdf.fontSize
  let f := dir.pdf.SetAutoPageBreak false bottom
  let f := f.SetY (height - lineHeight - bottom)
  let f := f.SetX dir.leftMargin
  let f := f.SetLeftMargin dir.leftMargin
  let f :=
    if displayOptions.BaptismFootnote then
      let textWidth := Pdf.GetStringWidth env f (env.translate "ยง Member pending baptism")
      f.CellFormat textWidth lineHeight (env.translate "ยง Member pending baptism") 0 "LB"
    else f
  let f :=
    if displayOptions.NewMemberFootnote then
      let textWidth := Pdf.GetStringWidth env f (env.translate "* New member in the last 90 days")
      let leftMargin := f.lMargin
      let f := f.SetLeftMargin (width - textWidth - dir.rightMargin)
      let f := f.CellFormat textWidth lineHeight
        (env.translate "* New member in the last 90 days") 0 "RB"
      f.SetLeftMargin leftMargin
    else f
  f.SetAutoPageBreak true bottom

/-- The `for` loop of `shrinkedCell`: while the string is wider than `width`, the
font size drops by 0.1 point (by the rational 1/10, where the code subtracts
the `float64` nearest to 0.1). `none` when `fuel` iterations do not end it. -/
def shrinkLoop (env : Env) (width : ℚ) (str : String) : Nat → Pdf → Option Pdf
  | 0, f => if Pdf.GetStringWidth env f str + f.cMargin > width then none else some f
  | fuel + 1, f =>
    if Pdf.GetStringWidth env f str + f.cMargin > width then
      shrinkLoop env width str fuel (f.SetFontSize (f.fontSizePt - 1 / 10))
    else some f

/-- The method `shrinkedCell` (it touches the surface only). -/
def shrinkedCell (env : Env) (fuel : Nat) (f : Pdf) (width height : ℚ) (str : String)
    (alignment : String) : Option Pdf :=
  let originalFontSize := f.fontSizePt
  match shrinkLoop env width str fuel f with
  | none => none
  | some f1 => some ((f1.CellFormat width height str 1 alignment).SetFontSize originalFontSize)

/-- The verb `%0Nd` of `fmt.Sprintf`: zero-padded to `width` characters, the
sign counted in. -/
def fmtZeroPad (width : Nat) (x : Int) : String :=
  if x < 0 then "-" ++ padNat (width - 1) x.natAbs else padNat width x.toNat

/-- The verb `%d` of `fmt.Sprintf`. -/
def fmtInt (x : Int) : String :=
  if x < 0 then "-" ++ padNat 0 x.natAbs else padNat 0 x.toNat

/-- The function `phoneNumber`; `/` and `%` of Go truncate toward zero. -/
def phoneNumber (phone : Int) : String :=
  let no := phone.tmod 10000
  let xc := (phone.tdiv 10000).tmod 1000
  let phoneNo := fmtZeroPad 3 xc ++ "-" ++ fmtZeroPad 4 no
  let ac := (phone.tdiv 10000000).tmod 1000
  let phoneNo := if ac ≠ 0 then fmtZeroPad 3 ac ++ "-" ++ phoneNo else phoneNo
  let pfx := phone.tdiv 10000000000
  let phoneNo := if pfx ≠ 0 then "+" ++ fmtInt pfx ++ " " ++ phoneNo else phoneNo
  phoneNo

/-! ## Cell renderer (`writeEntry`) -/

/-- The layout `"01/2006"` of `time.Time.Format`. -/
def Time.formatMonthYear (t : Time) : String := padNat 2 t.month ++ "/" ++ appendInt t.year 4

/-- The layout `"01/02"` of `time.Time.Format`. -/
def Time.formatMonthDay (t : Time) : String := padNat 2 t.month ++ "/" ++ padNat 2 t.day

/-- The layout `"As of: 01/02/2006"` of `time.Time.Format`. -/
def Time.formatAsOf (t : Time) : String :=
  "As of: " ++ padNat 2 t.month ++ "/" ++ padNat 2 t.day ++ "/" ++ appendInt t.year 4

/-- Lines 700-711: the name line, `LASTNAME, FIRSTNAME` and its footnote mark. -/
def entryName (env : Env) (directoryEntry : Person) (displayOptions : Section) : String :=
  let pfx := ""
  let pfx := if directoryEntry.NewMember90 && displayOptions.NewMemberFootnote then "*" else pfx
  let pfx := if directoryEntry.PendingBaptism && displayOptions.BaptismFootnote then "ยง" else pfx
  env.toUpper directoryEntry.LastName ++ ", " ++ env.toUpper directoryEntry.FirstName ++ pfx

/-- Lines 742-764: the text of the city line. -/
def entryCityText (env : Env) (directoryEntry : Person) (displayOptions : Section) : String :=
  let addressText := ""
  let addressText :=
    if displayOptions.City && directoryEntry.City ≠ "" then
      addressText ++ directoryEntry.City ++ ", "
    else addressText
  if directoryEntry.Country = "US" ∨ directoryEntry.Country = "CA" then
    let addressText :=
      if displayOptions.State && directoryEntry.State ≠ "" then
        addressText ++ directoryEntry.State ++ " "
      else addressText
    if displayOptions.PostalCode && directoryEntry.PostalCode ≠ "" then
      let postalCode := String.mk (directoryEntry.PostalCode.data.takeWhile (fun c => c ≠ '-'))
      addressText ++ postalCode ++ " "
    else addressText
  else
    if displayOptions.Country && directoryEntry.Country ≠ "" then
      addressText ++ env.countryName directoryEntry.Country ++ " "
    else addressText

/-- Lines 774-790: the phone lines, the cell phone first and always, home and
work while fewer than `PhoneCount` lines are out. -/
def entryPhoneLines (directoryEntry : Person) (displayOptions : Section) : List String :=
  if displayOptions.Phones then
    let l1 := if directoryEntry.CellPhone ≠ 0 then ["C: " ++ phoneNumber directoryEntry.CellPhone] else []
    let phones : Int := if directoryEntry.CellPhone ≠ 0 then 1 else 0
    let l2 :=
      if directoryEntry.HomePhone ≠ 0 ∧ phones < displayOptions.PhoneCount then
        ["H: " ++ phoneNumber directoryEntry.HomePhone]
      else []
    let phones : Int :=
      if directoryEntry.HomePhone ≠ 0 ∧ phones < displayOptions.PhoneCount then phones + 1 else phones
    let l3 :=
      if directoryEntry.WorkPhone ≠ 0 ∧ phones < displayOptions.PhoneCount then
        ["W: " ++ phoneNumber directoryEntry.WorkPhone]
      else []
    l1 ++ l2 ++ l3
  else []

/-- Lines 792-804: the date line. -/
def entryDateLines (directoryEntry : Person) (displayOptions : Section) : List String :=
  if displayOptions.DateJoined || displayOptions.Birthday then
    let dateText := ""
    let dateText :=
      if displayOptions.DateJoined then "DJ: " ++ directoryEntry.DateJoined.formatMonthYear
      else dateText
    let dateText :=
      if displayOptions.Birthday then dateText ++ " BD: " ++ directoryEntry.Birthday.formatMonthDay
      else dateText
    [dateText]
  else []

/-- Lines 717-812: the lines drawn below the name, top to bottom. -/
def entryLines (env : Env) (directoryEntry : Person) (displayOptions : Section) : List String :=
  (if displayOptions.Occupation && directoryEntry.Occupation ≠ "" then [directoryEntry.Occupation]
    else [])
  ++ (if displayOptions.JobTitle && directoryEntry.Title ≠ "" then [directoryEntry.Title] else [])
  ++ (if displayOptions.Employer && directoryEntry.Employer ≠ "" then [directoryEntry.Employer]
    else [])
  ++ (if displayOptions.School && directoryEntry.School ≠ "" then [directoryEntry.School] else [])
  ++ (if displayOptions.Address && directoryEntry.Address1 ≠ "" then [directoryEntry.Address1]
    else [])
  ++ (if displayOptions.Address && directoryEntry.Address2 ≠ "" then [directoryEntry.Address2]
    else [])
  ++ (if (directoryEntry.City ≠ "" ∨ directoryEntry.State ≠ "" ∨ directoryEntry.PostalCode ≠ "")
        ∧ entryCityText env directoryEntry displayOptions ≠ "" then
      [entryCityText env directoryEntry displayOptions]
    else [])
  ++ (if displayOptions.Email && directoryEntry.EmailAddress ≠ "" then
      [directoryEntry.EmailAddress]
    else [])
  ++ entryPhoneLines directoryEntry displayOptions
  ++ entryDateLines directoryEntry displayOptions
  ++ (if displayOptions.Children && directoryEntry.Children1 ≠ "" then [directoryEntry.Children1]
    else [])
  ++ (if displayOptions.Children && directoryEntry.Children2 ≠ "" then [directoryEntry.Children2]
    else [])

/-- One `shrinkedCell` call per line, each on the transliterated text, left
aligned. -/
def shrinkedCells (env : Env) (fuel : Nat) (width height : ℚ) : List String → Pdf → Option Pdf
  | [], f => some f
  | str :: rest, f =>
    match shrinkedCell env fuel f width height (env.translate str) "L" with
    | none => none
    | some f1 => shrinkedCells env fuel width height rest f1

/-- Lines 613-651 of `writeEntry`: the column break and the page break taken
before a visible entry is drawn. They change the surface only; the result is
the column index, the first-page flag and the surface. -/
def writeEntryBreaks (env : Env) (dir : PdfDir) (lastColumn : ℚ) (indentPage : Bool)
    (displayOptions : Section) : ℚ × Bool × Pdf :=
  let firstPage := indentPage
  let left := dir.pdf.lMargin
  let top := dir.pdf.tMargin
  let bottom := dir.pdf.bMargin
  let height := dir.pdf.h
  let endOffset : ℚ :=
    if displayOptions.BaptismFootnote || displayOptions.NewMemberFootnote then dir.pdf.fontSize
    else 0
  let startOffset : ℚ := if firstPage then ((dir.fontSize + 2) / dir.pdf.k) * 2 else 0
  let columnBreak : Bool :=
    decide (dir.pdf.y + dir.columnHeight + dir.padding > height - bottom - endOffset)
  let lastColumn := if columnBreak then lastColumn + 1 else lastColumn
  let f := if columnBreak then dir.pdf.SetY (top + startOffset) else dir.pdf
  if lastColumn ≥ dir.colNum then
    let f := f.SetLeftMargin dir.leftMargin
    let f := f.SetX dir.leftMargin
    let f := f.SetY (height - bottom)
    let f := writeFooter env { dir with pdf := f } displayOptions
    let f := f.AddPage
    let f := f.SetY top
    let f := f.SetX left
    let f := f.SetLeftMargin left
    (0, false, f)
  else
    (lastColumn, firstPage, f)

/-- Lines 662-685 of `writeEntry`: the two highlight bands. -/
def writeEntryHighlights (dir : PdfDir) (f : Pdf) (highlightTop highlightBottom : Bool) : Pdf :=
  let height := dir.pdf.h
  let halfPadding := dir.padding / 2
  let color : Int := ⌈255 - dir.highlightOpacity * 255⌉
  let f :=
    if highlightTop then
      let f := (f.SetFillColor color).SetDrawColor color
      let fillHeight := dir.columnHeight + halfPadding + halfPadding / 2
      let diff := (height - dir.bottomMargin) - (f.y + fillHeight)
      let fillHeight :=
        if f.y + fillHeight > height - dir.bottomMargin then fillHeight + diff else fillHeight
      f.Rect f.x (f.y - halfPadding / 2) dir.colWd fillHeight
    else f
  if highlightBottom then
    let f := (f.SetFillColor color).SetDrawColor color
    let startY := f.y - halfPadding
    let fillHeight := dir.columnHeight + halfPadding + halfPadding / 2
    let fillHeight := if startY < dir.topMargin then fillHeight - (dir.topMargin - startY) else fillHeight
    let startY := if startY < dir.topMargin then dir.topMargin else startY
    f.Rect f.x startY dir.colWd fillHeight
  else f

/-- Lines 653-814 of `writeEntry`: the cell of a visible entry is drawn in
column `lastColumn`, starting from the surface `f` left by the breaks. The
result is the surface after the last line, `SetY(startY + columnHeight +
halfPadding)`; `none` when a shrink loop does not end within `fuel` iterations.
The text color call and the image width read back from the registered image,
overwritten by the constant 25 before it is used, leave no trace in the
model. -/
def writeEntryCell (env : Env) (fuel : Nat) (dir : PdfDir) (f : Pdf) (directoryEntry : Person)
    (lastColumn : ℚ) (highlightTop highlightBottom : Bool) (displayOptions : Section) :
    Option Pdf :=
  let halfPadding := dir.padding / 2
  let f := f.SetY (f.y + halfPadding)
  let startY := f.y
  let x := dir.leftMargin + lastColumn * (dir.colWd + dir.gutter)
  let f := f.SetLeftMargin x
  let f := f.SetX x
  let f := writeEntryHighlights dir f highlightTop highlightBottom
  let f :=
    if directoryEntry.Thumbnail then
      f.Image directoryEntry.Id (f.x + dir.imagePadding) f.y 25 0
    else f
  let imageWidth : ℚ := 25
  let f := f.SetLeftMargin (x + imageWidth + dir.imagePadding * 2)
  let textWidth := dir.colWd - (imageWidth + dir.imagePadding * 2)
  let f := f.SetFont dir.fontFamily "B" dir.fontSize
  match shrinkedCell env fuel f textWidth dir.lineHeight
      (env.translate (entryName env directoryEntry displayOptions)) "L" with
  | none => none
  | some f =>
    let f := f.SetFont dir.fontFamily "" dir.fontSize
    match shrinkedCells env fuel textWidth dir.lineHeight
        (entryLines env directoryEntry displayOptions) f with
    | none => none
    | some f => some (f.SetY (startY + dir.columnHeight + halfPadding))

/-- The method `writeEntry`. The result is the column index, the first-page
flag and the receiver, whose fields `imageWidth`, `textWidth` and `gountries`
(created on the first address outside the US and Canada) are written while the
cell is drawn; `none` when a shrink loop does not end within `fuel`
iterations. -/
def writeEntry (env : Env) (fuel : Nat) (dir : PdfDir) (directoryEntry : Person)
    (lastColumn : ℚ) (highlightTop highlightBottom indentPage : Bool) (displayOptions : Section) :
    Option (ℚ × Bool × PdfDir) :=
  match getSectionOverride env dir directoryEntry displayOptions with
  | (displayOptions, dir) =>
  if !displayOptions.Show then some (lastColumn, indentPage, dir)
  else
    match writeEntryBreaks env dir lastColumn indentPage displayOptions with
    | (lastColumn, firstPage, f) =>
    match writeEntryCell env fuel dir f directoryEntry lastColumn highlightTop highlightBottom
        displayOptions with
    | none => none
    | some f =>
      some (lastColumn, firstPage,
        { dir with
          imageWidth := 25
          textWidth := dir.colWd - (25 + dir.imagePadding * 2)
          gountries :=
            if (directoryEntry.City ≠ "" ∨ directoryEntry.State ≠ ""
                  ∨ directoryEntry.PostalCode ≠ "")
                ∧ ¬ (directoryEntry.Country = "US" ∨ directoryEntry.Country = "CA") then true
            else dir.gountries
          pdf := f })

/-! ## Roster composer (`writeSection`) -/

/-- A person with every field at its zero value. -/
def Person.zero : Person :=
  { Id := "", FirstName := "", LastName := "", Address1 := "", Address2 := "", City := "",
    State := "", Country := "", PostalCode := "", DateJoined := Time.zero, Birthday := Time.zero,
    HomePhone := 0, CellPhone := 0, WorkPhone := 0, EmailAddress := "", Thumbnail := false,
    NewMember90 := false, PendingBaptism := false, Occupation := "", Children1 := "",
    Children2 := "", Married := false, Title := "", Employer := "", School := "",
    DirectorySections := [] }

/-- The zero value of `Household`. -/
def Household.zero : Household :=
  { Id := "", SortKey := "", Members := [], Children := [], Head := none }

/-- Lines 364-372: the slice `keys`, one SortKey per map entry, in the order in
which `range entries` yields the entries. -/
def sectionKeys (entries : List (String × Household)) : List String :=
  entries.map (fun e => e.2.SortKey)

/-- Lines 365-372: the map `keyToId`. Entries written later come first in the
association list, so that a lookup finds the last write. -/
def keyToId (entries : List (String × Household)) : List (String × String) :=
  (entries.map (fun e => (e.2.SortKey, e.1))).reverse

/-- The call `sort.Strings`: ascending order of Go strings, which compare byte
by byte; on UTF-8 that is the order of the code point lists. The sorted list is
unique, whatever the sorting algorithm. -/
def sortStrings (keys : List String) : List String :=
  keys.insertionSort (fun a b => a.data ≤ b.data)

/-- Line 377: `entries[keyToId[k]]`, absent keys reading as zero values. -/
def householdOfKey (entries : List (String × Household)) (k : String) : Household :=
  (entries.lookup (((keyToId entries).lookup k).getD "")).getD Household.zero

/-- The households in the order in which `householdLoop` visits them. -/
def visitOrder (entries : List (String × Household)) : List Household :=
  (sortStrings (sectionKeys entries)).map (householdOfKey entries)

/-- Lines 388-415 and 421-448: the thumbnail of a person is read from storage,
decoded and registered with the surface under the person's id. `none` when the
object cannot be read or decoded: the code then dereferences a nil image. -/
def registerThumbnail (env : Env) (dir : PdfDir) (p : Person) : Option PdfDir :=
  if p.Thumbnail then
    if env.thumbnailOk (dir.domain ++ "/jpgs/" ++ p.Id) then
      some { dir with pdf := dir.pdf.RegisterImage p.Id }
    else none
  else some dir

/-- One iteration of `memberLoop`. -/
def writeMember (env : Env) (fuel : Nat) (displayOptions : Section)
    (st : ℚ × Bool × PdfDir) (m : Person) : Option (ℚ × Bool × PdfDir) :=
  match registerThumbnail env st.2.2 m with
  | none => none
  | some dir =>
    if isExcluded m displayOptions.ExcludeDirSections then some (st.1, st.2.1, dir)
    else writeEntry env fuel dir m st.1 false true st.2.1 displayOptions

/-- The loop `memberLoop` over the members of a household. -/
def writeMembers (env : Env) (fuel : Nat) (displayOptions : Section) :
    List Person → ℚ × Bool × PdfDir → Option (ℚ × Bool × PdfDir)
  | [], st => some st
  | m :: rest, st =>
    match writeMember env fuel displayOptions st m with
    | none => none
    | some st1 => writeMembers env fuel displayOptions rest st1

/-- One iteration of `householdLoop`. -/
def writeHousehold (env : Env) (fuel : Nat) (displayOptions : Section)
    (st : ℚ × Bool × PdfDir) (h : Household) : Option (ℚ × Bool × PdfDir) :=
  match h.Head with
  | none => writeMembers env fuel displayOptions h.Members st
  | some head =>
    match getSectionOverride env st.2.2 head displayOptions with
    | (overrideOptions, dir) =>
    if !overrideOptions.ShowHousehold then some (st.1, st.2.1, dir)
    else
      match registerThumbnail env dir head with
      | none => none
      | some dir =>
        match writeEntry env fuel dir head st.1 false true st.2.1 displayOptions with
        | none => none
        | some st1 => writeMembers env fuel displayOptions h.Members st1

/-- The loop `householdLoop` over the households in visiting order. -/
def writeHouseholds (env : Env) (fuel : Nat) (displayOptions : Section) :
    List Household → ℚ × Bool × PdfDir → Option (ℚ × Bool × PdfDir)
  | [], st => some st
  | h :: rest, st =>
    match writeHousehold env fuel displayOptions st h with
    | none => none
    | some st1 => writeHouseholds env fuel displayOptions rest st1

/-- Lines 325-337 of `writeSection`: the margins of the section, a new page, the
header font, the cursor at the left margin. -/
def sectionFirstPage (dir : PdfDir) : Pdf :=
  let f := dir.pdf.SetLeftMargin dir.leftMargin
  let f := f.SetTopMargin dir.topMargin
  let f := f.SetRightMargin dir.rightMargin
  let f := f.SetAutoPageBreak true dir.bottomMargin
  let f := f.AddPage
  let f := f.SetFont dir.fontFamily "" (dir.fontSize + 2)
  let f := f.SetX dir.leftMargin
  f.SetLeftMargin dir.leftMargin

/-- Lines 325-350 of `writeSection`: margins, a new page, the header on the left
and the date on the right, and the cursor two header lines below the top. -/
def writeSectionHeader (env : Env) (dir : PdfDir) (header : String) : PdfDir :=
  let f := sectionFirstPage dir
  let boldLineHeight := f.fontSize
  let textWidth := Pdf.GetStringWidth env f (env.translate header)
  let f := f.CellFormat textWidth boldLineHeight (env.translate header) 0 "LC"
  let f := f.SetFont dir.fontFamily "" dir.fontSize
  let textWidth := Pdf.GetStringWidth env f (env.translate env.now.formatAsOf)
  let leftMargin := f.lMargin
  let lineHeight := f.fontSize
  let width := f.w
  let f := f.SetLeftMargin (width - textWidth - dir.rightMargin)
  let f := f.CellFormat textWidth lineHeight (env.translate env.now.formatAsOf) 0 "RC"
  let f := f.SetLeftMargin leftMargin
  let f := f.SetY (f.y + boldLineHeight * 2)
  { dir with pdf := f }

/-- The method `writeSection` on the map `entries`, given as its entries in
iteration order. The boolean is `false` when the method returns an error (no
bucket or no storage client); `none` when the run does not complete (see
`writeEntry` and `registerThumbnail`). -/
def writeSection (env : Env) (fuel : Nat) (dir : PdfDir) (entries : List (String × Household))
    (header : String) (displayOptions : Section) : Option (Bool × PdfDir) :=
  let dir := writeSectionHeader env dir header
  if !env.bucketOk then some (false, dir)
  else if !env.clientOk then some (false, dir)
  else
    match writeHouseholds env fuel displayOptions (visitOrder entries) (0, true, dir) with
    | none => none
    | some st => some (true, { st.2.2 with pdf := writeFooter env st.2.2 displayOptions })

/-- The name cells of a drawing trace: the cells drawn in bold, oldest first.
`writeEntry` draws one per visible entry, and nothing else is bold. -/
def nameCells (ops : List Op) : List String :=
  ops.reverse.filterMap (fun op =>
    match op with
    | .cell _ _ _ _ txt _ style _ => if style = "B" then some txt else none
    | _ => none)

/-- The number of name cells (cells drawn in bold) in a drawing trace. -/
def entryCount (ops : List Op) : Nat :=
  ops.countP (fun op =>
    match op with
    | .cell _ _ _ _ _ _ style _ => style == "B"
    | _ => false)

/-- The number of pages added by explicit `AddPage` calls in a drawing trace. -/
def explicitPages (ops : List Op) : Nat :=
  ops.countP (fun op => op == Op.addPage false)

/-- The number of pages added by the automatic page break of `CellFormat` in a
drawing trace. -/
def autoPages (ops : List Op) : Nat :=
  ops.countP (fun op => op == Op.addPage true)

/-! ## The page/column cursor as the specification words it -/

/-- The geometry the cursor of the specification works with: page height,
margins, the fixed cell (`columnHeight` and `padding`), the column count, the
header reservation of a first page and the reserved footnote height. -/
structure CursorGeometry where
  pageHeight : ℚ
  topMargin : ℚ
  bottomMargin : ℚ
  columnHeight : ℚ
  padding : ℚ
  colNum : ℚ
  headerOffset : ℚ
  footnoteReserve : ℚ

/-- The cursor of the specification: column index, ordinate, and the flag
"first page of the section". -/
structure SpecCursor where
  column : ℚ
  y : ℚ
  firstPage : Bool
deriving DecidableEq

/-- Specification, WithinColumn → ColumnBreak: the next cell would exceed the
vertical budget left in the column, page height minus bottom margin minus the
reserved footnote height. -/
def SpecCursor.columnBreak (g : CursorGeometry) (c : SpecCursor) : Bool :=
  decide (c.y + g.columnHeight + g.padding > g.pageHeight - g.bottomMargin - g.footnoteReserve)

/-- Specification: on a column break the column index increments and Y resets
to the top margin plus the header offset, which applies on a first page only. -/
def SpecCursor.afterColumnBreak (g : CursorGeometry) (c : SpecCursor) : SpecCursor :=
  if c.columnBreak g then
    { c with column := c.column + 1,
             y := g.topMargin + (if c.firstPage then g.headerOffset else 0) }
  else c

/-- Specification, ColumnBreak → PageBreak: the resulting column index reaches
the column count. -/
def SpecCursor.pageBreak (g : CursorGeometry) (c : SpecCursor) : Bool :=
  decide ((c.afterColumnBreak g).column ≥ g.colNum)

/-- Specification: on a page break the column index resets to 0, Y to the top
margin, and the first-page flag becomes false. -/
def SpecCursor.step (g : CursorGeometry) (c : SpecCursor) : SpecCursor :=
  if c.pageBreak g then { column := 0, y := g.topMargin, firstPage := false }
  else c.afterColumnBreak g

/-- The geometry `writeEntry` works with when it is entered with receiver `dir`,
first-page flag `firstPage` and effective options `displayOptions`. -/
def entryGeometry (dir : PdfDir) (firstPage : Bool) (displayOptions : Section) : CursorGeometry :=
  { pageHeight := dir.pdf.h
    topMargin := dir.pdf.tMargin
    bottomMargin := dir.pdf.bMargin
    columnHeight := dir.columnHeight
    padding := dir.padding
    colNum := dir.colNum
    headerOffset := if firstPage then ((dir.fontSize + 2) / dir.pdf.k) * 2 else 0
    footnoteReserve :=
      if displayOptions.BaptismFootnote || displayOptions.NewMemberFootnote then dir.pdf.fontSize
      else 0 }

/-- The receiver at the moment `writeEntry` calls `writeFooter` in a page break:
left margin and abscissa at `leftMargin`, ordinate at the bottom margin line. -/
def atPageBottom (dir : PdfDir) (columnBreak firstPage : Bool) : PdfDir :=
  let startOffset : ℚ := if firstPage then ((dir.fontSize + 2) / dir.pdf.k) * 2 else 0
  let f := if columnBreak then dir.pdf.SetY (dir.pdf.tMargin + startOffset) else dir.pdf
  { dir with
    pdf := ((f.SetLeftMargin dir.leftMargin).SetX dir.leftMargin).SetY (dir.pdf.h - dir.pdf.bMargin) }

/-! ## The cell budget of a roster section -/

/-- The height of one roster cell: `columnHeight + padding`. -/
def cellHeight (dir : PdfDir) : ℚ := dir.columnHeight + dir.padding

/-- The header offset of a first page: two lines of the header font. -/
def headerOffset (dir : PdfDir) : ℚ := ((dir.fontSize + 2) / dir.pdf.k) * 2

/-- The footnote reserve of a section: one line of the text font when either
footnote flag is enabled. -/
def footnoteReserve (dir : PdfDir) (displayOptions : Section) : ℚ :=
  if displayOptions.BaptismFootnote || displayOptions.NewMemberFootnote then
    dir.fontSize / dir.pdf.k
  else 0

/-- The height available to cells in one column of the first page of a section:
from the top margin plus the header offset down to the page height minus the
bottom margin minus the footnote reserve. -/
def firstPageColumnHeight (dir : PdfDir) (displayOptions : Section) : ℚ :=
  (dir.pdf.h - dir.bottomMargin - footnoteReserve dir displayOptions)
    - (dir.topMargin + headerOffset dir)

/-- The surface while the header of a section is drawn: the frame is that of the
section, the font is regular, the cursor is on the top margin line, and the
trace holds `e` name cells and `p` explicit pages. -/
structure SurfaceAtTop (dir : PdfDir) (e p : Nat) (f : Pdf) : Prop where
  tMargin : f.tMargin = dir.topMargin
  bMargin : f.bMargin = dir.bottomMargin
  pageHeight : f.h = dir.pdf.h
  ratio : f.k = dir.pdf.k
  fontStyle : f.fontStyle = ""
  atTop : f.y = dir.topMargin
  entries : entryCount f.ops = e
  pages : explicitPages f.ops = p

/-- Invariant of the roster loop of a section started from `dir0`, relative to
`e0` name cells and `p0` explicit pages in the trace when the loop starts: the
configuration and the frame of the surface are those of the section, the
column index is a natural number below the column count, the ordinate is a
whole number `j` of cells below the top of the column, and `n` name cells and
`b` page breaks later, `b` full pages of `C` cells per column, the columns to
the left and the `j` cells above are all accounted for by `n`. -/
structure RosterInv (dir0 : PdfDir) (C e0 p0 : Nat) (st : ℚ × Bool × PdfDir) : Prop where
  topMargin : st.2.2.topMargin = dir0.topMargin
  bottomMargin : st.2.2.bottomMargin = dir0.bottomMargin
  columnHeight : st.2.2.columnHeight = dir0.columnHeight
  padding : st.2.2.padding = dir0.padding
  colNum : st.2.2.colNum = dir0.colNum
  fontSize : st.2.2.fontSize = dir0.fontSize
  tMargin : st.2.2.pdf.tMargin = dir0.topMargin
  bMargin : st.2.2.pdf.bMargin = dir0.bottomMargin
  pageHeight : st.2.2.pdf.h = dir0.pdf.h
  ratio : st.2.2.pdf.k = dir0.pdf.k
  fontSizePt : st.2.2.pdf.fontSizePt = dir0.fontSize
  fontStyle : st.2.2.pdf.fontStyle = ""
  cursor : ∃ col j n b : Nat, st.1 = (col : ℚ) ∧ (col : ℚ) < dir0.colNum
    ∧ st.2.2.pdf.y = dir0.topMargin + (if st.2.1 then headerOffset dir0 else 0)
        + (j : ℚ) * cellHeight dir0
    ∧ entryCount st.2.2.pdf.ops = e0 + n
    ∧ explicitPages st.2.2.pdf.ops = p0 + b
    ∧ (b : ℚ) * C * dir0.colNum + (col : ℚ) * C + (j : ℚ) ≤ (n : ℚ)

/-! ## Observations on the drawing trace -/

/-- The font size (in points) of the most recent drawing call when that call is
a cell. -/
def lastCellSize : List Op → Option ℚ
  | .cell _ _ _ _ _ sizePt _ _ :: _ => some sizePt
  | _ => none

/-! ## Phone format as the specification words it -/

/-- The last seven digits of `p` grouped as `###-####`. -/
def lastSevenGroup (p : Int) : String :=
  fmtZeroPad 3 ((p / 10000) % 1000) ++ "-" ++ fmtZeroPad 4 (p % 10000)

/-- The three-digit area-code group of `p`, digits eight to ten, with its dash. -/
def areaCodeGroup (p : Int) : String := fmtZeroPad 3 ((p / 10000000) % 1000) ++ "-"

/-- The country-code prefix of `p`: a plus sign, the digits above the tenth, a
blank. -/
def countryCodeGroup (p : Int) : String := "+" ++ fmtInt (p / 10000000000) ++ " "

/-! ## Calendar arithmetic and `dateDiff` -/

/-- Leap years of the proleptic Gregorian calendar of Go's `time` package. -/
def isLeapYear (y : Int) : Bool := decide (y % 4 = 0 ∧ (y % 100 ≠ 0 ∨ y % 400 = 0))

/-- The number of days of month `m` (1 to 12) of year `y`. -/
def daysInMonth (y : Int) (m : Nat) : Nat :=
  if m = 2 then (if isLeapYear y then 29 else 28)
  else if m = 4 ∨ m = 6 ∨ m = 9 ∨ m = 11 then 30
  else 31

/-- The calendar fields that a `time.Time` can hold: a month from 1 to 12, a day
of that month, a clock below 24:00:00. -/
def Time.Valid (t : Time) : Prop :=
  1 ≤ t.month ∧ t.month ≤ 12 ∧ 1 ≤ t.day ∧ t.day ≤ daysInMonth t.year t.month
    ∧ t.hour < 24 ∧ t.min < 60 ∧ t.sec < 60

/-- Validity of the calendar fields can be computed. -/
instance Time.decidableValid (t : Time) : Decidable t.Valid := by
  unfold Time.Valid
  infer_instance

/-- The same clock on the next calendar day. -/
def Time.nextDay (t : Time) : Time :=
  if t.day < daysInMonth t.year t.month then { t with day := t.day + 1 }
  else if t.month < 12 then { t with month := t.month + 1, day := 1 }
  else { t with year := t.year + 1, month := 1, day := 1 }

/-- The same clock on the previous calendar day. -/
def Time.prevDay (t : Time) : Time :=
  if 1 < t.day then { t with day := t.day - 1 }
  else if 1 < t.month then
    { t with month := t.month - 1, day := daysInMonth t.year (t.month - 1) }
  else { t with year := t.year - 1, month := 12, day := 31 }

/-- The instant `n` days (of 24 hours) later, in the same location. -/
def Time.addDays : Nat → Time → Time
  | 0, t => t
  | n + 1, t => Time.addDays n t.nextDay

/-- The instant `n` days (of 24 hours) earlier, in the same location. -/
def Time.subDays : Nat → Time → Time
  | 0, t => t
  | n + 1, t => Time.subDays n t.prevDay

/-- The method `Time.In` for a location at `zone` seconds east of UTC: the same
instant, read on the calendar and the clock of that location. -/
def Time.In (t : Time) (zone : Int) : Time :=
  let s : Int := (t.hour : Int) * 3600 + (t.min : Int) * 60 + (t.sec : Int) + (zone - t.zone)
  let dayShift : Int := s / 86400
  let r : Nat := (s % 86400).toNat
  let t1 := if 0 ≤ dayShift then Time.addDays dayShift.toNat t else Time.subDays dayShift.natAbs t
  { t1 with hour := r / 3600, min := (r % 3600) / 60, sec := r % 60, zone := zone }

/-- The method `Time.After` on two values read in the same location: the later
instant has the lexicographically larger date and clock. Fractions of a second
are not modelled: `dateDiff` reads whole seconds only, and two values that
agree in every whole field give the same result in either order. For two values
at different offsets see `Time.AfterInstant`. -/
def Time.After (a b : Time) : Bool :=
  decide (a.year > b.year ∨ (a.year = b.year ∧ (a.month > b.month ∨ (a.month = b.month ∧
    (a.day > b.day ∨ (a.day = b.day ∧ (a.hour > b.hour ∨ (a.hour = b.hour ∧
      (a.min > b.min ∨ (a.min = b.min ∧ a.sec > b.sec))))))))))

/-- The six results of `dateDiff`. -/
structure DateDiff where
  year : Int
  month : Int
  day : Int
  hour : Int
  min : Int
  sec : Int
deriving DecidableEq

/-- Lines 239-276 of `dateDiff`, for `a` not after `b`, both in the same
location: the field differences, and the borrows from seconds up to years. The
day borrow adds `32 - t.Day()` for `t` the 32nd of the month of `a`, which
`time.Date` normalizes into the following month. -/
def dateDiffOrdered (a b : Time) : DateDiff :=
  let year : Int := b.year - a.year
  let month : Int := (b.month : Int) - (a.month : Int)
  let day : Int := (b.day : Int) - (a.day : Int)
  let hour : Int := (b.hour : Int) - (a.hour : Int)
  let min : Int := (b.min : Int) - (a.min : Int)
  let sec : Int := (b.sec : Int) - (a.sec : Int)
  let min := if sec < 0 then min - 1 else min
  let sec := if sec < 0 then sec + 60 else sec
  let hour := if min < 0 then hour - 1 else hour
  let min := if min < 0 then min + 60 else min
  let day := if hour < 0 then day - 1 else day
  let hour := if hour < 0 then hour + 24 else hour
  let tDay : Int := 32 - (daysInMonth a.year a.month : Int)
  let month := if day < 0 then month - 1 else month
  let day := if day < 0 then day + (32 - tDay) else day
  let year := if month < 0 then year - 1 else year
  let month := if month < 0 then month + 12 else month
  { year := year, month := month, day := day, hour := hour, min := min, sec := sec }

/-- Lines 236-276 of `dateDiff`, for two values in the same location: the two
are swapped when the first is after the second. -/
def dateDiffSameLocation (a b : Time) : DateDiff :=
  if a.After b then dateDiffOrdered b a else dateDiffOrdered a b

/-- The function `dateDiff` on two values whose locations are fixed offsets from
UTC, each location read off the field `zone` of its value (the case of the one
call in the code, where the first value is a birthday at UTC): when the
locations differ, the second value is first read in the location of the first.
For locations that change their offset see `dateDiffIn`. -/
def dateDiff (a b : Time) : DateDiff :=
  dateDiffSameLocation a (if a.zone ≠ b.zone then b.In a.zone else b)

/-- Lines 1176-1184 of `writeChildren`: the age text of a child. -/
def ageText (birthday now : Time) : String :=
  let d := dateDiff birthday now
  if d.month = 0 ∧ d.year = 0 then fmtInt d.day ++ " days"
  else if d.year = 0 then fmtInt d.month ++ " mos."
  else fmtInt d.year

/-- The first day of the month after the month of `t`, at the clock of `t`. -/
def Time.firstOfNextMonth (t : Time) : Time :=
  if t.month < 12 then { t with month := t.month + 1, day := 1 }
  else { t with year := t.year + 1, month := 1, day := 1 }

/-! ## `dateDiff` on locations that change their offset -/

/-- A `*time.Location` as `dateDiff` meets it: a location at a fixed offset
east of UTC (in seconds; `time.UTC` is the one at 0), or a location that
changes its offset once, from `before` to `after` at the instant `change`
(given as read at UTC), as a location with daylight-saving time does. -/
inductive Location where
  | fixed (offset : Int)
  | shifting (name : String) (before : Int) (change : Time) (after : Int)
deriving DecidableEq

/-- The offset east of UTC that the location has in force at the instant of
`t`. -/
def Location.offsetAt : Location → Time → Int
  | .fixed offset, _ => offset
  | .shifting _ before change after, t => if change.After (t.In 0) then before else after

/-- The method `Time.After` on two values at any two offsets: the instants are
compared, the second value being read at the offset of the first. -/
def Time.AfterInstant (a b : Time) : Bool :=
  a.After (if a.zone = b.zone then b else b.In a.zone)

/-- The function `dateDiff` on two values given with their locations `la` and
`lb`; the field `zone` of a value is the offset that its location has in force
at its instant. When the locations differ, the second value is first read in
the location of the first; the two are swapped when the first instant is after
the second; the differences are taken on the dates and clocks. -/
def dateDiffIn (la lb : Location) (a b : Time) : DateDiff :=
  let b := if la ≠ lb then b.In (la.offsetAt b) else b
  if a.AfterInstant b then dateDiffOrdered b a else dateDiffOrdered a b

/-! ## Children section (`writeChildren`): the texts of the household loop

The household loop of `writeChildren` (lines 1036-1227) is embedded at the level
of what it passes to `Write`: for each household that is not skipped, the parent
label and, per child, the texts of the child line, in call order. The resolver
calls and their effect on the receiver are kept. The coordinates, the rules
drawn with `Line`, the column and page breaks and the header drawn before the
loop do not decide which texts are written nor their order, and are not
embedded. -/

/-- The month of the layout `Jan` of `time.Time.Format`. -/
def monthAbbr (m : Nat) : String :=
  match m with
  | 1 => "Jan" | 2 => "Feb" | 3 => "Mar" | 4 => "Apr" | 5 => "May" | 6 => "Jun"
  | 7 => "Jul" | 8 => "Aug" | 9 => "Sep" | 10 => "Oct" | 11 => "Nov" | 12 => "Dec"
  | _ => ""

/-- The layout `"Jan 02, 2006"` of `time.Time.Format`. -/
def Time.formatBirthday (t : Time) : String :=
  monthAbbr t.month ++ " " ++ padNat 2 t.day ++ ", " ++ appendInt t.year 4

/-- Lines 1040-1057 of `writeChildren`: whether `householdLoop` goes on to draw
the household, and the receiver after the resolver call of line 1041. -/
def childrenFilter (env : Env) (dir : PdfDir) (h : Household) (displayOptions : Section) :
    Bool × PdfDir :=
  match h.Head with
  | some head =>
    let r := getSectionOverride env dir head displayOptions
    if !r.1.ShowHousehold || !r.1.ShowChildren then (false, r.2)
    else if isExcluded head displayOptions.ExcludeDirSections then (false, r.2)
    else if h.Children.length < 1 then (false, r.2)
    else (true, r.2)
  | none =>
    if h.Children.length < 1 then (false, dir) else (true, dir)

/-- The body of the loop of lines 1131-1139: the label after member `m`. -/
def labelStep (h : Household) (overrideOptions : Section) (str : String) (m : Person) : String :=
  if (match h.Head with
      | some head => m.LastName ≠ head.LastName && overrideOptions.Show
      | none => false) then
    str ++ " and " ++ m.FirstName ++ " " ++ m.LastName
  else if str ≠ "" then str ++ " and " ++ m.FirstName
  else m.LastName ++ ", " ++ m.FirstName

/-- Lines 1121-1139 of `writeChildren`: the parent label before translation,
and the receiver after the resolver call of line 1123. -/
def parentLabel (env : Env) (dir : PdfDir) (h : Household) (displayOptions : Section) :
    String × PdfDir :=
  let r : Section × PdfDir :=
    match h.Head with
    | some head => getSectionOverride env dir head displayOptions
    | none => ({ Section.zero with Show := true }, dir)
  let str :=
    match h.Head with
    | some head => if r.1.Show then head.LastName ++ ", " ++ head.FirstName else ""
    | none => ""
  (h.Members.foldl (labelStep h r.1) str, r.2)

/-- Line 1160: the sort key of a child. -/
def childKey (c : Person) : String := c.Birthday.formatISO ++ c.FirstName

/-- Lines 1154-1164: the slice `cKeys`, in the order in which `range h.Children`
yields the children. -/
def childKeys (children : List (String × Person)) : List String :=
  children.map (fun kc => childKey kc.2)

/-- Lines 1156-1164: the map `cKeyToId`. Entries written later come first in the
association list, so that a lookup finds the last write. -/
def cKeyToId (children : List (String × Person)) : List (String × String) :=
  (children.map (fun kc => (childKey kc.2, kc.1))).reverse

/-- Line 1170: `h.Children[cKeyToId[k]]`, absent keys reading as zero values. -/
def childOfKey (children : List (String × Person)) (k : String) : Person :=
  (children.lookup (((cKeyToId children).lookup k).getD "")).getD Person.zero

/-- Lines 1165-1170: the children in the order in which the loop over `cKeys`
visits them. `sort.Strings(cKeys)` sorts the slice in ascending order. The
next statement, `sort.Reverse(cKeys)`, only builds a value of type
`sort.Interface` whose `Less` is inverted; the statement drops that value and no
element of `cKeys` moves. -/
def childOrder (children : List (String × Person)) : List Person :=
  (sortStrings (childKeys children)).map (childOfKey children)

/-- Lines 1172-1223: the texts written on the line of child `c`, in call
order: the first name, then the age text and the birthday as `Age` and
`Birthday` ask. -/
def childLine (env : Env) (displayOptions : Section) (c : Person) : List String :=
  let text := ageText c.Birthday env.now
  if displayOptions.Age && displayOptions.Birthday then
    [env.translate c.FirstName, env.translate text, env.translate c.Birthday.formatBirthday]
  else if displayOptions.Age && !displayOptions.Birthday then
    [env.translate c.FirstName, env.translate text]
  else if !displayOptions.Age && displayOptions.Birthday then
    [env.translate c.FirstName, env.translate c.Birthday.formatBirthday]
  else
    [env.translate c.FirstName]

/-- What one pass of `householdLoop` writes: the parent label (line 1150) and
the child lines below it. -/
structure ChildrenBlock where
  label : String
  lines : List (List String)
deriving DecidableEq

/-- One pass of `householdLoop` (lines 1037-1226): nothing for a household that
is skipped, and else its block. -/
def writeChildrenHousehold (env : Env) (dir : PdfDir) (h : Household)
    (displayOptions : Section) : Option ChildrenBlock × PdfDir :=
  match childrenFilter env dir h displayOptions with
  | (false, dir1) => (none, dir1)
  | (true, dir1) =>
    let l := parentLabel env dir1 h displayOptions
    (some { label := env.translate l.1,
            lines := (childOrder h.Children).map (childLine env displayOptions) }, l.2)

/-- The passes of `householdLoop` over the households `hs`, in order. -/
def writeChildrenBlocks (env : Env) (dir : PdfDir) (hs : List Household)
    (displayOptions : Section) : List ChildrenBlock × PdfDir :=
  match hs with
  | [] => ([], dir)
  | h :: rest =>
    let r := writeChildrenHousehold env dir h displayOptions
    let rs := writeChildrenBlocks env r.2 rest displayOptions
    (match r.1 with
     | some b => b :: rs.1
     | none => rs.1, rs.2)

/-- The method `writeChildren`, as the blocks that it writes. The keys of lines
1022-1034 are built and sorted as in `writeSection`. -/
def writeChildren (env : Env) (dir : PdfDir) (entries : List (String × Household))
    (displayOptions : Section) : List ChildrenBlock × PdfDir :=
  writeChildrenBlocks env dir (visitOrder entries) displayOptions

/-- The parent label as the specification words it: the head as `Last, First`,
then for each member ` and First` when the member has the last name of the
head, and ` and First Last` when not. -/
def specLabel (head : Person) (members : List Person) : String :=
  members.foldl
    (fun s m =>
      if m.LastName = head.LastName then s ++ " and " ++ m.FirstName
      else s ++ " and " ++ m.FirstName ++ " " ++ m.LastName)
    (head.LastName ++ ", " ++ head.FirstName)

/-! ## The cells of a roster section as the specification words them -/

/-- The text of the name cell of person `p` in a section with options
`displayOptions`. -/
def cellName (env : Env) (displayOptions : Section) (p : Person) : String :=
  env.translate (entryName env p displayOptions)

/-- Two receivers that the resolver cannot tell apart: the same override table
and the same number of store reads. -/
def SameResolver (d1 d2 : PdfDir) : Prop :=
  d1.overrides = d2.overrides ∧ d1.storeReads = d2.storeReads

/-- Specification: of the persons `ps`, in list order, those whose effective
`Show` is true; the receiver carries the resolver from one person to the
next. -/
def keepShown (env : Env) (displayOptions : Section) : List Person → PdfDir → List Person × PdfDir
  | [], dir => ([], dir)
  | p :: rest, dir =>
    let r := getSectionOverride env dir p displayOptions
    let rs := keepShown env displayOptions rest r.2
    (if r.1.Show then p :: rs.1 else rs.1, rs.2)

/-- Specification: the cells of one household. None when the household has a
head whose effective `ShowHousehold` is false; otherwise the head, if present,
then the members in list order, keeping the persons whose effective `Show` is
true. -/
def householdCells (env : Env) (displayOptions : Section) (h : Household) (dir : PdfDir) :
    List Person × PdfDir :=
  match h.Head with
  | none => keepShown env displayOptions h.Members dir
  | some head =>
    let r := getSectionOverride env dir head displayOptions
    if !r.1.ShowHousehold then ([], r.2)
    else keepShown env displayOptions (head :: h.Members) r.2

/-- Specification: the cells of the households `hs`, household after
household. -/
def sectionCells (env : Env) (displayOptions : Section) : List Household → PdfDir →
    List Person × PdfDir
  | [], dir => ([], dir)
  | h :: rest, dir =>
    let r := householdCells env displayOptions h dir
    let rs := sectionCells env displayOptions rest r.2
    (r.1 ++ rs.1, rs.2)

/-- A surface in the regular font style whose name cells are `names`. -/
def Plain (names : List String) (f : Pdf) : Prop :=
  f.fontStyle = "" ∧ nameCells f.ops = names

/-- The column index of a roster loop state is a whole number below the column
count `colNum`, which is the column count of the receiver. -/
def ColumnInRange (colNum : ℚ) (st : ℚ × Bool × PdfDir) : Prop :=
  (∃ m : Nat, st.1 = m) ∧ st.1 < colNum ∧ st.2.2.colNum = colNum

/-- The left edge of a cell in column `column`, the expression
`dir.leftMargin + float64(lastColumn)*(dir.colWd+dir.gutter)` of line 656. -/
def cellLeft (dir : PdfDir) (column : ℚ) : ℚ :=
  dir.leftMargin + column * (dir.colWd + dir.gutter)

/-! ## Phone digits (`extractDigits`) -/

/-- The value of a string of decimal digits, most significant first. -/
def decimalValue (ds : List Char) : Nat :=
  ds.foldl (fun acc c => acc * 10 + (c.toNat - 48)) 0

/-- The function `extractDigits` of `pc_downloader.go`: the matches of
`[0-9]+`, joined, are the decimal digits of the string in order;
`strconv.ParseInt` in base 10 and 64 bits gives 0 on the empty string and the
largest `int64` on a value out of range, and the error is dropped. -/
def extractDigits (str : String) : Int :=
  let digits := str.data.filter (fun c => decide ('0' ≤ c ∧ c ≤ '9'))
  if digits = [] then 0
  else if decimalValue digits > 2 ^ 63 - 1 then 2 ^ 63 - 1
  else decimalValue digits

/-! ## Household update of `downloadPerson` -/

/-- What lines 545-648 of `downloadPerson` read from the response of one person
who is not a child: the id of the included household record (empty when there
is none) and its primary contact, the nickname, and the person of lines 662-672
and 687-708, names and id as in `res.Data`, before the nickname is applied. -/
structure PersonData where
  householdId : String
  householdHead : String
  nickName : String
  person : Person
deriving DecidableEq

/-- Lines 683-685: a nickname replaces the first name. -/
def PersonData.named (d : PersonData) : Person :=
  if d.nickName ≠ "" then { d.person with FirstName := d.nickName } else d.person

/-- The text `person.LastName + person.FirstName + person.Id` of lines 712 and
717, on the person after the nickname is applied. -/
def PersonData.sortKey (d : PersonData) : String :=
  d.named.LastName ++ d.named.FirstName ++ d.named.Id

/-- The map write `m[k] = v`. -/
def mapSet {α : Type} (m : List (String × α)) (k : String) (v : α) : List (String × α) :=
  (k, v) :: m.filter (fun e => e.1 ≠ k)

/-- Lines 650-727 of `downloadPerson`: the household of the person is created
when the map has none with that id, and the person becomes its head or one
more member. The two goroutines started on lines 674-682 write the thumbnail
flag of the person and the children of the household, and are not part of the
embedding. -/
def householdUpdate (households : List (String × Household)) (d : PersonData) :
    List (String × Household) :=
  let households :=
    if ((households.lookup d.householdId).getD Household.zero).Id = "" then
      mapSet households d.householdId
        { Id := d.householdId, SortKey := "", Members := [], Children := [], Head := none }
    else households
  let household := (households.lookup d.householdId).getD Household.zero
  let person := d.named
  let household :=
    if d.householdHead = person.Id then
      { household with Head := some person
                       SortKey := person.LastName ++ person.FirstName ++ person.Id }
    else
      { household with
        Members := household.Members ++ [person]
        SortKey :=
          if household.SortKey = "" then person.LastName ++ person.FirstName ++ person.Id
          else household.SortKey }
  mapSet households d.householdId household

/-- The SortKey of one household along the persons processed, as
`householdUpdate` moves it: the key of a head replaces it, the key of a member
fills it when it is empty. -/
def anchorKey (head : String) (s : String) (d : PersonData) : String :=
  if head = d.named.Id then d.sortKey else if s = "" then d.sortKey else s

/-- The map `households` has under `hid` a household with that id and SortKey
`s`, or no household at all and `s` is empty. -/
def TracksSortKey (households : List (String × Household)) (hid s : String) : Prop :=
  (households.lookup hid = none ∧ s = "")
  ∨ ∃ h, households.lookup hid = some h ∧ h.Id = hid ∧ h.SortKey = s

/-! ## List pagination (`downloadList`, `downloadListPage`) -/

/-- What `downloadListPage` reads from a `PCListResponse`: the ids of the
included people and `Meta.Next.Offset`. -/
structure ListPage where
  included : List Int
  nextOffset : Int
deriving DecidableEq

/-- The collaborators of the list download: `listUrl` is the field of the
downloader, `escape` is `url.QueryEscape`, `fetch url` is `downloadContent`
followed by `json.Unmarshal` (`none` when the download fails), and
`downloadPeople` is the method of that name on the people of one page. -/
structure ListEnv where
  listUrl : String
  escape : String → String
  fetch : String → Option ListPage
  downloadPeople : List Int → List (String × Household) → List (String × Household) × Bool

/-- The four results of `downloadListPage`, and the URL it requested. -/
structure ListPageResult where
  households : List (String × Household)
  offset : Int
  dataRemaining : Bool
  err : Bool
  requested : String
deriving DecidableEq

/-- The function `downloadListPage`. The URL is formatted from `offset`, the
named result, which is 0 when line 444 runs; the parameter `oldOffset` is not
read. A nil map is the empty list. -/
def downloadListPage (env : ListEnv) (listName : String)
    (prevHouseholds : List (String × Household)) (oldOffset : Int) : ListPageResult :=
  let offset : Int := 0
  let dataRemaining := false
  let remoteUrl := env.listUrl ++ "?include=people&per_page=100&offset=" ++ fmtInt offset
    ++ "&where[name]=" ++ env.escape listName
  match env.fetch remoteUrl with
  | none =>
    { households := [], offset := offset, dataRemaining := dataRemaining, err := true,
      requested := remoteUrl }
  | some res =>
    let r := env.downloadPeople res.included prevHouseholds
    if res.nextOffset > 0 then
      { households := r.1, offset := res.nextOffset, dataRemaining := true, err := r.2,
        requested := remoteUrl }
    else
      { households := r.1, offset := offset, dataRemaining := dataRemaining, err := r.2,
        requested := remoteUrl }

/-- The loop of `downloadList` from the state (households, offset), with the
URLs requested so far, oldest first; `none` when `fuel` iterations do not end
it. -/
def downloadListLoop (env : ListEnv) (listName : String) :
    Nat → List (String × Household) → Int → List String →
      Option (List (String × Household) × Bool × List String)
  | 0, _, _, _ => none
  | fuel + 1, households, offset, urls =>
    let r := downloadListPage env listName households offset
    if r.dataRemaining then
      downloadListLoop env listName fuel r.households r.offset (urls ++ [r.requested])
    else some (r.households, r.err, urls ++ [r.requested])

/-- The function `downloadList`: the households, the error, and the URLs
requested. -/
def downloadList (env : ListEnv) (fuel : Nat) (listName : String) :
    Option (List (String × Household) × Bool × List String) :=
  downloadListLoop env listName fuel [] 0 []

/-- The URL of the page of a list at `offset`, as the people API and line 444
format it. -/
def listPageUrl (env : ListEnv) (listName : String) (offset : Int) : String :=
  env.listUrl ++ "?include=people&per_page=100&offset=" ++ fmtInt offset
    ++ "&where[name]=" ++ env.escape listName

/-! ## The driver (`generatePDF`, `setupPDF`) -/

/-- The struct `Config` of `pc_pdf_generator.go`. -/
structure Config where
  Id : Int
  TopMargin : ℚ
  LeftMargin : ℚ
  BottomMargin : ℚ
  RightMargin : ℚ
  PageSize : String
  NumberOfColumns : ℚ
  Padding : ℚ
  Gutter : ℚ
  ImagePadding : ℚ
  ColumnHeight : ℚ
  FontSize : ℚ
  FontFamily : String
  LineHeight : ℚ
  HighlightOpacity : ℚ
  Sections : List Section
deriving DecidableEq

/-- The collaborators of the driver: whether the transliteration table loads,
the domain of the downloader, the document that `gofpdf.New` returns for a page
size (for a size it does not know the library records an error inside the
document, which `setupPDF` does not read), the method `downloadList` as the
households of a list and whether it returned an error, and whether `closePDF`
returns without error. -/
structure DriverEnv where
  translatorOk : Bool
  domain : String
  newPdf : String → Pdf
  downloadList : String → List (String × Household) × Bool
  closeOk : Bool

/-- One call of a composer, or of the finalization, with its arguments. -/
inductive ComposerCall where
  | writeSection (entries : List (String × Household)) (header : String)
      (displayOptions : Section)
  | writeChildren (entries : List (String × Household)) (header : String)
      (displayOptions : Section)
  | writeFirstNames (entries : List (String × Household)) (header : String)
  | closePDF (fileName : String)
deriving DecidableEq

/-- The name of the method called. -/
def ComposerCall.name : ComposerCall → String
  | .writeSection _ _ _ => "writeSection"
  | .writeChildren _ _ _ => "writeChildren"
  | .writeFirstNames _ _ => "writeFirstNames"
  | .closePDF _ => "closePDF"

/-- The header passed to a composer (the file name for `closePDF`). -/
def ComposerCall.header : ComposerCall → String
  | .writeSection _ header _ => header
  | .writeChildren _ header _ => header
  | .writeFirstNames _ header => header
  | .closePDF fileName => fileName

/-- What a run of `generatePDF` comes to: whether it returns an error, and the
composer calls it made, oldest first. -/
structure GenResult where
  err : Bool
  calls : List ComposerCall
deriving DecidableEq

/-- Lines 88-108 of `generatePDF`: the receiver of the composers. The fields
that the literal leaves out are zero values; `blank` stands for the nil
document, which `setupPDF` replaces. -/
def newPdfDir (genv : DriverEnv) (config : Config) (fileId : String) (blank : Pdf) : PdfDir :=
  { topMargin := config.TopMargin, leftMargin := config.LeftMargin,
    bottomMargin := config.BottomMargin, rightMargin := config.RightMargin,
    pageSize := config.PageSize, colNum := config.NumberOfColumns, padding := config.Padding,
    gutter := config.Gutter, imagePadding := config.ImagePadding,
    columnHeight := config.ColumnHeight, fontFamily := config.FontFamily,
    fontSize := config.FontSize, lineHeight := config.LineHeight,
    highlightOpacity := config.HighlightOpacity,
    fileName := genv.domain ++ "/pdfs/directory-" ++ fileId ++ ".pdf",
    domain := genv.domain, firstNameColumns := 6,
    colWd := 0, imageWidth := 0, textWidth := 0, overrides := none, pdf := blank,
    gountries := false, storeReads := 0, warnings := [] }

/-- What `setupPDF` leaves behind: whether it returns an error, the document
`dir.pdf` and the column width `dir.colWd`. The column width is `none` when the
`float64` quotient of line 292 is not a number: with a column count of 0 it is
an infinity or NaN. -/
structure SetupResult where
  err : Bool
  pdf : Pdf
  colWd : Option ℚ
deriving DecidableEq

/-- The method `setupPDF`: a new document, the fonts, a cell margin of 0 and
the column width. The field `err` is `err != nil`: no statement assigns
`err`. -/
def setupPDF (genv : DriverEnv) (dir : PdfDir) : SetupResult :=
  let f := genv.newPdf dir.pageSize
  let width := f.w
  let f := { f with cMargin := 0 }
  { err := false
    pdf := f
    colWd :=
      if dir.colNum = 0 then none
      else
        some ((width - dir.leftMargin - dir.rightMargin - ((dir.colNum - 1) * dir.gutter))
          / dir.colNum) }

/-- One block `if len(config.Sections) > i && config.Sections[i].Show` of
`generatePDF` that downloads the list of section `i` and composes its roster.
The boolean is `true` when the download fails and `generatePDF` returns. -/
def rosterBlock (genv : DriverEnv) (config : Config) (i : Nat) (calls : List ComposerCall) :
    Bool × List ComposerCall :=
  if config.Sections.length > i ∧ (config.Sections.getD i Section.zero).Show = true then
    let r := genv.downloadList (config.Sections.getD i Section.zero).ListName
    if r.2 then (true, calls)
    else
      (false, calls ++ [.writeSection r.1 (config.Sections.getD i Section.zero).Header
        (config.Sections.getD i Section.zero)])
  else (false, calls)

/-- The function `generatePDF`, as the composer calls it makes. `none` when
`config.Sections` is empty: line 118 indexes it at 0. The errors that
`writeSection`, `writeChildren` and `writeFirstNames` return are dropped by the
code. -/
def generatePDF (genv : DriverEnv) (config : Config) (fileId : String) (blank : Pdf) :
    Option GenResult :=
  if !genv.translatorOk then some { err := true, calls := [] }
  else
    let pdfDir := newPdfDir genv config fileId blank
    if (setupPDF genv pdfDir).err then some { err := true, calls := [] }
    else
    match config.Sections with
    | [] => none
    | s0 :: _ =>
    let s3 := config.Sections.getD 3 Section.zero
    let s8 := config.Sections.getD 8 Section.zero
    let need : Bool := s0.Show || (decide (config.Sections.length > 3) && s3.Show)
      || (decide (config.Sections.length > 8) && s8.Show)
    let r := if need then genv.downloadList s0.ListName else ([], false)
    if need && r.2 then some { err := true, calls := [] }
    else
    let members := r.1
    let calls : List ComposerCall :=
      if s0.Show then [.writeSection members s0.Header s0] else []
    match rosterBlock genv config 1 calls with
    | (true, calls) => some { err := true, calls := calls }
    | (false, calls) =>
    match rosterBlock genv config 2 calls with
    | (true, calls) => some { err := true, calls := calls }
    | (false, calls) =>
    let calls :=
      if config.Sections.length > 3 ∧ s3.Show = true then
        calls ++ [.writeChildren members s3.Header s3]
      else calls
    match rosterBlock genv config 4 calls with
    | (true, calls) => some { err := true, calls := calls }
    | (false, calls) =>
    match rosterBlock genv config 5 calls with
    | (true, calls) => some { err := true, calls := calls }
    | (false, calls) =>
    match rosterBlock genv config 6 calls with
    | (true, calls) => some { err := true, calls := calls }
    | (false, calls) =>
    match rosterBlock genv config 7 calls with
    | (true, calls) => some { err := true, calls := calls }
    | (false, calls) =>
    let calls :=
      if config.Sections.length > 8 ∧ s8.Show = true then
        calls ++ [.writeFirstNames members s8.Header]
      else calls
    some { err := !genv.closeOk, calls := calls ++ [.closePDF pdfDir.fileName] }

/-! ## The composer order as the code has it -/

/-- The households that section 0, the children section and the index share:
the list of section 0, downloaded when one of the three is shown. -/
def sharedMembers (genv : DriverEnv) (config : Config) : List (String × Household) :=
  if (config.Sections.getD 0 Section.zero).Show
      || (decide (config.Sections.length > 3) && (config.Sections.getD 3 Section.zero).Show)
      || (decide (config.Sections.length > 8) && (config.Sections.getD 8 Section.zero).Show) then
    (genv.downloadList (config.Sections.getD 0 Section.zero).ListName).1
  else []

/-- The composer call of section `i`, when the section exists and is shown:
the children composition for section 3, the index composition for section 8,
a roster composition for every other section. -/
def sectionCall (genv : DriverEnv) (config : Config) (i : Nat) : List ComposerCall :=
  let s := config.Sections.getD i Section.zero
  if config.Sections.length > i ∧ s.Show = true then
    if i = 0 then [.writeSection (sharedMembers genv config) s.Header s]
    else if i = 3 then [.writeChildren (sharedMembers genv config) s.Header s]
    else if i = 8 then [.writeFirstNames (sharedMembers genv config) s.Header]
    else [.writeSection (genv.downloadList s.ListName).1 s.Header s]
  else []

/-- The composer calls in the order of the section indices 0 to 8, then the
finalization. -/
def composerOrder (genv : DriverEnv) (config : Config) (fileId : String) : List ComposerCall :=
  ((List.range 9).map (sectionCall genv config)).flatten
    ++ [.closePDF (genv.domain ++ "/pdfs/directory-" ++ fileId ++ ".pdf")]

/-! ## Index composer (`writeFirstNames`) -/

/-- The literal `Section{Show: true}` that `writeFirstNames` passes to the
resolver. -/
def showOnly : Section := { Section.zero with Show := true }

/-- The key `FirstName + LastName` of lines 864 and 870. -/
def firstNameKey (p : Person) : String := p.FirstName ++ p.LastName

/-- The text `p.FirstName + " " + p.LastName` of line 927. -/
def indexName (env : Env) (p : Person) : String :=
  env.translate (p.FirstName ++ " " ++ p.LastName)

/-- Lines 822-849 of `writeFirstNames`: the header of `writeSection` with the
font, abscissa and left margin set a second time. -/
def writeFirstNamesHeader (env : Env) (dir : PdfDir) (header : String) : PdfDir :=
  let f := sectionFirstPage dir
  let f := f.SetFont dir.fontFamily "" (dir.fontSize + 2)
  let f := f.SetX dir.leftMargin
  let f := f.SetLeftMargin dir.leftMargin
  let boldLineHeight := f.fontSize
  let textWidth := Pdf.GetStringWidth env f (env.translate header)
  let f := f.CellFormat textWidth boldLineHeight (env.translate header) 0 "LC"
  let f := f.SetFont dir.fontFamily "" dir.fontSize
  let textWidth := Pdf.GetStringWidth env f (env.translate env.now.formatAsOf)
  let leftMargin := f.lMargin
  let lineHeight := f.fontSize
  let width := f.w
  let f := f.SetLeftMargin (width - textWidth - dir.rightMargin)
  let f := f.CellFormat textWidth lineHeight (env.translate env.now.formatAsOf) 0 "RC"
  let f := f.SetLeftMargin leftMargin
  let f := f.SetY (f.y + boldLineHeight * 2)
  { dir with pdf := f }

/-- The state of `householdLoop` in `writeFirstNames`: the map `entriesKeyed`,
the slice `keys` and the receiver. -/
structure IndexKeys where
  entriesKeyed : List (String × Person)
  keys : List String
  dir : PdfDir

/-- Lines 863-866 and 869-872: one person enters the map and the slice. -/
def IndexKeys.add (st : IndexKeys) (p : Person) : IndexKeys :=
  { st with entriesKeyed := mapSet st.entriesKeyed (firstNameKey p) p
            keys := st.keys ++ [firstNameKey p] }

/-- One pass of `householdLoop` (lines 855-873). -/
def collectHousehold (env : Env) (st : IndexKeys) (h : Household) : IndexKeys :=
  match h.Head with
  | some head =>
    let r := getSectionOverride env st.dir head showOnly
    if !r.1.ShowHousehold then { st with dir := r.2 }
    else h.Members.foldl IndexKeys.add ({ st with dir := r.2 }.add head)
  | none => h.Members.foldl IndexKeys.add st

/-- Lines 896-928: one pass of `memberLoop`, for the key `k`. The local values
`left`, `top`, `bottom`, `height` and `colWd` are read before the loop. -/
def writeFirstName (env : Env) (fuel : Nat) (entriesKeyed : List (String × Person))
    (left top bottom height colWd : ℚ) (st : ℚ × Bool × PdfDir) (k : String) :
    Option (ℚ × Bool × PdfDir) :=
  let p := (entriesKeyed.lookup k).getD Person.zero
  let r := getSectionOverride env st.2.2 p showOnly
  if !r.1.Show then some (st.1, st.2.1, r.2)
  else
    let dir := r.2
    let lastColumn := st.1
    let firstPage := st.2.1
    let columnBreak : Bool := decide (dir.pdf.y + dir.lineHeight > height - bottom)
    let lastColumn := if columnBreak then lastColumn + 1 else lastColumn
    let startOffset : ℚ := if firstPage then dir.fontSize + 2 else 0
    let f := if columnBreak then dir.pdf.SetY (top + startOffset) else dir.pdf
    let pageBreak : Bool := decide (lastColumn ≥ dir.firstNameColumns)
    let f :=
      if pageBreak then
        ((((((f.SetLeftMargin dir.leftMargin).SetX dir.leftMargin).SetY (height - bottom)).AddPage).SetY
          top).SetX left).SetLeftMargin left
      else f
    let lastColumn := if pageBreak then 0 else lastColumn
    let firstPage := if pageBreak then false else firstPage
    let x := dir.leftMargin + lastColumn * colWd
    let f := (f.SetLeftMargin x).SetX x
    match shrinkedCell env fuel f dir.textWidth dir.lineHeight (indexName env p) "L" with
    | none => none
    | some f => some (lastColumn, firstPage, { dir with pdf := f })

/-- The loop `memberLoop` over the sorted keys. -/
def writeFirstNameLines (env : Env) (fuel : Nat) (entriesKeyed : List (String × Person))
    (left top bottom height colWd : ℚ) :
    List String → ℚ × Bool × PdfDir → Option (ℚ × Bool × PdfDir)
  | [], st => some st
  | k :: rest, st =>
    match writeFirstName env fuel entriesKeyed left top bottom height colWd st k with
    | none => none
    | some st1 => writeFirstNameLines env fuel entriesKeyed left top bottom height colWd rest st1

/-- The method `writeFirstNames` on the map `entries`, given as its entries in
iteration order; it returns no error. `none` when a shrink loop does not end
within `fuel` iterations. -/
def writeFirstNames (env : Env) (fuel : Nat) (dir : PdfDir) (entries : List (String × Household))
    (header : String) : Option PdfDir :=
  let dir := writeFirstNamesHeader env dir header
  let st := (entries.map Prod.snd).foldl (collectHousehold env)
    { entriesKeyed := [], keys := [], dir := dir }
  let keys := sortStrings st.keys
  let dir := st.dir
  let count : ℚ := 6
  let left := dir.pdf.lMargin
  let top := dir.pdf.tMargin
  let bottom := dir.pdf.bMargin
  let width := dir.pdf.w
  let height := dir.pdf.h
  let colWd := (width - dir.leftMargin - dir.rightMargin) / count
  match writeFirstNameLines env fuel st.entriesKeyed left top bottom height colWd keys
      (0, true, dir) with
  | none => none
  | some st1 => some st1.2.2

/-- The texts of the left-aligned cells of a drawing trace, oldest first: the
lines that `shrinkedCell` draws with alignment `"L"`. -/
def lineCells (ops : List Op) : List String :=
  ops.reverse.filterMap (fun op =>
    match op with
    | .cell _ _ _ _ txt _ _ align => if align = "L" then some txt else none
    | _ => none)

/-- The width of the most recent drawing call when that call is a cell. -/
def lastCellWidth : List Op → Option ℚ
  | .cell _ _ w _ _ _ _ _ :: _ => some w
  | _ => none

/-- Specification: the people of the index, household after household: the
head, if present, then the members, of every household whose head does not
resolve `ShowHousehold = false`. -/
def indexPeople (env : Env) : List Household → PdfDir → List Person × PdfDir
  | [], dir => ([], dir)
  | h :: rest, dir =>
    match h.Head with
    | some head =>
      let r := getSectionOverride env dir head showOnly
      let rs := indexPeople env rest r.2
      (if !r.1.ShowHousehold then rs.1 else (head :: h.Members) ++ rs.1, rs.2)
    | none =>
      let rs := indexPeople env rest dir
      (h.Members ++ rs.1, rs.2)

/-- The map and the slice of `writeFirstNames` hold the people `ps`, added in
this order: the slice has their keys, and the map has under each key the
person added last with that key. -/
def HoldsPeople (st : IndexKeys) (ps : List Person) : Prop :=
  st.keys = ps.map firstNameKey
  ∧ ∀ k, st.entriesKeyed.lookup k = ps.reverse.find? (fun p => firstNameKey p == k)

/-! ## Concrete data used to run the definitions -/

/-- Jan Doe, born 1980-01-02, a member of directory section 463631. -/
def janDoe : Person :=
  { Person.zero with Id := "3", FirstName := "Jan", LastName := "Doe", Country := "US",
                     Birthday := ⟨1980, 1, 2, 0, 0, 0, 0⟩, DirectorySections := [("463631", true)] }

/-- A base Section that shows everything and excludes nobody. -/
def showAll : Section :=
  { Section.zero with Show := true, PhoneCount := 1, JobTitle := true, Employer := true,
                      Occupation := true, Children := true, School := true, Age := true,
                      Birthday := true, DateJoined := true, Address := true, City := true,
                      State := true, PostalCode := true, Country := true, Email := true,
                      Phones := true, NewMemberFootnote := true, BaptismFootnote := true }

/-- An override record for Jan Doe that keeps `Show` and clears every other flag. -/
def janOverride : Section :=
  { Section.zero with KeyFirstName := "Jan", KeyLastName := "Doe", KeyBirthday := "1980-01-02",
                      Show := true }

/-- An override table with one record, stored under Jan Doe's key. -/
def janTable : OverrideTable := [("jan-doe-1980-01-02", janOverride)]

/-- A table whose record under Jan Doe's key has an empty `KeyFirstName`. -/
def blankTable : OverrideTable := [("jan-doe-1980-01-02", Section.zero)]

/-- A letter page in millimetres, one page added, cursor at the top margin. -/
def pdfA : Pdf :=
  { page := 1, x := 10, y := 10, w := 2159 / 10, h := 2794 / 10, k := 360 / 127,
    lMargin := 10, tMargin := 10, rMargin := 10, bMargin := 10, cMargin := 0,
    autoPageBreak := true, pageBreakTrigger := 2694 / 10,
    fontFamily := "Arial Narrow", fontStyle := "", fontSizePt := 9,
    fillGray := 255, drawGray := 0, images := [], ops := [.addPage false] }

/-- A two-column configuration on `pdfA`, override table not loaded yet. -/
def dirA : PdfDir :=
  { leftMargin := 10, topMargin := 10, rightMargin := 10, bottomMargin := 10,
    pageSize := "Letter", colWd := 939 / 10, colNum := 2, firstNameColumns := 6,
    padding := 4, gutter := 8, imagePadding := 1, imageWidth := 0, columnHeight := 40,
    fontFamily := "Arial Narrow", fontSize := 9, lineHeight := 4, textWidth := 0,
    highlightOpacity := 1 / 10, overrides := none, fileName := "d/pdfs/directory-1.pdf",
    domain := "d", pdf := pdfA, gountries := false, storeReads := 0, warnings := [] }

/-- The configuration `dirA` with a single column of cells 100 high: two cells
of height 104 fit in a first-page column. -/
def dirTall : PdfDir := { dirA with colNum := 1, columnHeight := 100 }

/-- The function `strings.ToLower` on Basic Latin and Latin-1 Supplement, the
ranges of the names used below: the capitals A to Z and U+00C0 to U+00DE (the
sign U+00D7 apart) move up by 32. -/
def lowerLatin (s : String) : String :=
  String.mk (s.data.map (fun c =>
    if (65 ≤ c.toNat ∧ c.toNat ≤ 90) ∨ (192 ≤ c.toNat ∧ c.toNat ≤ 222 ∧ c.toNat ≠ 215) then
      Char.ofNat (c.toNat + 32)
    else c))

/-- The function `strings.ToUpper` on Basic Latin and Latin-1 Supplement: the
small letters a to z and U+00E0 to U+00FE (the sign U+00F7 apart) move down by
32, U+00FF goes to U+0178 and U+00B5 to U+039C. -/
def upperLatin (s : String) : String :=
  String.mk (s.data.map (fun c =>
    if (97 ≤ c.toNat ∧ c.toNat ≤ 122) ∨ (224 ≤ c.toNat ∧ c.toNat ≤ 254 ∧ c.toNat ≠ 247) then
      Char.ofNat (c.toNat - 32)
    else if c.toNat = 255 then Char.ofNat 376
    else if c.toNat = 181 then Char.ofNat 924
    else c))

/-- Collaborators whose override store answers every read with `r`. -/
def envWith (r : StoreRead) : Env :=
  { store := fun _ => r, translate := fun s => s, toLower := lowerLatin, toUpper := upperLatin,
    countryName := fun c => c,
    charWidth := fun _ _ _ => 500, now := ⟨2024, 3, 1, 12, 0, 0, 0⟩,
    bucketOk := true, clientOk := true, thumbnailOk := fun _ => true }

/-- John Smith, head of household A of the end-to-end scenario. -/
def johnSmith : Person :=
  { Person.zero with Id := "1", FirstName := "John", LastName := "Smith", Country := "US",
                     Address1 := "1 Main St", CellPhone := 5551234567,
                     Birthday := ⟨1975, 5, 6, 0, 0, 0, 0⟩ }

/-- Jane Smith, member of household A. -/
def janeSmith : Person :=
  { Person.zero with Id := "2", FirstName := "Jane", LastName := "Smith", Country := "US",
                     Address1 := "1 Main St", CellPhone := 5557654321,
                     Birthday := ⟨1977, 8, 9, 0, 0, 0, 0⟩ }

/-- Amy Doe, two years old at render time. -/
def amyDoe : Person :=
  { Person.zero with Id := "4", FirstName := "Amy", LastName := "Doe",
                     Birthday := ⟨2022, 2, 1, 0, 0, 0, 0⟩ }

/-- Ben Doe, three months old at render time. -/
def benDoe : Person :=
  { Person.zero with Id := "5", FirstName := "Ben", LastName := "Doe",
                     Birthday := ⟨2023, 12, 1, 0, 0, 0, 0⟩ }

/-- Household A: head John Smith, member Jane Smith, no children. -/
def householdA : Household :=
  { Id := "A", SortKey := "SmithJohn1", Members := [janeSmith], Children := [],
    Head := some johnSmith }

/-- Household B: no head, member Jan Doe, children Amy and Ben. -/
def householdB : Household :=
  { Id := "B", SortKey := "DoeJan3", Members := [janDoe],
    Children := [("4", amyDoe), ("5", benDoe)], Head := none }

/-- The Section of the scenario: Address, Phones (one number) and Birthday. -/
def scenarioSection : Section :=
  { Section.zero with Show := true, Header := "Members", Address := true, Phones := true,
                      PhoneCount := 1, Birthday := true }

/-- The map of the scenario, household A iterated first. -/
def scenarioEntries : List (String × Household) := [("A", householdA), ("B", householdB)]

/-- John1 Smith, person 23: last name + first name + id reads `SmithJohn123`. -/
def john1Smith : Person :=
  { Person.zero with Id := "23", FirstName := "John1", LastName := "Smith", Country := "US" }

/-- John Smith, person 123: last name + first name + id reads `SmithJohn123`. -/
def john123Smith : Person :=
  { Person.zero with Id := "123", FirstName := "John", LastName := "Smith", Country := "US" }

/-- A household anchored by John1 Smith (person 23). -/
def twinA : Household :=
  { Id := "A", SortKey := "SmithJohn123", Members := [john1Smith], Children := [], Head := none }

/-- A different household, anchored by John Smith (person 123), with the same
SortKey as `twinA`. -/
def twinB : Household :=
  { Id := "B", SortKey := "SmithJohn123", Members := [john123Smith], Children := [],
    Head := none }

/-- A text width of 12 units: Jan Doe's name line, eight characters of raw
width 500, measures 12.7 units at the 9 points of `pdfA`. -/
def narrowWidth : ℚ := 12

/-- An override record for John Smith that hides him and keeps his household
and its children. -/
def johnHidden : Section :=
  { Section.zero with KeyFirstName := "John", KeyLastName := "Smith",
                      KeyBirthday := "1975-05-06", ShowHousehold := true, ShowChildren := true }

/-- An override table with one record, stored under John Smith's key. -/
def johnHiddenTable : OverrideTable := [("john-smith-1975-05-06", johnHidden)]

/-- Kim Smith, born 2020-06-15. -/
def kimSmith : Person :=
  { Person.zero with Id := "7", FirstName := "Kim", LastName := "Smith",
                     Birthday := ⟨2020, 6, 15, 0, 0, 0, 0⟩ }

/-- Household C: head John Smith, members Jane Smith and Jan Doe, child Kim. -/
def householdC : Household :=
  { Id := "C", SortKey := "SmithJohn1", Members := [janeSmith, janDoe],
    Children := [("7", kimSmith)], Head := some johnSmith }

/-- The Section of the scenario, excluding the persons of directory section
463631 (Jan Doe is one). -/
def scenarioExcluding : Section := { scenarioSection with ExcludeDirSections := ["463631"] }

/-- John Smith as `downloadPerson` reads him: household 77, whose primary
contact is person 1. -/
def johnData : PersonData :=
  { householdId := "77", householdHead := "1", nickName := "", person := johnSmith }

/-- Jane Smith of the same household, with the nickname Janie. -/
def janeData : PersonData :=
  { householdId := "77", householdHead := "1", nickName := "Janie", person := janeSmith }

/-- A list of two pages: the page at offset 0 announces a next page at offset
100, and the page at offset 100 is the last. -/
def twoPages : ListEnv :=
  { listUrl := "https://api/lists", escape := fun s => s,
    fetch := fun url =>
      if url = "https://api/lists?include=people&per_page=100&offset=0&where[name]=Members" then
        some { included := [1, 2], nextOffset := 100 }
      else if url
          = "https://api/lists?include=people&per_page=100&offset=100&where[name]=Members" then
        some { included := [3], nextOffset := 0 }
      else none,
    downloadPeople := fun _ hs => (hs, false) }

/-- A blank document: every field at its zero value. -/
def blankPdf : Pdf :=
  { page := 0, x := 0, y := 0, w := 0, h := 0, k := 0, lMargin := 0, tMargin := 0, rMargin := 0,
    bMargin := 0, cMargin := 0, autoPageBreak := false, pageBreakTrigger := 0,
    fontFamily := "", fontStyle := "", fontSizePt := 0, fillGray := 0, drawGray := 0,
    images := [], ops := [] }

/-- A new letter document in millimetres: no page yet, margins of 1 cm. -/
def newLetter : Pdf :=
  { pdfA with page := 0, fontFamily := "", fontSizePt := 12, ops := [] }

/-- Collaborators that never fail: every list is the scenario. -/
def driverOk : DriverEnv :=
  { translatorOk := true, domain := "d", newPdf := fun _ => newLetter,
    downloadList := fun _ => (scenarioEntries, false), closeOk := true }

/-- A configuration with no column at all and the roster section "Members". -/
def configNoColumns : Config :=
  { Id := 1, TopMargin := 10, LeftMargin := 10, BottomMargin := 10, RightMargin := 10,
    PageSize := "Letter", NumberOfColumns := 0, Padding := 4, Gutter := 8, ImagePadding := 1,
    ColumnHeight := 40, FontSize := 9, FontFamily := "Arial Narrow", LineHeight := 4,
    HighlightOpacity := 1 / 10, Sections := [scenarioSection] }

/-- A section that is shown, with header and list `name`. -/
def shownSection (name : String) : Section :=
  { Section.zero with Show := true, Header := name, ListName := name }

/-- A configuration of nine sections: a roster, two hidden sections, the
children section, a roster, three hidden sections and the index. -/
def configNine : Config :=
  { configNoColumns with
    NumberOfColumns := 2
    Sections := [shownSection "Members", Section.zero, Section.zero, shownSection "Children",
      shownSection "Supported", Section.zero, Section.zero, Section.zero,
      shownSection "Index"] }

/-- The receiver `dirA` after a roster entry was drawn: `textWidth` is the
column width less the image column, 93.9 - 27. -/
def dirAfterRoster : PdfDir := { dirA with textWidth := 669 / 10 }

/-- The configuration `dirA` with a padding of -8 and the cursor at ordinate 2,
two units below the top edge of the page. -/
def dirLowPadding : PdfDir := { dirA with padding := -8, pdf := { pdfA with y := 2 } }

/-- The configuration `dirA` with the cursor at ordinate 250, where a cell of
height 44 does not fit above the bottom margin line at 269.4. -/
def dirBottom : PdfDir := { dirA with pdf := { pdfA with y := 250 } }

/-- The configuration `dirBottom` on a surface whose top margin is -20. -/
def dirNegativeTop : PdfDir := { dirA with pdf := { pdfA with y := 250, tMargin := -20 } }

/-- Six persons in three households with distinct SortKeys: household A,
household B and household C under the SortKey `Z`. -/
def sixEntries : List (String × Household) :=
  [("A", householdA), ("B", householdB), ("C", { householdC with SortKey := "Z" })]

/-- The configuration `dirA` with cells of height 4 on a page of height 40: three
cells fit in a first-page column, and the lines of one entry run over the
bottom margin line at 30. -/
def dirShort : PdfDir :=
  { dirA with columnHeight := 4, padding := 0, pdf := { pdfA with h := 40 } }

/-- The configuration `dirA` with a top margin of -20. -/
def dirNegativeTopMargin : PdfDir := { dirA with topMargin := -20 }

/-- A single column with a top margin of 0 and a padding of -8 on a page of
height 100: two cells of height 32 fit in a first-page column. -/
def dirNegativePadding : PdfDir :=
  { dirA with topMargin := 0, padding := -8, colNum := 1, pdf := { pdfA with h := 100 } }

/-- Émile Doe: a first name that starts with a capital outside ASCII. -/
def emileDoe : Person :=
  { Person.zero with Id := "9", FirstName := "Émile", LastName := "Doe", Country := "US",
                     Birthday := ⟨1990, 3, 4, 0, 0, 0, 0⟩ }

/-- An override record for Émile Doe that keeps `Show` and his household and
clears every other flag. -/
def emileOverride : Section :=
  { Section.zero with KeyFirstName := "Émile", KeyLastName := "Doe", KeyBirthday := "1990-03-04",
                      Show := true, ShowHousehold := true }

/-- An override table with one record, stored under the key of Émile Doe as
`strings.ToLower` writes it. -/
def emileTable : OverrideTable := [("émile-doe-1990-03-04", emileOverride)]

/-- The configuration `dirBottom` with a column count of 3/2 and the column
width that `setupPDF` computes for it on a letter page:
(215.9 - 10 - 10 - (3/2 - 1) · 8) / (3/2). -/
def dirFractional : PdfDir :=
  { dirBottom with colNum := 3 / 2, colWd := (2159 / 10 - 10 - 10 - (3 / 2 - 1) * 8) / (3 / 2) }

/-- The household `twinA` with one child, Kim Smith. -/
def twinKidsA : Household := { twinA with Children := [("7", kimSmith)] }

/-- The household `twinB`, of the same SortKey, with one child, Amy Doe. -/
def twinKidsB : Household := { twinB with Children := [("4", amyDoe)] }

/-- Jane Smith as `downloadPerson` reads her when her response includes no
household record: the household id and the primary contact are empty. -/
def janeAlone : PersonData := { janeData with householdId := "", householdHead := "" }

/-- Jan Doe, read without a household record either. -/
def janAlone : PersonData :=
  { householdId := "", householdHead := "", nickName := "", person := janDoe }

/-- New York: four hours west of UTC until 5 November 2023, 06:00 UTC, and five
hours west from then on. -/
def newYork : Location :=
  .shifting "America/New_York" (-14400) ⟨2023, 11, 5, 6, 0, 0, 0⟩ (-18000)

/-! ## Theorems: override resolver -/

/-- The person is excluded exactly when one of the excluded identifiers is a
key of the person's directory-section map. -/
theorem isExcluded_iff (p : Person) (excl : List String) :
    isExcluded p excl = true ↔ ∃ e ∈ excl, ∃ b, (e, b) ∈ p.DirectorySections := by
  simp only [isExcluded, hasKey, List.any_eq_true, beq_iff_eq]
  constructor
  · rintro ⟨e, he, ⟨k, b⟩, hkb, rfl⟩
    exact ⟨k, he, b, hkb⟩
  · rintro ⟨e, he, b, hb⟩
    exact ⟨e, he, (e, b), hb, rfl⟩

/-- The three shapes of the Section that `getSectionOverride` can return. -/
theorem getSectionOverride_shape (env : Env) (dir : PdfDir) (p : Person) (base : Section) :
    (getSectionOverride env dir p base).1
        = { base with ShowHousehold := true, ShowChildren := true, Show := false }
    ∨ (getSectionOverride env dir p base).1
        = { base with ShowHousehold := true, ShowChildren := true }
    ∨ ∃ ov, (getSectionOverride env dir p base).1
        = narrow { base with ShowHousehold := true, ShowChildren := true } ov := by
  unfold getSectionOverride
  simp only
  split
  · exact Or.inl rfl
  · split
    · exact Or.inr (Or.inl rfl)
    · split
      · exact Or.inr (Or.inr ⟨_, rfl⟩)
      · exact Or.inr (Or.inl rfl)

/-- On a non-excluded person with a successful load and a record whose
`KeyFirstName` is not empty, the result is the narrowed Section. -/
theorem getSectionOverride_matched (env : Env) (dir : PdfDir) (p : Person) (base ov : Section)
    (hex : isExcluded p base.ExcludeDirSections = false)
    (hload : (loadOverrides env dir).1 = true)
    (hrec : lookupOverride (loadOverrides env dir).2.overrides (overrideKey env p) = some ov)
    (hkey : ov.KeyFirstName ≠ "") :
    getSectionOverride env dir p base
      = (narrow { base with ShowHousehold := true, ShowChildren := true } ov,
         (loadOverrides env dir).2) := by
  unfold getSectionOverride
  simp only [hex]
  rcases hl : loadOverrides env dir with ⟨ok, d1⟩
  rw [hl] at hload hrec
  simp only at hload hrec
  subst hload
  simp [hrec, hkey]

/-- On a non-excluded person for whom no override applies, the result is the
base Section with the two forced flags. -/
theorem getSectionOverride_unmatched (env : Env) (dir : PdfDir) (p : Person) (base : Section)
    (hex : isExcluded p base.ExcludeDirSections = false)
    (hno : (loadOverrides env dir).1 = false
      ∨ lookupOverride (loadOverrides env dir).2.overrides (overrideKey env p) = none) :
    getSectionOverride env dir p base
      = ({ base with ShowHousehold := true, ShowChildren := true }, (loadOverrides env dir).2) := by
  unfold getSectionOverride
  simp only [hex]
  rcases hl : loadOverrides env dir with ⟨ok, d1⟩
  rw [hl] at hno
  simp only at hno
  cases ok with
  | false => simp
  | true =>
    have h : lookupOverride d1.overrides (overrideKey env p) = none := by simpa using hno
    simp [h, Section.zero]

/-- C1, as stated, fails: with a base Section whose `ShowHousehold` (and
`ShowChildren`) is false and no override at all, the returned Section has both
flags true. -/
theorem C1_forced_flags_counterexample :
    Section.zero.ShowHousehold = false ∧ Section.zero.ShowChildren = false
    ∧ (getSectionOverride (envWith .noBytes) dirA janDoe Section.zero).1.ShowHousehold = true
    ∧ (getSectionOverride (envWith .noBytes) dirA janDoe Section.zero).1.ShowChildren = true := by
  decide

/-- C1, amended: for every person, base Section, receiver state and override
store, each boolean flag other than `ShowHousehold` and `ShowChildren` that is
true in the Section returned by `getSectionOverride` is also true in the base
Section. -/
theorem C1_override_narrowing (env : Env) (dir : PdfDir) (p : Person) (base : Section) :
    ((getSectionOverride env dir p base).1.Show = true → base.Show = true)
    ∧ ((getSectionOverride env dir p base).1.Phones = true → base.Phones = true)
    ∧ ((getSectionOverride env dir p base).1.Email = true → base.Email = true)
    ∧ ((getSectionOverride env dir p base).1.Address = true → base.Address = true)
    ∧ ((getSectionOverride env dir p base).1.City = true → base.City = true)
    ∧ ((getSectionOverride env dir p base).1.State = true → base.State = true)
    ∧ ((getSectionOverride env dir p base).1.PostalCode = true → base.PostalCode = true)
    ∧ ((getSectionOverride env dir p base).1.Country = true → base.Country = true)
    ∧ ((getSectionOverride env dir p base).1.DateJoined = true → base.DateJoined = true)
    ∧ ((getSectionOverride env dir p base).1.Birthday = true → base.Birthday = true)
    ∧ ((getSectionOverride env dir p base).1.Age = true → base.Age = true)
    ∧ ((getSectionOverride env dir p base).1.Occupation = true → base.Occupation = true)
    ∧ ((getSectionOverride env dir p base).1.JobTitle = true → base.JobTitle = true)
    ∧ ((getSectionOverride env dir p base).1.Employer = true → base.Employer = true)
    ∧ ((getSectionOverride env dir p base).1.School = true → base.School = true)
    ∧ ((getSectionOverride env dir p base).1.Children = true → base.Children = true)
    ∧ ((getSectionOverride env dir p base).1.NewMemberFootnote = true
        → base.NewMemberFootnote = true)
    ∧ ((getSectionOverride env dir p base).1.BaptismFootnote = true
        → base.BaptismFootnote = true) := by
  rcases getSectionOverride_shape env dir p base with h | h | ⟨ov, h⟩
  · rw [h]; simp
  · rw [h]; simp
  · rw [h]; simp only [narrow]
    refine ⟨?_, ?_, ?_, ?_, ?_, ?_, ?_, ?_, ?_, ?_, ?_, ?_, ?_, ?_, ?_, ?_, ?_, ?_⟩ <;>
      first
        | exact id
        | (intro hr; split at hr <;> simp_all)

/-- C1, amended, run on Jan Doe with the all-true base Section and a stored
override that clears every flag but `Show`. -/
theorem C1_override_narrowing_witness :
    ((getSectionOverride (envWith (.parsed (some janTable))) dirA janDoe showAll).1.Show = true
        → showAll.Show = true)
    ∧ (getSectionOverride (envWith (.parsed (some janTable))) dirA janDoe showAll).1.Show = true
    ∧ (getSectionOverride (envWith (.parsed (some janTable))) dirA janDoe showAll).1.Phones
        = false :=
  ⟨(C1_override_narrowing (envWith (.parsed (some janTable))) dirA janDoe showAll).1,
   by decide, by decide⟩

/-- C2, as stated, fails in three ways, each with a record stored under the
person's key: `Age` is set in the base and clear in the override, yet set in
the result; for an excluded person `Phones` is set in the result although the
override clears it; and a record whose `KeyFirstName` is empty narrows
nothing. -/
theorem C2_counterexample :
    (lookupOverride (some janTable) (overrideKey (envWith .noBytes) janDoe) = some janOverride
      ∧ showAll.Age = true ∧ janOverride.Age = false
      ∧ (getSectionOverride (envWith (.parsed (some janTable))) dirA janDoe showAll).1.Age = true)
    ∧ (janOverride.Phones = false
      ∧ (getSectionOverride (envWith (.parsed (some janTable))) dirA janDoe
          { showAll with ExcludeDirSections := ["463631"] }).1.Phones = true)
    ∧ (lookupOverride (some blankTable) (overrideKey (envWith .noBytes) janDoe) = some Section.zero
      ∧ Section.zero.Phones = false
      ∧ (getSectionOverride (envWith (.parsed (some blankTable))) dirA janDoe showAll).1.Phones
          = true) := by
  decide

/-- C2, amended: when the person is not excluded, the lazy load does not fail
and the override table holds, under the person's normalized key, a record with
a non-empty `KeyFirstName`, then for each of Show, Phones, Email, Address, City,
State, PostalCode, Country, DateJoined and Birthday the returned value equals
base AND override (so none of these is true in the result when the override
sets it to false), while Age, Occupation, JobTitle, Employer, School, Children,
NewMemberFootnote and BaptismFootnote keep the value of the base Section. -/
theorem C2_matched_override_fields (env : Env) (dir : PdfDir) (p : Person) (base ov : Section)
    (hex : isExcluded p base.ExcludeDirSections = false)
    (hload : (loadOverrides env dir).1 = true)
    (hrec : lookupOverride (loadOverrides env dir).2.overrides (overrideKey env p) = some ov)
    (hkey : ov.KeyFirstName ≠ "") :
    (getSectionOverride env dir p base).1.Show = (base.Show && ov.Show)
    ∧ (getSectionOverride env dir p base).1.Phones = (base.Phones && ov.Phones)
    ∧ (getSectionOverride env dir p base).1.Email = (base.Email && ov.Email)
    ∧ (getSectionOverride env dir p base).1.Address = (base.Address && ov.Address)
    ∧ (getSectionOverride env dir p base).1.City = (base.City && ov.City)
    ∧ (getSectionOverride env dir p base).1.State = (base.State && ov.State)
    ∧ (getSectionOverride env dir p base).1.PostalCode = (base.PostalCode && ov.PostalCode)
    ∧ (getSectionOverride env dir p base).1.Country = (base.Country && ov.Country)
    ∧ (getSectionOverride env dir p base).1.DateJoined = (base.DateJoined && ov.DateJoined)
    ∧ (getSectionOverride env dir p base).1.Birthday = (base.Birthday && ov.Birthday)
    ∧ (getSectionOverride env dir p base).1.Age = base.Age
    ∧ (getSectionOverride env dir p base).1.Occupation = base.Occupation
    ∧ (getSectionOverride env dir p base).1.JobTitle = base.JobTitle
    ∧ (getSectionOverride env dir p base).1.Employer = base.Employer
    ∧ (getSectionOverride env dir p base).1.School = base.School
    ∧ (getSectionOverride env dir p base).1.Children = base.Children
    ∧ (getSectionOverride env dir p base).1.NewMemberFootnote = base.NewMemberFootnote
    ∧ (getSectionOverride env dir p base).1.BaptismFootnote = base.BaptismFootnote := by
  rw [getSectionOverride_matched env dir p base ov hex hload hrec hkey]
  refine ⟨?_, ?_, ?_, ?_, ?_, ?_, ?_, ?_, ?_, ?_, rfl, rfl, rfl, rfl, rfl, rfl, rfl, rfl⟩
  · cases h1 : base.Show <;> cases h2 : ov.Show <;> simp [narrow, h1, h2]
  · cases h1 : base.Phones <;> cases h2 : ov.Phones <;> simp [narrow, h1, h2]
  · cases h1 : base.Email <;> cases h2 : ov.Email <;> simp [narrow, h1, h2]
  · cases h1 : base.Address <;> cases h2 : ov.Address <;> simp [narrow, h1, h2]
  · cases h1 : base.City <;> cases h2 : ov.City <;> simp [narrow, h1, h2]
  · cases h1 : base.State <;> cases h2 : ov.State <;> simp [narrow, h1, h2]
  · cases h1 : base.PostalCode <;> cases h2 : ov.PostalCode <;> simp [narrow, h1, h2]
  · cases h1 : base.Country <;> cases h2 : ov.Country <;> simp [narrow, h1, h2]
  · cases h1 : base.DateJoined <;> cases h2 : ov.DateJoined <;> simp [narrow, h1, h2]
  · cases h1 : base.Birthday <;> cases h2 : ov.Birthday <;> simp [narrow, h1, h2]

/-- C2, amended, run on Jan Doe and on Émile Doe, whose key is lowered outside
ASCII: the hypotheses hold for the stored records and the result keeps `Show`
and clears `Phones`. -/
theorem C2_matched_override_fields_witness :
    ((getSectionOverride (envWith (.parsed (some janTable))) dirA janDoe showAll).1.Show
        = (showAll.Show && janOverride.Show)
      ∧ (getSectionOverride (envWith (.parsed (some janTable))) dirA janDoe showAll).1.Phones
        = (showAll.Phones && janOverride.Phones))
    ∧ overrideKey (envWith (.parsed (some emileTable))) emileDoe = "émile-doe-1990-03-04"
    ∧ (getSectionOverride (envWith (.parsed (some emileTable))) dirA emileDoe showAll).1.Show
        = (showAll.Show && emileOverride.Show)
    ∧ (getSectionOverride (envWith (.parsed (some emileTable))) dirA emileDoe showAll).1.Phones
        = false :=
  have h := C2_matched_override_fields (envWith (.parsed (some janTable))) dirA janDoe showAll
    janOverride (by decide) (by decide) (by decide) (by decide)
  have h2 := C2_matched_override_fields (envWith (.parsed (some emileTable))) dirA emileDoe
    showAll emileOverride (by decide) (by decide) (by decide) (by decide)
  ⟨⟨h.1, h.2.1⟩, by decide, h2.1, h2.2.1.trans (by decide)⟩

/-- C3: for every person whose `DirectorySections` has a key listed in the base
Section's `ExcludeDirSections`, `getSectionOverride` returns a Section with
`Show = false`, whatever the receiver's override table and the override store
hold, and returns the receiver unchanged: the table is neither read nor
loaded. -/
theorem C3_exclusion_dominance (env : Env) (dir : PdfDir) (p : Person) (base : Section)
    (h : ∃ e ∈ base.ExcludeDirSections, ∃ b, (e, b) ∈ p.DirectorySections) :
    (getSectionOverride env dir p base).1.Show = false
    ∧ (getSectionOverride env dir p base).2 = dir := by
  have hex : isExcluded p base.ExcludeDirSections = true := (isExcluded_iff p _).2 h
  unfold getSectionOverride
  simp [hex]

/-- C3 run on Jan Doe, member of the excluded section 463631, against a table
that is already loaded and holds a matching override with `Show = true`. -/
theorem C3_exclusion_dominance_witness :
    lookupOverride (some janTable) (overrideKey (envWith .getError) janDoe) = some janOverride
    ∧ janOverride.Show = true
    ∧ (getSectionOverride (envWith .getError) { dirA with overrides := some janTable } janDoe
        { showAll with ExcludeDirSections := ["463630", "463631"] }).1.Show = false
    ∧ (getSectionOverride (envWith .getError) { dirA with overrides := some janTable } janDoe
        { showAll with ExcludeDirSections := ["463630", "463631"] }).2
        = { dirA with overrides := some janTable } :=
  ⟨by decide, by decide,
   C3_exclusion_dominance (envWith .getError) { dirA with overrides := some janTable } janDoe
     { showAll with ExcludeDirSections := ["463630", "463631"] }
     ⟨"463631", by decide, true, by decide⟩⟩

/-- C4: for a person none of whose directory sections is excluded, when the
lazy load fails (the store cannot be read or its bytes cannot be parsed) or the
table holds no record under the person's key, `getSectionOverride` returns
exactly the base Section with `ShowHousehold` and `ShowChildren` set to true,
every other field unchanged. The function is total and returns a Section in
every case: a store failure only adds a warning to the log. -/
theorem C4_no_override_keeps_base (env : Env) (dir : PdfDir) (p : Person) (base : Section)
    (hex : ¬ ∃ e ∈ base.ExcludeDirSections, ∃ b, (e, b) ∈ p.DirectorySections)
    (hno : (loadOverrides env dir).1 = false
      ∨ lookupOverride (loadOverrides env dir).2.overrides (overrideKey env p) = none) :
    (getSectionOverride env dir p base).1
      = { base with ShowHousehold := true, ShowChildren := true } := by
  have hex2 : isExcluded p base.ExcludeDirSections = false := by
    rw [← Bool.not_eq_true, isExcluded_iff]; exact hex
  rw [getSectionOverride_unmatched env dir p base hex2 hno]

/-- C4 run on Jan Doe: once with a store that cannot be read, once with a store
whose bytes cannot be parsed, once with a loaded table that has no record for
Jan Doe; and on Émile Doe with the table of Jan Doe, which has no record under
the key `émile-doe-1990-03-04`. -/
theorem C4_no_override_keeps_base_witness :
    (getSectionOverride (envWith .getError) dirA janDoe showAll).1
        = { showAll with ShowHousehold := true, ShowChildren := true }
    ∧ (getSectionOverride (envWith (.parseError (some janTable))) dirA janDoe showAll).1
        = { showAll with ShowHousehold := true, ShowChildren := true }
    ∧ (getSectionOverride (envWith .getError) { dirA with overrides := some [] } janDoe showAll).1
        = { showAll with ShowHousehold := true, ShowChildren := true }
    ∧ (getSectionOverride (envWith (.parsed (some janTable))) dirA emileDoe showAll).1
        = { showAll with ShowHousehold := true, ShowChildren := true } :=
  ⟨C4_no_override_keeps_base (envWith .getError) dirA janDoe showAll (by decide)
      (Or.inl (by decide)),
   C4_no_override_keeps_base (envWith (.parseError (some janTable))) dirA janDoe showAll
      (by decide) (Or.inl (by decide)),
   C4_no_override_keeps_base (envWith .getError) { dirA with overrides := some [] } janDoe showAll
      (by decide) (Or.inr (by decide)),
   C4_no_override_keeps_base (envWith (.parsed (some janTable))) dirA emileDoe showAll
      (by decide) (Or.inr (by decide))⟩

/-! ## Theorems: cell renderer and cursor -/

/-- The resolver changes nothing of the receiver but the override table, the
count of store reads and the warning log. -/
theorem getSectionOverride_dir (env : Env) (dir : PdfDir) (p : Person) (o : Section) :
    ∃ ov sr w, (getSectionOverride env dir p o).2
      = { dir with overrides := ov, storeReads := sr, warnings := w } := by
  unfold getSectionOverride
  simp only
  split
  · exact ⟨_, _, _, rfl⟩
  · have hl : ∃ ov sr w, (loadOverrides env dir).2
        = { dir with overrides := ov, storeReads := sr, warnings := w } := by
      unfold loadOverrides
      split
      · exact ⟨_, _, _, rfl⟩
      · split <;> exact ⟨_, _, _, rfl⟩
    obtain ⟨ov, sr, w, hl⟩ := hl
    split
    · next ok d1 heq =>
      have : d1 = (loadOverrides env dir).2 := by rw [heq]
      exact ⟨ov, sr, w, by rw [this, hl]⟩
    · next ok d1 heq =>
      have : d1 = (loadOverrides env dir).2 := by rw [heq]
      split <;> exact ⟨ov, sr, w, by rw [this, hl]⟩

/-- What `CellFormat` changes: cursor, page count and trace. It adds no explicit
page, one name cell exactly when the font is bold, and no page at all when
automatic page breaks are off. -/
theorem CellFormat_frame (f : Pdf) (w h : ℚ) (txt : String) (ln : Nat) (align : String) :
    ∃ x y page ops, f.CellFormat w h txt ln align
        = { f with x := x, y := y, page := page, ops := ops }
      ∧ explicitPages ops = explicitPages f.ops
      ∧ entryCount ops = entryCount f.ops + (if f.fontStyle = "B" then 1 else 0)
      ∧ (f.autoPageBreak = false → page = f.page) := by
  unfold Pdf.CellFormat
  by_cases hb : f.autoPageBreak = true ∧ f.y + h > f.pageBreakTrigger
  · simp only [hb, and_self, if_true]
    by_cases hl : 0 < ln
    · simp only [hl, if_true]
      refine ⟨_, _, _, _, rfl, ?_, ?_, ?_⟩
      · simp [explicitPages, List.countP_cons]
      · by_cases hs : f.fontStyle = "B" <;> simp [entryCount, List.countP_cons, hs]
      · intro h0; cases h0
    · simp only [hl, if_false]
      refine ⟨_, _, _, _, rfl, ?_, ?_, ?_⟩
      · simp [explicitPages, List.countP_cons]
      · by_cases hs : f.fontStyle = "B" <;> simp [entryCount, List.countP_cons, hs]
      · intro h0; cases h0
  · simp only [hb, if_false]
    by_cases hl : 0 < ln
    · simp only [hl, if_true]
      refine ⟨_, _, _, _, rfl, ?_, ?_, ?_⟩
      · simp [explicitPages, List.countP_cons]
      · by_cases hs : f.fontStyle = "B" <;> simp [entryCount, List.countP_cons, hs]
      · intro _; rfl
    · simp only [hl, if_false]
      refine ⟨_, _, _, _, rfl, ?_, ?_, ?_⟩
      · simp [explicitPages, List.countP_cons]
      · by_cases hs : f.fontStyle = "B" <;> simp [entryCount, List.countP_cons, hs]
      · intro _; rfl

/-- What `writeFooter` changes: the cursor, the left margin, the break settings
(back on, at the bottom margin) and the trace; it adds no page. -/
theorem writeFooter_frame (env : Env) (dir : PdfDir) (o : Section) :
    ∃ x y lm ops, writeFooter env dir o
        = { dir.pdf with x := x, y := y, lMargin := lm, autoPageBreak := true,
                         pageBreakTrigger := dir.pdf.h - dir.pdf.bMargin, ops := ops }
      ∧ explicitPages ops = explicitPages dir.pdf.ops
      ∧ entryCount ops = entryCount dir.pdf.ops
          + ((if o.BaptismFootnote = true ∧ dir.pdf.fontStyle = "B" then 1 else 0)
            + (if o.NewMemberFootnote = true ∧ dir.pdf.fontStyle = "B" then 1 else 0)) := by
  unfold writeFooter
  by_cases hb : o.BaptismFootnote = true <;> by_cases hn : o.NewMemberFootnote = true <;>
    by_cases hs : dir.pdf.fontStyle = "B" <;>
    simp only [hb, hn, if_true, if_false, Pdf.SetAutoPageBreak, Pdf.SetY, Pdf.SetX,
      Pdf.SetLeftMargin, Pdf.CellFormat, Bool.false_eq_true, false_and, lt_irrefl] <;>
    refine ⟨_, _, _, _, rfl, ?_, ?_⟩ <;>
    simp [explicitPages, entryCount, List.countP_cons, hs]

/-- The shrink loop changes the font size only. -/
theorem shrinkLoop_frame (env : Env) (width : ℚ) (str : String) (fuel : Nat) (f g : Pdf)
    (h : shrinkLoop env width str fuel f = some g) : ∃ sz, g = { f with fontSizePt := sz } := by
  induction fuel generalizing f with
  | zero =>
    unfold shrinkLoop at h
    split at h
    · cases h
    · simp only [Option.some.injEq] at h; subst h; exact ⟨f.fontSizePt, rfl⟩
  | succ n ih =>
    unfold shrinkLoop at h
    split at h
    · obtain ⟨sz, hsz⟩ := ih _ h
      exact ⟨sz, by rw [hsz]; rfl⟩
    · simp only [Option.some.injEq] at h; subst h; exact ⟨f.fontSizePt, rfl⟩

/-- What `shrinkedCell` changes: cursor, page count and trace; the font size is
back to what it was. It adds no explicit page, and one name cell exactly when
the font is bold. -/
theorem shrinkedCell_frame (env : Env) (fuel : Nat) (f g : Pdf) (width height : ℚ)
    (str align : String) (h : shrinkedCell env fuel f width height str align = some g) :
    ∃ x y page ops, g = { f with x := x, y := y, page := page, ops := ops }
      ∧ explicitPages ops = explicitPages f.ops
      ∧ entryCount ops = entryCount f.ops + (if f.fontStyle = "B" then 1 else 0) := by
  unfold shrinkedCell at h
  simp only at h
  cases hl : shrinkLoop env width str fuel f with
  | none => rw [hl] at h; cases h
  | some f1 =>
    rw [hl] at h
    simp only [Option.some.injEq] at h
    obtain ⟨sz, hsz⟩ := shrinkLoop_frame env width str fuel f f1 hl
    obtain ⟨x, y, page, ops, hc, h1, h2, -⟩ := CellFormat_frame f1 width height str 1 align
    rw [hc] at h
    subst hsz
    exact ⟨x, y, page, ops, by rw [← h]; rfl, h1, h2⟩

/-- What a run of `shrinkedCell` calls changes. -/
theorem shrinkedCells_frame (env : Env) (fuel : Nat) (width height : ℚ) (lines : List String)
    (f g : Pdf) (h : shrinkedCells env fuel width height lines f = some g) :
    ∃ x y page ops, g = { f with x := x, y := y, page := page, ops := ops }
      ∧ explicitPages ops = explicitPages f.ops
      ∧ entryCount ops = entryCount f.ops + (if f.fontStyle = "B" then lines.length else 0) := by
  induction lines generalizing f with
  | nil =>
    unfold shrinkedCells at h
    simp only [Option.some.injEq] at h
    subst h
    exact ⟨f.x, f.y, f.page, f.ops, rfl, rfl, by simp⟩
  | cons s rest ih =>
    unfold shrinkedCells at h
    cases hc : shrinkedCell env fuel f width height (env.translate s) "L" with
    | none => rw [hc] at h; cases h
    | some f1 =>
      rw [hc] at h
      simp only at h
      obtain ⟨x1, y1, p1, ops1, e1, a1, b1⟩ := shrinkedCell_frame env fuel f f1 _ _ _ _ hc
      obtain ⟨x2, y2, p2, ops2, e2, a2, b2⟩ := ih f1 h
      subst e1
      refine ⟨x2, y2, p2, ops2, by rw [e2], by rw [a2]; exact a1, ?_⟩
      rw [b2]
      simp only at b1 ⊢
      rw [b1]
      by_cases hs : f.fontStyle = "B" <;> simp [hs]; omega

/-- What the highlight bands change: the colors and the trace, by rectangles
only. -/
theorem writeEntryHighlights_frame (dir : PdfDir) (f : Pdf) (hT hB : Bool) :
    ∃ fg dg ops, writeEntryHighlights dir f hT hB
        = { f with fillGray := fg, drawGray := dg, ops := ops }
      ∧ explicitPages ops = explicitPages f.ops ∧ entryCount ops = entryCount f.ops := by
  unfold writeEntryHighlights
  cases hT <;> cases hB <;>
    simp only [if_true, if_false, Bool.false_eq_true, Pdf.SetFillColor, Pdf.SetDrawColor,
      Pdf.Rect] <;>
    refine ⟨_, _, _, rfl, ?_, ?_⟩ <;>
    simp [explicitPages, entryCount, List.countP_cons]

/-- What drawing a cell changes on the surface: the ordinate moves down by the
fixed cell, `columnHeight + padding`; the font is the regular one at the
configured size; one name cell is drawn and no explicit page is added. -/
theorem writeEntryCell_frame (env : Env) (fuel : Nat) (dir : PdfDir) (f g : Pdf) (p : Person)
    (c : ℚ) (hT hB : Bool) (o : Section)
    (h : writeEntryCell env fuel dir f p c hT hB o = some g)
    (hy1 : 0 ≤ f.y + dir.padding / 2)
    (hy2 : 0 ≤ f.y + dir.padding / 2 + dir.columnHeight + dir.padding / 2) :
    ∃ x page lm fg dg ops,
      g = { f with x := x, y := f.y + dir.padding / 2 + dir.columnHeight + dir.padding / 2,
                   page := page, lMargin := lm, fontFamily := dir.fontFamily, fontStyle := "",
                   fontSizePt := if dir.fontSize = 0 then f.fontSizePt else dir.fontSize,
                   fillGray := fg, drawGray := dg, ops := ops }
      ∧ explicitPages ops = explicitPages f.ops
      ∧ entryCount ops = entryCount f.ops + 1 := by
  unfold writeEntryCell at h
  simp only at h
  obtain ⟨fg, dg, hops, hh, h1, h2⟩ := writeEntryHighlights_frame dir
    (((f.SetY (f.y + dir.padding / 2)).SetLeftMargin (dir.leftMargin + c * (dir.colWd + dir.gutter))).SetX
      (dir.leftMargin + c * (dir.colWd + dir.gutter))) hT hB
  rw [hh] at h
  have hops1 : explicitPages hops = explicitPages f.ops := h1
  have hops2 : entryCount hops = entryCount f.ops := h2
  clear h1 h2 hh
  split at h
  · cases h
  · next f5 hc =>
    split at h
    · cases h
    · next f7 hcs =>
      simp only [Option.some.injEq] at h
      obtain ⟨x5, y5, p5, ops5, e5, a5, b5⟩ := shrinkedCell_frame _ _ _ _ _ _ _ _ hc
      obtain ⟨x7, y7, p7, ops7, e7, a7, b7⟩ := shrinkedCells_frame _ _ _ _ _ _ _ hcs
      subst e5
      subst e7
      subst h
      clear hc hcs
      by_cases ht : p.Thumbnail = true <;> by_cases hz : dir.fontSize = 0 <;>
        simp only [ht, hz, hy1, hy2, if_true, if_false, Pdf.SetFont, Pdf.SetLeftMargin, Pdf.SetX,
          Pdf.SetY, Pdf.Image, Bool.false_eq_true] at a5 b5 a7 b7 ⊢ <;>
        refine ⟨_, _, _, _, _, _, rfl, ?_, ?_⟩ <;>
        simp only [explicitPages, entryCount, List.countP_cons, if_true, if_false] at * <;>
        simp_all

/-- A hidden entry: `writeEntry` returns what it was given, with the receiver
left by the resolver. -/
theorem writeEntry_hidden (env : Env) (fuel : Nat) (dir : PdfDir) (p : Person) (c : ℚ)
    (hT hB fp : Bool) (o : Section) (h : (getSectionOverride env dir p o).1.Show = false) :
    writeEntry env fuel dir p c hT hB fp o = some (c, fp, (getSectionOverride env dir p o).2) := by
  unfold writeEntry
  rcases hg : getSectionOverride env dir p o with ⟨o1, d1⟩
  rw [hg] at h
  simp only at h
  simp [h]

/-- C5: for every person whose effective Section has `Show = false`, `writeEntry`
returns (whatever the fuel) the column index and the first-page flag it was
given, and the surface is the one it was given: cursor, page count, margins
and the list of drawing calls are unchanged. -/
theorem C5_hidden_entry_is_noop (env : Env) (fuel : Nat) (dir : PdfDir) (p : Person)
    (lastColumn : ℚ) (highlightTop highlightBottom indentPage : Bool) (displayOptions : Section)
    (h : (getSectionOverride env dir p displayOptions).1.Show = false) :
    ∃ dir1, writeEntry env fuel dir p lastColumn highlightTop highlightBottom indentPage
        displayOptions = some (lastColumn, indentPage, dir1)
      ∧ dir1.pdf = dir.pdf
      ∧ dir1.pdf.y = dir.pdf.y ∧ dir1.pdf.page = dir.pdf.page
      ∧ dir1.pdf.lMargin = dir.pdf.lMargin ∧ dir1.pdf.ops = dir.pdf.ops := by
  refine ⟨(getSectionOverride env dir p displayOptions).2,
    writeEntry_hidden env fuel dir p lastColumn highlightTop highlightBottom indentPage
      displayOptions h, ?_⟩
  · obtain ⟨ov, sr, w, hd⟩ := getSectionOverride_dir env dir p displayOptions
    rw [hd]
    exact ⟨rfl, rfl, rfl, rfl, rfl⟩

/-- C5 run on Jan Doe, hidden by a stored override with `Show = false`. -/
theorem C5_hidden_entry_is_noop_witness :
    ∃ dir1, writeEntry (envWith (.parsed (some [("jan-doe-1980-01-02",
          { janOverride with Show := false })]))) 0 dirA janDoe 1 false true true showAll
        = some (1, true, dir1)
      ∧ dir1.pdf = dirA.pdf
      ∧ dir1.pdf.y = dirA.pdf.y ∧ dir1.pdf.page = dirA.pdf.page
      ∧ dir1.pdf.lMargin = dirA.pdf.lMargin ∧ dir1.pdf.ops = dirA.pdf.ops :=
  C5_hidden_entry_is_noop _ 0 dirA janDoe 1 false true true showAll (by decide)

/-- C6, the claim at a negative top margin: with a top margin of -20 on the
surface and the cursor at ordinate 250, the column break calls
`SetY(-20 + 7.76...)`, which the surface reads from the bottom edge of the
page: the ordinate becomes 279.4 - 20 + 7.76... = 48089/180, and not the top
margin plus the header offset, -2203/180. -/
theorem C6_negative_margin_counterexample :
    SpecCursor.columnBreak (entryGeometry dirNegativeTop true showAll) ⟨0, 250, true⟩ = true
    ∧ SpecCursor.pageBreak (entryGeometry dirNegativeTop true showAll) ⟨0, 250, true⟩ = false
    ∧ (SpecCursor.step (entryGeometry dirNegativeTop true showAll) ⟨0, 250, true⟩).y
        = -2203 / 180
    ∧ (writeEntryBreaks (envWith .noBytes) dirNegativeTop 0 true showAll).2.2.y = 48089 / 180
    ∧ (writeEntryBreaks (envWith .noBytes) dirNegativeTop 0 true showAll).2.2.y
        ≠ (SpecCursor.step (entryGeometry dirNegativeTop true showAll) ⟨0, 250, true⟩).y :=
  ⟨by with_unfolding_all decide, by with_unfolding_all decide,
   le_antisymm (by with_unfolding_all decide) (by with_unfolding_all decide),
   le_antisymm (by with_unfolding_all decide) (by with_unfolding_all decide),
   by with_unfolding_all decide⟩

/-- C6, amended: when neither the top margin of the surface nor the top margin
plus the header offset is negative, the breaks `writeEntry` takes before drawing
a visible entry are the transitions of the specified cursor. The column index,
the ordinate and the first-page flag after lines 613-651 are those of
`SpecCursor.step`: a column break exactly when Y + columnHeight + padding
exceeds page height − bottom margin − footnote reserve, a page break exactly
when the column index then reaches the column count. On a page break the footer
is drawn at the bottom of the page and then one page is added; otherwise the
page count and the drawing calls are unchanged. -/
theorem C6_breaks_refine_cursor (env : Env) (dir : PdfDir) (lastColumn : ℚ) (indentPage : Bool)
    (displayOptions : Section)
    (htop : 0 ≤ dir.pdf.tMargin)
    (hoff : 0 ≤ dir.pdf.tMargin
      + (if indentPage = true then ((dir.fontSize + 2) / dir.pdf.k) * 2 else 0)) :
    (⟨(writeEntryBreaks env dir lastColumn indentPage displayOptions).1,
      (writeEntryBreaks env dir lastColumn indentPage displayOptions).2.2.y,
      (writeEntryBreaks env dir lastColumn indentPage displayOptions).2.1⟩ : SpecCursor)
      = SpecCursor.step (entryGeometry dir indentPage displayOptions)
          ⟨lastColumn, dir.pdf.y, indentPage⟩
    ∧ (writeEntryBreaks env dir lastColumn indentPage displayOptions).2.2.page
      = (if SpecCursor.pageBreak (entryGeometry dir indentPage displayOptions)
            ⟨lastColumn, dir.pdf.y, indentPage⟩ then dir.pdf.page + 1 else dir.pdf.page)
    ∧ (writeEntryBreaks env dir lastColumn indentPage displayOptions).2.2.ops
      = (if SpecCursor.pageBreak (entryGeometry dir indentPage displayOptions)
            ⟨lastColumn, dir.pdf.y, indentPage⟩ then
          Op.addPage false :: (writeFooter env
            (atPageBottom dir (SpecCursor.columnBreak (entryGeometry dir indentPage displayOptions)
              ⟨lastColumn, dir.pdf.y, indentPage⟩) indentPage) displayOptions).ops
        else dir.pdf.ops) := by
  have hfoot : ∀ d : PdfDir, (writeFooter env d displayOptions).page = d.pdf.page
      ∧ (writeFooter env d displayOptions).tMargin = d.pdf.tMargin := by
    intro d
    obtain ⟨x, y, lm, ops, hf, -, -⟩ := writeFooter_frame env d displayOptions
    rw [hf]; exact ⟨rfl, rfl⟩
  unfold writeEntryBreaks
  simp only [SpecCursor.step, SpecCursor.pageBreak, SpecCursor.afterColumnBreak,
    SpecCursor.columnBreak, entryGeometry, atPageBottom, ge_iff_le, gt_iff_lt]
  by_cases hcb : dir.pdf.h - dir.pdf.bMargin
      - (if (displayOptions.BaptismFootnote || displayOptions.NewMemberFootnote) = true
          then dir.pdf.fontSize else 0) < dir.pdf.y + dir.columnHeight + dir.padding
  · simp only [hcb, decide_True, if_true]
    by_cases hpb : dir.colNum ≤ lastColumn + 1
    · simp only [hpb, decide_True, if_true, Pdf.AddPage, Pdf.SetY, Pdf.SetX, Pdf.SetLeftMargin,
        hfoot, htop, and_self]
    · simp only [hpb, decide_False, if_false, Pdf.SetY, Bool.false_eq_true, and_self, and_true]
      cases indentPage
      · simp only [Bool.false_eq_true, if_false, add_zero] at hoff ⊢
        simp [htop]
      · simp only [if_true] at hoff ⊢
        simp [hoff]
  · simp only [hcb, decide_False, if_false, Bool.false_eq_true]
    by_cases hpb : dir.colNum ≤ lastColumn
    · simp only [hpb, decide_True, if_true, Pdf.AddPage, Pdf.SetY, Pdf.SetX, Pdf.SetLeftMargin,
        hfoot, htop, and_self]
    · simp only [hpb, decide_False, if_false, Bool.false_eq_true, and_self]

/-- C6 run on `dirA` with the cursor at ordinate 250 in column 0 of a first
page: a column break and no page break, the column index becomes 1 and the
ordinate the top margin 10 plus the header offset, 3197/180. -/
theorem C6_breaks_refine_cursor_witness :
    (0 : ℚ) ≤ dirBottom.pdf.tMargin
    ∧ (⟨(writeEntryBreaks (envWith .noBytes) dirBottom 0 true showAll).1,
        (writeEntryBreaks (envWith .noBytes) dirBottom 0 true showAll).2.2.y,
        (writeEntryBreaks (envWith .noBytes) dirBottom 0 true showAll).2.1⟩ : SpecCursor)
      = SpecCursor.step (entryGeometry dirBottom true showAll) ⟨0, dirBottom.pdf.y, true⟩
    ∧ (writeEntryBreaks (envWith .noBytes) dirBottom 0 true showAll).1 = 1
    ∧ (writeEntryBreaks (envWith .noBytes) dirBottom 0 true showAll).2.2.y = 3197 / 180 :=
  ⟨by with_unfolding_all decide,
   (C6_breaks_refine_cursor (envWith .noBytes) dirBottom 0 true showAll
      (by with_unfolding_all decide) (by with_unfolding_all decide)).1,
   by with_unfolding_all decide,
   le_antisymm (by with_unfolding_all decide) (by with_unfolding_all decide)⟩

/-- A visible entry: `writeEntry` returns the column index and the flag of the
breaks, and the receiver left by the resolver with the drawn surface. -/
theorem writeEntry_visible (env : Env) (fuel : Nat) (dir : PdfDir) (p : Person) (c : ℚ)
    (hT hB fp : Bool) (o : Section) (r : ℚ × Bool × PdfDir)
    (hshow : (getSectionOverride env dir p o).1.Show = true)
    (hw : writeEntry env fuel dir p c hT hB fp o = some r) :
    r.1 = (writeEntryBreaks env (getSectionOverride env dir p o).2 c fp
            (getSectionOverride env dir p o).1).1
    ∧ r.2.1 = (writeEntryBreaks env (getSectionOverride env dir p o).2 c fp
            (getSectionOverride env dir p o).1).2.1
    ∧ ∃ g gc, writeEntryCell env fuel (getSectionOverride env dir p o).2
          (writeEntryBreaks env (getSectionOverride env dir p o).2 c fp
            (getSectionOverride env dir p o).1).2.2 p
          (writeEntryBreaks env (getSectionOverride env dir p o).2 c fp
            (getSectionOverride env dir p o).1).1 hT hB (getSectionOverride env dir p o).1 = some g
        ∧ r.2.2 = { (getSectionOverride env dir p o).2 with
                    imageWidth := 25
                    textWidth := (getSectionOverride env dir p o).2.colWd
                      - (25 + (getSectionOverride env dir p o).2.imagePadding * 2)
                    gountries := gc
                    pdf := g } := by
  unfold writeEntry at hw
  rcases hg : getSectionOverride env dir p o with ⟨o1, d1⟩
  rw [hg] at hw hshow
  simp only at hshow
  simp only [hshow, Bool.not_true, Bool.false_eq_true, if_false] at hw
  rcases hb : writeEntryBreaks env d1 c fp o1 with ⟨c1, fp1, f0⟩
  rw [hb] at hw
  simp only at hw ⊢
  split at hw
  · cases hw
  · next g hc =>
    simp only [Option.some.injEq] at hw
    subst hw
    exact ⟨rfl, rfl, g, _, hc, rfl⟩

/-- C7, the claim at a negative ordinate: with a padding of -8 and the cursor at
ordinate 2, the cell of Jan Doe starts with `SetY(2 - 4)`, which the surface
reads from the bottom edge of the page, 279.4 - 2. The run returns at ordinate
313.4 on the second page, and not at 2 + (40 - 8) = 34. -/
theorem C7_negative_ordinate_counterexample :
    (getSectionOverride (envWith .noBytes) dirLowPadding janDoe showAll).1.Show = true
    ∧ (writeEntryBreaks (envWith .noBytes)
        (getSectionOverride (envWith .noBytes) dirLowPadding janDoe showAll).2 0 true
        (getSectionOverride (envWith .noBytes) dirLowPadding janDoe showAll).1).2.2.y = 2
    ∧ (writeEntry (envWith .noBytes) 0 dirLowPadding janDoe 0 false true true showAll).map
        (fun r => (r.2.2.pdf.y, r.2.2.pdf.page)) = some (3134 / 10, 2)
    ∧ (2 : ℚ) + (dirLowPadding.columnHeight + dirLowPadding.padding) = 34 :=
  ⟨by decide, by set_option maxRecDepth 8000 in with_unfolding_all decide, by set_option maxRecDepth 8000 in with_unfolding_all decide,
   by set_option maxRecDepth 8000 in with_unfolding_all decide⟩

/-- C7, amended: every visible entry whose cell lies at non-negative ordinates
occupies a fixed cell. When `writeEntry` returns for a person whose effective
`Show` is true, and neither the ordinate at which the cell was started (after
any column or page break) plus half the padding, nor that ordinate plus
`columnHeight + padding`, is negative, the ordinate is the one at which the cell
was started plus `columnHeight + padding`, whatever lines the person has. -/
theorem C7_visible_entry_fixed_cell (env : Env) (fuel : Nat) (dir : PdfDir) (p : Person)
    (lastColumn : ℚ) (highlightTop highlightBottom indentPage : Bool) (displayOptions : Section)
    (r : ℚ × Bool × PdfDir)
    (hshow : (getSectionOverride env dir p displayOptions).1.Show = true)
    (hy1 : 0 ≤ (writeEntryBreaks env (getSectionOverride env dir p displayOptions).2 lastColumn
          indentPage (getSectionOverride env dir p displayOptions).1).2.2.y + dir.padding / 2)
    (hy2 : 0 ≤ (writeEntryBreaks env (getSectionOverride env dir p displayOptions).2 lastColumn
          indentPage (getSectionOverride env dir p displayOptions).1).2.2.y
          + (dir.columnHeight + dir.padding))
    (hw : writeEntry env fuel dir p lastColumn highlightTop highlightBottom indentPage
        displayOptions = some r) :
    r.2.2.pdf.y
      = (writeEntryBreaks env (getSectionOverride env dir p displayOptions).2 lastColumn
          indentPage (getSectionOverride env dir p displayOptions).1).2.2.y
        + (dir.columnHeight + dir.padding) := by
  obtain ⟨-, -, g, gc, hc, hr⟩ := writeEntry_visible env fuel dir p lastColumn highlightTop
    highlightBottom indentPage displayOptions r hshow hw
  obtain ⟨ov, sr, w, hd⟩ := getSectionOverride_dir env dir p displayOptions
  have hpad : (getSectionOverride env dir p displayOptions).2.padding = dir.padding := by rw [hd]
  have hcol : (getSectionOverride env dir p displayOptions).2.columnHeight
      = dir.columnHeight := by rw [hd]
  obtain ⟨x, page, lm, fg, dg, ops, hg, -, -⟩ := writeEntryCell_frame _ _ _ _ _ _ _ _ _ _ hc
    (by rw [hpad]; exact hy1) (by rw [hpad, hcol]; linarith)
  rw [hr, hg, hd]
  simp only
  ring

/-- C7 run on Jan Doe at the top of the first column of `dirA`: the run returns
and the ordinate moves from 10 to 10 + (40 + 4). -/
theorem C7_visible_entry_fixed_cell_witness :
    ∃ r, writeEntry (envWith .noBytes) 0 dirA janDoe 0 false true true showAll = some r
      ∧ r.2.2.pdf.y = 10 + (40 + 4) := by
  have hs : (writeEntry (envWith .noBytes) 0 dirA janDoe 0 false true true showAll).isSome
      = true := by set_option maxRecDepth 8000 in with_unfolding_all decide
  obtain ⟨r, hr⟩ := Option.isSome_iff_exists.1 hs
  refine ⟨r, hr, ?_⟩
  rw [C7_visible_entry_fixed_cell (envWith .noBytes) 0 dirA janDoe 0 false true true showAll r
    (by decide) (by set_option maxRecDepth 8000 in with_unfolding_all decide) (by set_option maxRecDepth 8000 in with_unfolding_all decide) hr]
  with_unfolding_all decide

/-! ## Theorems: roster order -/

/-- In an association list with distinct keys, a pair of the list is what the
lookup of its key finds. -/
theorem lookup_of_mem {α β : Type} [DecidableEq α] (l : List (α × β)) (a : α) (b : β)
    (hnd : (l.map Prod.fst).Nodup) (hm : (a, b) ∈ l) : l.lookup a = some b := by
  induction l with
  | nil => cases hm
  | cons x rest ih =>
    obtain ⟨k, v⟩ := x
    simp only [List.map_cons, List.nodup_cons] at hnd
    rcases List.mem_cons.1 hm with h | h
    · cases h
      simp [List.lookup]
    · have hne : a ≠ k := by
        intro hak
        exact hnd.1 (hak ▸ List.mem_map_of_mem Prod.fst h)
      have hbeq : (a == k) = false := by simpa using hne
      simp only [List.lookup, hbeq]
      exact ih hnd.2 h

/-- With distinct ids and distinct SortKeys, the SortKey of an entry leads back
to the household of that entry. -/
theorem householdOfKey_of_mem (entries : List (String × Household))
    (hid : (entries.map Prod.fst).Nodup)
    (hkeys : (sectionKeys entries).Nodup)
    (e : String × Household) (he : e ∈ entries) :
    householdOfKey entries e.2.SortKey = e.2 := by
  unfold householdOfKey
  have h1 : (keyToId entries).lookup e.2.SortKey = some e.1 := by
    apply lookup_of_mem
    · unfold keyToId
      rw [← List.map_reverse, List.map_map]
      have : (Prod.fst ∘ fun e : String × Household => (e.2.SortKey, e.1))
          = fun e : String × Household => e.2.SortKey := rfl
      rw [this, List.map_reverse]
      exact List.nodup_reverse.2 hkeys
    · unfold keyToId
      rw [List.mem_reverse]
      exact List.mem_map_of_mem (fun e : String × Household => (e.2.SortKey, e.1)) he
  have h2 : entries.lookup e.1 = some e.2 := lookup_of_mem entries e.1 e.2 hid he
  rw [h1]
  simp only [Option.getD_some]
  rw [h2]
  rfl

/-- The sorted keys are a rearrangement of the keys, in ascending order. -/
theorem sortStrings_spec (keys : List String) :
    (sortStrings keys).Perm keys
    ∧ (sortStrings keys).Pairwise (fun a b => a.data ≤ b.data) := by
  haveI : IsTotal String (fun a b => a.data ≤ b.data) := ⟨fun a b => le_total a.data b.data⟩
  haveI : IsTrans String (fun a b => a.data ≤ b.data) :=
    ⟨fun a b c hab hbc => le_trans hab hbc⟩
  exact ⟨List.perm_insertionSort _ keys, List.sorted_insertionSort _ keys⟩

/-- C9: for every household map whose SortKeys are pairwise distinct (the ids,
being the keys of a Go map, are distinct), `writeSection` visits every household
exactly once, in strictly ascending lexicographic order of SortKey: the
visiting order is a rearrangement of the households of the map and its SortKeys
increase. -/
theorem C9_roster_order (entries : List (String × Household))
    (hid : (entries.map Prod.fst).Nodup)
    (hkeys : (entries.map (fun e => e.2.SortKey)).Nodup) :
    (visitOrder entries).Perm (entries.map Prod.snd)
    ∧ (visitOrder entries).Pairwise (fun a b => a.SortKey.data < b.SortKey.data) := by
  have hk : (sectionKeys entries).Nodup := hkeys
  obtain ⟨hperm, hsorted⟩ := sortStrings_spec (sectionKeys entries)
  have hmap : (sectionKeys entries).map (householdOfKey entries) = entries.map Prod.snd := by
    unfold sectionKeys
    rw [List.map_map]
    apply List.map_congr_left
    intro e he
    exact householdOfKey_of_mem entries hid hk e he
  constructor
  · unfold visitOrder
    rw [← hmap]
    exact hperm.map _
  · unfold visitOrder
    rw [List.pairwise_map]
    have hnd : (sortStrings (sectionKeys entries)).Nodup := hperm.nodup_iff.2 hk
    have hlt : (sortStrings (sectionKeys entries)).Pairwise (fun a b => a.data < b.data) := by
      have := hsorted.and hnd
      refine this.imp ?_
      intro a b hab
      refine lt_of_le_of_ne hab.1 ?_
      intro hd
      exact hab.2 (String.ext hd)
    refine hlt.imp_of_mem ?_
    intro a b ha hb hab
    have hka : a ∈ sectionKeys entries := hperm.mem_iff.1 ha
    have hkb : b ∈ sectionKeys entries := hperm.mem_iff.1 hb
    obtain ⟨ea, hea, rfl⟩ := List.mem_map.1 hka
    obtain ⟨eb, heb, rfl⟩ := List.mem_map.1 hkb
    rw [householdOfKey_of_mem entries hid hk ea hea, householdOfKey_of_mem entries hid hk eb heb]
    exact hab

/-- C9 run on the scenario of the specification: household B (Doe) is visited
before household A (Smith), and the roster draws exactly the three name cells
of Jan, John and Jane, in this order. -/
theorem C9_roster_order_witness :
    ((visitOrder scenarioEntries).Perm (scenarioEntries.map Prod.snd)
      ∧ (visitOrder scenarioEntries).Pairwise (fun a b => a.SortKey.data < b.SortKey.data))
    ∧ visitOrder scenarioEntries = [householdB, householdA]
    ∧ (writeSection (envWith .noBytes) 0 dirA scenarioEntries "Members" scenarioSection).map
        (fun r => nameCells r.2.pdf.ops) = some ["DOE, JAN", "SMITH, JOHN", "SMITH, JANE"] :=
  ⟨C9_roster_order scenarioEntries (by decide) (by decide), by decide,
   by with_unfolding_all decide⟩

/-- C10, the code at the failing input: two households with the same SortKey.
Whichever of the two the map iteration yields last is visited twice and drawn
twice; the other one is not visited at all. -/
theorem C10_duplicate_sortkey_visits :
    twinA ≠ twinB ∧ twinA.SortKey = twinB.SortKey
    ∧ visitOrder [("A", twinA), ("B", twinB)] = [twinB, twinB]
    ∧ visitOrder [("B", twinB), ("A", twinA)] = [twinA, twinA]
    ∧ (writeSection (envWith .noBytes) 0 dirA [("A", twinA), ("B", twinB)] "Members"
        scenarioSection).map (fun r => nameCells r.2.pdf.ops)
        = some ["SMITH, JOHN", "SMITH, JOHN"] :=
  ⟨by decide, by decide, by decide, by decide, by with_unfolding_all decide⟩

/-! ## Theorems: page breaks of a roster section -/

/-- The three ways through lines 613-651: no break, a column break, or a page
break (with the footer and one explicit page added to the trace). -/
theorem writeEntryBreaks_cases (env : Env) (dir : PdfDir) (c : ℚ) (fp : Bool) (o : Section)
    (hstyle : dir.pdf.fontStyle = "") (htop : 0 ≤ dir.pdf.tMargin)
    (hoff : 0 ≤ dir.pdf.tMargin
      + (if fp = true then ((dir.fontSize + 2) / dir.pdf.k) * 2 else 0)) :
    (¬ (dir.pdf.h - dir.pdf.bMargin
          - (if (o.BaptismFootnote || o.NewMemberFootnote) = true then dir.pdf.fontSize else 0)
          < dir.pdf.y + dir.columnHeight + dir.padding)
      ∧ ¬ (dir.colNum ≤ c)
      ∧ writeEntryBreaks env dir c fp o = (c, fp, dir.pdf))
    ∨ ((dir.pdf.h - dir.pdf.bMargin
          - (if (o.BaptismFootnote || o.NewMemberFootnote) = true then dir.pdf.fontSize else 0)
          < dir.pdf.y + dir.columnHeight + dir.padding)
      ∧ ¬ (dir.colNum ≤ c + 1)
      ∧ writeEntryBreaks env dir c fp o
        = (c + 1, fp, { dir.pdf with
            x := dir.pdf.lMargin
            y := dir.pdf.tMargin + (if fp = true then ((dir.fontSize + 2) / dir.pdf.k) * 2 else 0) }))
    ∨ ((((dir.pdf.h - dir.pdf.bMargin
          - (if (o.BaptismFootnote || o.NewMemberFootnote) = true then dir.pdf.fontSize else 0)
          < dir.pdf.y + dir.columnHeight + dir.padding) ∧ dir.colNum ≤ c + 1)
        ∨ dir.colNum ≤ c)
      ∧ ∃ x lm ops, writeEntryBreaks env dir c fp o
          = (0, false, { dir.pdf with
              x := x, y := dir.pdf.tMargin, page := dir.pdf.page + 1, lMargin := lm,
              autoPageBreak := true, pageBreakTrigger := dir.pdf.h - dir.pdf.bMargin,
              ops := ops })
        ∧ explicitPages ops = explicitPages dir.pdf.ops + 1
        ∧ entryCount ops = entryCount dir.pdf.ops) := by
  have hfoot : ∀ d : PdfDir, d.pdf.fontStyle = "" →
      ∃ x y lm ops, writeFooter env d o
        = { d.pdf with x := x, y := y, lMargin := lm, autoPageBreak := true,
                       pageBreakTrigger := d.pdf.h - d.pdf.bMargin, ops := ops }
      ∧ explicitPages ops = explicitPages d.pdf.ops
      ∧ entryCount ops = entryCount d.pdf.ops := by
    intro d hd
    obtain ⟨x, y, lm, ops, hf, h1, h2⟩ := writeFooter_frame env d o
    refine ⟨x, y, lm, ops, hf, h1, ?_⟩
    rw [h2, hd]
    simp
  unfold writeEntryBreaks
  simp only [ge_iff_le, gt_iff_lt]
  by_cases hcb : dir.pdf.h - dir.pdf.bMargin
      - (if (o.BaptismFootnote || o.NewMemberFootnote) = true then dir.pdf.fontSize else 0)
      < dir.pdf.y + dir.columnHeight + dir.padding
  · simp only [hcb, decide_True, if_true]
    by_cases hpb : dir.colNum ≤ c + 1
    · right; right
      refine ⟨Or.inl ⟨trivial, hpb⟩, ?_⟩
      simp only [hpb, if_true]
      obtain ⟨x, y, lm, ops, hf, h1, h2⟩ := hfoot
        { dir with pdf := (((dir.pdf.SetY (dir.pdf.tMargin
            + (if fp = true then ((dir.fontSize + 2) / dir.pdf.k) * 2 else 0))).SetLeftMargin
              dir.leftMargin).SetX dir.leftMargin).SetY (dir.pdf.h - dir.pdf.bMargin) } hstyle
      rw [hf]
      simp only [Pdf.AddPage, Pdf.SetY, Pdf.SetX, Pdf.SetLeftMargin, htop, if_true] at h1 h2 ⊢
      refine ⟨_, _, _, rfl, ?_, ?_⟩
      · simp [explicitPages, List.countP_cons] at h1 ⊢
        exact h1
      · simp [entryCount, List.countP_cons] at h2 ⊢
        exact h2
    · right; left
      refine ⟨trivial, hpb, ?_⟩
      simp only [hpb, if_false, Pdf.SetY, hoff, if_true]
  · simp only [hcb, decide_False, if_false, Bool.false_eq_true]
    by_cases hpb : dir.colNum ≤ c
    · right; right
      refine ⟨Or.inr hpb, ?_⟩
      simp only [hpb, if_true]
      obtain ⟨x, y, lm, ops, hf, h1, h2⟩ := hfoot
        { dir with pdf := ((dir.pdf.SetLeftMargin
              dir.leftMargin).SetX dir.leftMargin).SetY (dir.pdf.h - dir.pdf.bMargin) } hstyle
      rw [hf]
      simp only [Pdf.AddPage, Pdf.SetY, Pdf.SetX, Pdf.SetLeftMargin, htop, if_true] at h1 h2 ⊢
      refine ⟨_, _, _, rfl, ?_, ?_⟩
      · simp [explicitPages, List.countP_cons] at h1 ⊢
        exact h1
      · simp [entryCount, List.countP_cons] at h2 ⊢
        exact h2
    · left
      refine ⟨not_false, hpb, ?_⟩
      simp only [hpb, if_false]

/-- The resolver leaves the two footnote flags as the base Section has them. -/
theorem getSectionOverride_footnotes (env : Env) (dir : PdfDir) (p : Person) (o : Section) :
    (getSectionOverride env dir p o).1.BaptismFootnote = o.BaptismFootnote
    ∧ (getSectionOverride env dir p o).1.NewMemberFootnote = o.NewMemberFootnote := by
  rcases getSectionOverride_shape env dir p o with h | h | ⟨ov, h⟩ <;> rw [h] <;> exact ⟨rfl, rfl⟩

/-- A column break leaves at least `C` cells above the cursor: when the next
cell does not fit under the limit, and `C` cells fit in a first-page column,
the `j` cells of the column are at least `C`. -/
theorem cells_above_at_break (H off offp top limit y : ℚ) (C j : Nat)
    (hH : 0 < H) (hoff : offp ≤ off) (hfit : (C : ℚ) * H ≤ limit - (top + off))
    (hy : y = top + offp + (j : ℚ) * H) (hbreak : limit < y + H) : (C : ℚ) ≤ (j : ℚ) := by
  have h1 : (C : ℚ) * H < ((j : ℚ) + 1) * H := by
    rw [hy] at hbreak
    linarith
  have h2 : (C : ℚ) < (j : ℚ) + 1 := lt_of_mul_lt_mul_right h1 hH.le
  have h3 : C < j + 1 := by exact_mod_cast h2
  exact_mod_cast Nat.lt_succ_iff.1 h3

/-- The roster invariant is kept by `writeEntry`, whether the entry is visible
or hidden. -/
theorem RosterInv_writeEntry (env : Env) (fuel : Nat) (dir0 : PdfDir) (C e0 p0 : Nat)
    (o : Section) (hk : 0 < dir0.pdf.k) (hfs : 0 < dir0.fontSize) (hH : 0 < cellHeight dir0)
    (htop : 0 ≤ dir0.topMargin) (hpad : 0 ≤ dir0.padding)
    (hfit : (C : ℚ) * cellHeight dir0 ≤ firstPageColumnHeight dir0 o)
    (st st1 : ℚ × Bool × PdfDir) (p : Person) (hT hB : Bool)
    (hinv : RosterInv dir0 C e0 p0 st)
    (hw : writeEntry env fuel st.2.2 p st.1 hT hB st.2.1 o = some st1) :
    RosterInv dir0 C e0 p0 st1 := by
  obtain ⟨c, fp, d⟩ := st
  obtain ⟨ov, sr, w, hd⟩ := getSectionOverride_dir env d p o
  obtain ⟨hfl1, hfl2⟩ := getSectionOverride_footnotes env d p o
  have hoffnn : 0 ≤ headerOffset dir0 := by
    unfold headerOffset
    have : 0 < (dir0.fontSize + 2) / dir0.pdf.k := div_pos (by linarith) hk
    linarith
  obtain ⟨col, j, n, b, hcol, hcolK, hy, hen, hpn, hle⟩ := hinv.cursor
  simp only at hw hd hfl1 hfl2 hcol hcolK hy hen hpn
  by_cases hshow : (getSectionOverride env d p o).1.Show = true
  · obtain ⟨h1, h2, g, gc, hc, hr⟩ := writeEntry_visible env fuel d p c hT hB fp o st1 hshow hw
    have ecT0 : d.pdf.tMargin = dir0.topMargin := hinv.tMargin
    have ecF0 : d.fontSize = dir0.fontSize := hinv.fontSize
    have eck0 : d.pdf.k = dir0.pdf.k := hinv.ratio
    have ecP0 : d.padding = dir0.padding := hinv.padding
    have ecH0 : d.columnHeight = dir0.columnHeight := hinv.columnHeight
    have hoff0 : ∀ b : Bool,
        0 ≤ d.pdf.tMargin + (if b = true then ((d.fontSize + 2) / d.pdf.k) * 2 else 0) := by
      intro b
      rw [ecT0, ecF0, eck0]
      unfold headerOffset at hoffnn
      split <;> linarith
    have hyb : 0 ≤ (writeEntryBreaks env (getSectionOverride env d p o).2 c fp
        (getSectionOverride env d p o).1).2.2.y := by
      rw [hd]
      rcases writeEntryBreaks_cases env { d with overrides := ov, storeReads := sr, warnings := w }
          c fp (getSectionOverride env d p o).1 hinv.fontStyle
          (by show 0 ≤ d.pdf.tMargin; rw [ecT0]; exact htop) (hoff0 fp)
        with ⟨-, -, hb⟩ | ⟨-, -, hb⟩ | ⟨-, x0, lm0, ops0, hb, -, -⟩
      · rw [hb]
        show 0 ≤ d.pdf.y
        rw [hy]
        have hjH := mul_nonneg (Nat.cast_nonneg (α := ℚ) j) hH.le
        split <;> linarith
      · rw [hb]
        exact hoff0 fp
      · rw [hb]
        show 0 ≤ d.pdf.tMargin
        rw [ecT0]
        exact htop
    have hpd : (getSectionOverride env d p o).2.padding = dir0.padding := by rw [hd]; exact ecP0
    have hcd : (getSectionOverride env d p o).2.columnHeight = dir0.columnHeight := by
      rw [hd]; exact ecH0
    obtain ⟨x, page, lm, fg, dg, ops, hg, hp, he⟩ := writeEntryCell_frame _ _ _ _ _ _ _ _ _ _ hc
      (by rw [hpd]; linarith) (by rw [hpd, hcd]; unfold cellHeight at hH; linarith)
    clear hc hw hshow hyb hpd hcd
    rcases hgo : getSectionOverride env d p o with ⟨o1, d1⟩
    rw [hgo] at hd hfl1 hfl2 h1 h2 hr hg hp he
    simp only at hd hfl1 hfl2 h1 h2 hr hg hp he
    clear hgo
    subst hd
    have hstyle : ({ d with overrides := ov, storeReads := sr, warnings := w } : PdfDir).pdf.fontStyle
        = "" := hinv.fontStyle
    have hlimit : d.pdf.h - d.pdf.bMargin
        - (if (o1.BaptismFootnote || o1.NewMemberFootnote) = true then d.pdf.fontSize else 0)
        = dir0.pdf.h - dir0.bottomMargin - footnoteReserve dir0 o := by
      have e1 : d.pdf.h = dir0.pdf.h := hinv.pageHeight
      have e2 : d.pdf.bMargin = dir0.bottomMargin := hinv.bMargin
      have e3 : d.pdf.fontSizePt = dir0.fontSize := hinv.fontSizePt
      have e4 : d.pdf.k = dir0.pdf.k := hinv.ratio
      rw [hfl1, hfl2, e1, e2]
      unfold footnoteReserve Pdf.fontSize
      rw [e3, e4]
    have ecH : d.columnHeight = dir0.columnHeight := hinv.columnHeight
    have ecP : d.padding = dir0.padding := hinv.padding
    have ecK : d.colNum = dir0.colNum := hinv.colNum
    have ecF : d.fontSize = dir0.fontSize := hinv.fontSize
    have ecT : d.pdf.tMargin = dir0.topMargin := hinv.tMargin
    have eck : d.pdf.k = dir0.pdf.k := hinv.ratio
    have hfsz : (if d.fontSize = 0 then d.pdf.fontSizePt else d.fontSize) = dir0.fontSize := by
      rw [ecF, if_neg (ne_of_gt hfs)]
    have hfitL : (C : ℚ) * cellHeight dir0
        ≤ (dir0.pdf.h - dir0.bottomMargin - footnoteReserve dir0 o)
          - (dir0.topMargin + headerOffset dir0) := hfit
    obtain ⟨c1, fp1, d2⟩ := st1
    simp only at h1 h2 hr
    rcases writeEntryBreaks_cases env { d with overrides := ov, storeReads := sr, warnings := w }
        c fp o1 hstyle (by show 0 ≤ d.pdf.tMargin; rw [ecT0]; exact htop) (hoff0 fp)
      with ⟨hncb, hnpb, hb⟩ | ⟨hcb, hnpb, hb⟩ | ⟨hcond, x0, lm0, ops0, hb, hp0, he0⟩
    · -- no break
      rw [hb] at h1 h2 hg hp he
      simp only at h1 h2 hg hp he
      have h1s := h1.symm
      have h2s := h2.symm
      subst h1s h2s hr hg
      exact
        { topMargin := hinv.topMargin, bottomMargin := hinv.bottomMargin,
          columnHeight := hinv.columnHeight, padding := hinv.padding, colNum := hinv.colNum,
          fontSize := hinv.fontSize, tMargin := hinv.tMargin, bMargin := hinv.bMargin,
          pageHeight := hinv.pageHeight, ratio := hinv.ratio, fontSizePt := hfsz,
          fontStyle := rfl,
          cursor := by
            refine ⟨col, j + 1, n + 1, b, hcol, hcolK, ?_, ?_, ?_, ?_⟩
            · show d.pdf.y + d.padding / 2 + d.columnHeight + d.padding / 2 = _
              rw [hy, ecH, ecP]
              unfold cellHeight
              push_cast
              ring
            · show entryCount ops = _
              rw [he, hen]; ring
            · show explicitPages ops = _
              rw [hp, hpn]
            · push_cast
              linarith }
    · -- column break
      rw [hb] at h1 h2 hg hp he
      simp only at h1 h2 hg hp he
      have h2s := h2.symm
      subst h1 h2s hr hg
      simp only at hcb hnpb
      rw [hlimit] at hcb
      have hCj : (C : ℚ) ≤ (j : ℚ) := by
        refine cells_above_at_break (cellHeight dir0) (headerOffset dir0)
          (if fp = true then headerOffset dir0 else 0) dir0.topMargin _ d.pdf.y C j hH ?_ hfitL hy ?_
        · split
          · exact le_refl _
          · exact hoffnn
        · unfold cellHeight
          rw [← ecH, ← ecP]
          linarith
      exact
        { topMargin := hinv.topMargin, bottomMargin := hinv.bottomMargin,
          columnHeight := hinv.columnHeight, padding := hinv.padding, colNum := hinv.colNum,
          fontSize := hinv.fontSize, tMargin := hinv.tMargin, bMargin := hinv.bMargin,
          pageHeight := hinv.pageHeight, ratio := hinv.ratio, fontSizePt := hfsz,
          fontStyle := rfl,
          cursor := by
            refine ⟨col + 1, 1, n + 1, b, ?_, ?_, ?_, ?_, ?_, ?_⟩
            · show c + 1 = _
              rw [hcol]; push_cast; ring
            · push_cast
              rw [ecK, hcol] at hnpb
              exact not_le.1 hnpb
            · show d.pdf.tMargin + (if fp = true then ((d.fontSize + 2) / d.pdf.k) * 2 else 0)
                + d.padding / 2 + d.columnHeight + d.padding / 2 = _
              rw [ecT, ecF, eck, ecH, ecP]
              unfold cellHeight headerOffset
              push_cast
              ring
            · show entryCount ops = _
              rw [he, hen]; ring
            · show explicitPages ops = _
              rw [hp, hpn]
            · push_cast
              linarith }
    · -- page break
      rw [hb] at h1 h2 hg hp he
      simp only at h1 h2 hg hp he
      subst h1 h2 hr hg
      simp only at hcond
      rw [hlimit, ecK, hcol] at hcond
      rcases hcond with ⟨hcb, hpb⟩ | hpb
      · have hCj : (C : ℚ) ≤ (j : ℚ) := by
          refine cells_above_at_break (cellHeight dir0) (headerOffset dir0)
            (if fp = true then headerOffset dir0 else 0) dir0.topMargin _ d.pdf.y C j hH ?_ hfitL hy ?_
          · split
            · exact le_refl _
            · exact hoffnn
          · unfold cellHeight
            rw [← ecH, ← ecP]
            linarith
        have hKpos : (0 : ℚ) < dir0.colNum := lt_of_le_of_lt (Nat.cast_nonneg col) hcolK
        have hCK : (C : ℚ) * dir0.colNum ≤ (C : ℚ) * ((col : ℚ) + 1) :=
          mul_le_mul_of_nonneg_left hpb (Nat.cast_nonneg C)
        exact
          { topMargin := hinv.topMargin, bottomMargin := hinv.bottomMargin,
            columnHeight := hinv.columnHeight, padding := hinv.padding, colNum := hinv.colNum,
            fontSize := hinv.fontSize, tMargin := hinv.tMargin, bMargin := hinv.bMargin,
            pageHeight := hinv.pageHeight, ratio := hinv.ratio, fontSizePt := hfsz,
            fontStyle := rfl,
            cursor := by
              refine ⟨0, 1, n + 1, b + 1, ?_, ?_, ?_, ?_, ?_, ?_⟩
              · show (0 : ℚ) = _
                push_cast; rfl
              · push_cast
                exact hKpos
              · show d.pdf.tMargin + d.padding / 2 + d.columnHeight + d.padding / 2 = _
                rw [ecT, ecH, ecP]
                unfold cellHeight
                simp only [Bool.false_eq_true, if_false]
                push_cast
                ring
              · show entryCount ops = _
                rw [he, he0, hen]; ring
              · show explicitPages ops = _
                rw [hp, hp0, hpn]; ring
              · push_cast
                nlinarith }
      · exact absurd hcolK (not_lt.2 hpb)
  · -- hidden entry
    have hf : (getSectionOverride env d p o).1.Show = false := by
      simpa using hshow
    rw [writeEntry_hidden env fuel d p c hT hB fp o hf] at hw
    simp only [Option.some.injEq] at hw
    subst hw
    rw [hd]
    exact
      { topMargin := hinv.topMargin, bottomMargin := hinv.bottomMargin,
        columnHeight := hinv.columnHeight, padding := hinv.padding, colNum := hinv.colNum,
        fontSize := hinv.fontSize, tMargin := hinv.tMargin, bMargin := hinv.bMargin,
        pageHeight := hinv.pageHeight, ratio := hinv.ratio, fontSizePt := hinv.fontSizePt,
        fontStyle := hinv.fontStyle,
        cursor := ⟨col, j, n, b, hcol, hcolK, hy, hen, hpn, hle⟩ }

/-- The roster invariant does not depend on what the resolver writes. -/
theorem RosterInv_override (env : Env) (dir0 : PdfDir) (C e0 p0 : Nat) (o : Section)
    (c : ℚ) (fp : Bool) (d : PdfDir) (p : Person) (hinv : RosterInv dir0 C e0 p0 (c, fp, d)) :
    RosterInv dir0 C e0 p0 (c, fp, (getSectionOverride env d p o).2) := by
  obtain ⟨ov, sr, w, hd⟩ := getSectionOverride_dir env d p o
  rw [hd]
  exact
    { topMargin := hinv.topMargin, bottomMargin := hinv.bottomMargin,
      columnHeight := hinv.columnHeight, padding := hinv.padding, colNum := hinv.colNum,
      fontSize := hinv.fontSize, tMargin := hinv.tMargin, bMargin := hinv.bMargin,
      pageHeight := hinv.pageHeight, ratio := hinv.ratio, fontSizePt := hinv.fontSizePt,
      fontStyle := hinv.fontStyle, cursor := hinv.cursor }

/-- The roster invariant does not depend on the registered images. -/
theorem RosterInv_registerThumbnail (env : Env) (dir0 : PdfDir) (C e0 p0 : Nat)
    (c : ℚ) (fp : Bool) (d d1 : PdfDir) (p : Person) (hinv : RosterInv dir0 C e0 p0 (c, fp, d))
    (hr : registerThumbnail env d p = some d1) : RosterInv dir0 C e0 p0 (c, fp, d1) := by
  unfold registerThumbnail at hr
  split at hr
  · split at hr
    · simp only [Option.some.injEq] at hr
      subst hr
      exact
        { topMargin := hinv.topMargin, bottomMargin := hinv.bottomMargin,
          columnHeight := hinv.columnHeight, padding := hinv.padding, colNum := hinv.colNum,
          fontSize := hinv.fontSize, tMargin := hinv.tMargin, bMargin := hinv.bMargin,
          pageHeight := hinv.pageHeight, ratio := hinv.ratio, fontSizePt := hinv.fontSizePt,
          fontStyle := hinv.fontStyle, cursor := hinv.cursor }
    · cases hr
  · simp only [Option.some.injEq] at hr
    subst hr
    exact hinv

/-- The roster invariant is kept by one iteration of the member loop. -/
theorem RosterInv_writeMember (env : Env) (fuel : Nat) (dir0 : PdfDir) (C e0 p0 : Nat)
    (o : Section) (hk : 0 < dir0.pdf.k) (hfs : 0 < dir0.fontSize) (hH : 0 < cellHeight dir0)
    (htop : 0 ≤ dir0.topMargin) (hpad : 0 ≤ dir0.padding)
    (hfit : (C : ℚ) * cellHeight dir0 ≤ firstPageColumnHeight dir0 o)
    (st st1 : ℚ × Bool × PdfDir) (m : Person)
    (hinv : RosterInv dir0 C e0 p0 st)
    (hw : writeMember env fuel o st m = some st1) : RosterInv dir0 C e0 p0 st1 := by
  obtain ⟨c, fp, d⟩ := st
  unfold writeMember at hw
  simp only at hw
  split at hw
  · cases hw
  · next d1 hr =>
    have hinv1 := RosterInv_registerThumbnail env dir0 C e0 p0 c fp d d1 m hinv hr
    split at hw
    · simp only [Option.some.injEq] at hw
      subst hw
      exact hinv1
    · exact RosterInv_writeEntry env fuel dir0 C e0 p0 o hk hfs hH htop hpad hfit (c, fp, d1) st1 m
        false true hinv1 hw

/-- The roster invariant is kept by the member loop. -/
theorem RosterInv_writeMembers (env : Env) (fuel : Nat) (dir0 : PdfDir) (C e0 p0 : Nat)
    (o : Section) (hk : 0 < dir0.pdf.k) (hfs : 0 < dir0.fontSize) (hH : 0 < cellHeight dir0)
    (htop : 0 ≤ dir0.topMargin) (hpad : 0 ≤ dir0.padding)
    (hfit : (C : ℚ) * cellHeight dir0 ≤ firstPageColumnHeight dir0 o)
    (ms : List Person) (st st1 : ℚ × Bool × PdfDir)
    (hinv : RosterInv dir0 C e0 p0 st)
    (hw : writeMembers env fuel o ms st = some st1) : RosterInv dir0 C e0 p0 st1 := by
  induction ms generalizing st with
  | nil =>
    unfold writeMembers at hw
    simp only [Option.some.injEq] at hw
    subst hw
    exact hinv
  | cons m rest ih =>
    unfold writeMembers at hw
    split at hw
    · cases hw
    · next st2 hm =>
      exact ih st2 (RosterInv_writeMember env fuel dir0 C e0 p0 o hk hfs hH htop hpad hfit st st2 m hinv hm)
        hw

/-- The roster invariant is kept by one iteration of the household loop. -/
theorem RosterInv_writeHousehold (env : Env) (fuel : Nat) (dir0 : PdfDir) (C e0 p0 : Nat)
    (o : Section) (hk : 0 < dir0.pdf.k) (hfs : 0 < dir0.fontSize) (hH : 0 < cellHeight dir0)
    (htop : 0 ≤ dir0.topMargin) (hpad : 0 ≤ dir0.padding)
    (hfit : (C : ℚ) * cellHeight dir0 ≤ firstPageColumnHeight dir0 o)
    (st st1 : ℚ × Bool × PdfDir) (h : Household)
    (hinv : RosterInv dir0 C e0 p0 st)
    (hw : writeHousehold env fuel o st h = some st1) : RosterInv dir0 C e0 p0 st1 := by
  obtain ⟨c, fp, d⟩ := st
  unfold writeHousehold at hw
  split at hw
  · exact RosterInv_writeMembers env fuel dir0 C e0 p0 o hk hfs hH htop hpad hfit _ _ _ hinv hw
  · next head hhead =>
    have hinv1 := RosterInv_override env dir0 C e0 p0 o c fp d head hinv
    rcases hgo : getSectionOverride env d head o with ⟨o1, d1⟩
    rw [hgo] at hinv1
    simp only [hgo] at hw
    split at hw
    · simp only [Option.some.injEq] at hw
      subst hw
      exact hinv1
    · split at hw
      · cases hw
      · next d2 hr =>
        have hinv2 := RosterInv_registerThumbnail env dir0 C e0 p0 c fp d1 d2 head hinv1 hr
        split at hw
        · cases hw
        · next st2 he =>
          have hinv3 := RosterInv_writeEntry env fuel dir0 C e0 p0 o hk hfs hH htop hpad hfit (c, fp, d2)
            st2 head false true hinv2 he
          exact RosterInv_writeMembers env fuel dir0 C e0 p0 o hk hfs hH htop hpad hfit _ _ _ hinv3 hw

/-- The roster invariant is kept by the household loop. -/
theorem RosterInv_writeHouseholds (env : Env) (fuel : Nat) (dir0 : PdfDir) (C e0 p0 : Nat)
    (o : Section) (hk : 0 < dir0.pdf.k) (hfs : 0 < dir0.fontSize) (hH : 0 < cellHeight dir0)
    (htop : 0 ≤ dir0.topMargin) (hpad : 0 ≤ dir0.padding)
    (hfit : (C : ℚ) * cellHeight dir0 ≤ firstPageColumnHeight dir0 o)
    (hs : List Household) (st st1 : ℚ × Bool × PdfDir)
    (hinv : RosterInv dir0 C e0 p0 st)
    (hw : writeHouseholds env fuel o hs st = some st1) : RosterInv dir0 C e0 p0 st1 := by
  induction hs generalizing st with
  | nil =>
    unfold writeHouseholds at hw
    simp only [Option.some.injEq] at hw
    subst hw
    exact hinv
  | cons h rest ih =>
    unfold writeHouseholds at hw
    split at hw
    · cases hw
    · next st2 hm =>
      exact ih st2
        (RosterInv_writeHousehold env fuel dir0 C e0 p0 o hk hfs hH htop hpad hfit st st2 h hinv hm) hw

/-- The fields of the surface that `CellFormat` leaves alone, and its effect on
the two counts of the trace. -/
theorem CellFormat_fields (f : Pdf) (w h : ℚ) (txt : String) (ln : Nat) (align : String) :
    (f.CellFormat w h txt ln align).tMargin = f.tMargin
    ∧ (f.CellFormat w h txt ln align).bMargin = f.bMargin
    ∧ (f.CellFormat w h txt ln align).h = f.h
    ∧ (f.CellFormat w h txt ln align).k = f.k
    ∧ (f.CellFormat w h txt ln align).fontSizePt = f.fontSizePt
    ∧ (f.CellFormat w h txt ln align).fontStyle = f.fontStyle
    ∧ explicitPages (f.CellFormat w h txt ln align).ops = explicitPages f.ops
    ∧ entryCount (f.CellFormat w h txt ln align).ops
        = entryCount f.ops + (if f.fontStyle = "B" then 1 else 0) := by
  obtain ⟨x, y, page, ops, hc, h1, h2, -⟩ := CellFormat_frame f w h txt ln align
  rw [hc]
  exact ⟨rfl, rfl, rfl, rfl, rfl, rfl, h1, h2⟩

/-- A cell drawn with `ln = 0` at the top margin leaves the cursor at the top
margin, with or without an automatic page break. -/
theorem CellFormat_y_at_top (f : Pdf) (w h : ℚ) (txt : String) (align : String)
    (hy : f.y = f.tMargin) : (f.CellFormat w h txt 0 align).y = f.tMargin := by
  unfold Pdf.CellFormat
  simp only [lt_irrefl, if_false]
  split <;> simp [hy]

/-- The first page of a section is at its top, one explicit page added. -/
theorem SurfaceAtTop_sectionFirstPage (dir : PdfDir) :
    SurfaceAtTop dir (entryCount dir.pdf.ops) (explicitPages dir.pdf.ops + 1)
      (sectionFirstPage dir) := by
  unfold sectionFirstPage
  refine
    { tMargin := rfl, bMargin := rfl, pageHeight := rfl, ratio := rfl, fontStyle := rfl,
      atTop := rfl, entries := ?_, pages := ?_ }
  · simp [Pdf.SetLeftMargin, Pdf.SetFont, Pdf.SetX, Pdf.AddPage, Pdf.SetAutoPageBreak,
      Pdf.SetRightMargin, Pdf.SetTopMargin, entryCount, List.countP_cons]
  · simp [Pdf.SetLeftMargin, Pdf.SetFont, Pdf.SetX, Pdf.AddPage, Pdf.SetAutoPageBreak,
      Pdf.SetRightMargin, Pdf.SetTopMargin, explicitPages, List.countP_cons]

/-- A cell drawn with `ln = 0` keeps the surface at the top of the page. -/
theorem SurfaceAtTop_CellFormat (dir : PdfDir) (e p : Nat) (f : Pdf) (w h : ℚ)
    (txt align : String) (hs : SurfaceAtTop dir e p f) :
    SurfaceAtTop dir e p (f.CellFormat w h txt 0 align) := by
  obtain ⟨h1, h2, h3, h4, -, h6, h7, h8⟩ := CellFormat_fields f w h txt 0 align
  exact
    { tMargin := h1.trans hs.tMargin, bMargin := h2.trans hs.bMargin,
      pageHeight := h3.trans hs.pageHeight, ratio := h4.trans hs.ratio,
      fontStyle := h6.trans hs.fontStyle,
      atTop := (CellFormat_y_at_top f w h txt align (hs.atTop.trans hs.tMargin.symm)).trans
        hs.tMargin,
      entries := by rw [h8, hs.fontStyle, hs.entries]; simp,
      pages := h7.trans hs.pages }

/-- Selecting the regular font keeps the surface at the top of the page. -/
theorem SurfaceAtTop_SetFont (dir : PdfDir) (e p : Nat) (f : Pdf) (family : String) (size : ℚ)
    (hs : SurfaceAtTop dir e p f) : SurfaceAtTop dir e p (f.SetFont family "" size) :=
  { tMargin := hs.tMargin, bMargin := hs.bMargin, pageHeight := hs.pageHeight,
    ratio := hs.ratio, fontStyle := rfl, atTop := hs.atTop, entries := hs.entries,
    pages := hs.pages }

/-- Moving the left margin keeps the surface at the top of the page. -/
theorem SurfaceAtTop_SetLeftMargin (dir : PdfDir) (e p : Nat) (f : Pdf) (margin : ℚ)
    (hs : SurfaceAtTop dir e p f) : SurfaceAtTop dir e p (f.SetLeftMargin margin) :=
  { tMargin := hs.tMargin, bMargin := hs.bMargin, pageHeight := hs.pageHeight,
    ratio := hs.ratio, fontStyle := hs.fontStyle, atTop := hs.atTop, entries := hs.entries,
    pages := hs.pages }

/-- After the header of a section the roster invariant holds: first column,
first page, no cell yet, one page added. -/
theorem RosterInv_writeSectionHeader (env : Env) (dir : PdfDir) (header : String) (C : Nat)
    (hk : 0 < dir.pdf.k) (hfs : 0 < dir.fontSize) (htop : 0 ≤ dir.topMargin)
    (hK : 1 ≤ dir.colNum) :
    RosterInv dir C (entryCount dir.pdf.ops) (explicitPages dir.pdf.ops + 1)
      (0, true, writeSectionHeader env dir header) := by
  have hne : dir.fontSize ≠ 0 := ne_of_gt hfs
  have hne2 : dir.fontSize + 2 ≠ 0 := ne_of_gt (by linarith)
  have h0 := SurfaceAtTop_sectionFirstPage dir
  have hfs0 : (sectionFirstPage dir).fontSize = (dir.fontSize + 2) / dir.pdf.k := by
    simp [sectionFirstPage, Pdf.fontSize, Pdf.SetLeftMargin, Pdf.SetFont, Pdf.SetX, Pdf.AddPage,
      Pdf.SetAutoPageBreak, Pdf.SetRightMargin, Pdf.SetTopMargin, hne2]
  unfold writeSectionHeader
  simp only
  generalize sectionFirstPage dir = F0 at h0 hfs0 ⊢
  have h1 := SurfaceAtTop_CellFormat dir _ _ F0
    (Pdf.GetStringWidth env F0 (env.translate header)) F0.fontSize (env.translate header) "LC" h0
  generalize F0.CellFormat (Pdf.GetStringWidth env F0 (env.translate header)) F0.fontSize
    (env.translate header) 0 "LC" = G1 at h1 ⊢
  have h2 := SurfaceAtTop_SetFont dir _ _ G1 dir.fontFamily dir.fontSize h1
  have hsz : (G1.SetFont dir.fontFamily "" dir.fontSize).fontSizePt = dir.fontSize := by
    simp [Pdf.SetFont, hne]
  generalize G1.SetFont dir.fontFamily "" dir.fontSize = F2 at h2 hsz ⊢
  have h3 := SurfaceAtTop_SetLeftMargin dir _ _ F2
    (F2.w - Pdf.GetStringWidth env F2 (env.translate env.now.formatAsOf) - dir.rightMargin) h2
  have hsz3 : (F2.SetLeftMargin
      (F2.w - Pdf.GetStringWidth env F2 (env.translate env.now.formatAsOf)
        - dir.rightMargin)).fontSizePt = dir.fontSize := hsz
  generalize F2.SetLeftMargin
    (F2.w - Pdf.GetStringWidth env F2 (env.translate env.now.formatAsOf) - dir.rightMargin)
    = F3 at h3 hsz3 ⊢
  have h4 := SurfaceAtTop_CellFormat dir _ _ F3
    (Pdf.GetStringWidth env F2 (env.translate env.now.formatAsOf)) F2.fontSize
    (env.translate env.now.formatAsOf) "RC" h3
  have hsz4 : (F3.CellFormat (Pdf.GetStringWidth env F2 (env.translate env.now.formatAsOf))
      F2.fontSize (env.translate env.now.formatAsOf) 0 "RC").fontSizePt = dir.fontSize :=
    (CellFormat_fields F3 _ _ _ _ _).2.2.2.2.1.trans hsz3
  generalize F3.CellFormat (Pdf.GetStringWidth env F2 (env.translate env.now.formatAsOf))
    F2.fontSize (env.translate env.now.formatAsOf) 0 "RC" = G2 at h4 hsz4 ⊢
  have h5 := SurfaceAtTop_SetLeftMargin dir _ _ G2 F2.lMargin h4
  have hsz5 : (G2.SetLeftMargin F2.lMargin).fontSizePt = dir.fontSize := hsz4
  generalize G2.SetLeftMargin F2.lMargin = F5 at h5 hsz5 ⊢
  exact
    { topMargin := rfl, bottomMargin := rfl, columnHeight := rfl, padding := rfl, colNum := rfl,
      fontSize := rfl, tMargin := h5.tMargin, bMargin := h5.bMargin,
      pageHeight := h5.pageHeight, ratio := h5.ratio, fontSizePt := hsz5,
      fontStyle := h5.fontStyle,
      cursor := by
        refine ⟨0, 0, 0, 0, by simp, ?_, ?_, h5.entries, h5.pages, by simp⟩
        · simp only [Nat.cast_zero]; linarith
        · show (if 0 ≤ F5.y + F0.fontSize * 2 then F5.y + F0.fontSize * 2
              else F5.h + (F5.y + F0.fontSize * 2)) = _
          rw [h5.atTop, hfs0]
          have hpos : 0 ≤ dir.topMargin + (dir.fontSize + 2) / dir.pdf.k * 2 := by
            have : 0 < (dir.fontSize + 2) / dir.pdf.k := div_pos (by linarith) hk
            linarith
          rw [if_pos hpos]
          simp [headerOffset] }

/-- What the roster invariant says about the trace: with `n` name cells drawn and
`b` page breaks made, `b` is at most the ceiling of `n / (C · colNum)`. -/
theorem RosterInv_bound (dir0 : PdfDir) (C e0 p0 : Nat) (st : ℚ × Bool × PdfDir)
    (hC : 1 ≤ C) (hK : 1 ≤ dir0.colNum) (hinv : RosterInv dir0 C e0 p0 st) :
    ∃ n b : Nat, entryCount st.2.2.pdf.ops = e0 + n
      ∧ explicitPages st.2.2.pdf.ops = p0 + b
      ∧ (b : ℤ) ≤ ⌈(n : ℚ) / ((C : ℚ) * dir0.colNum)⌉ := by
  obtain ⟨col, j, n, b, -, -, -, hen, hpn, hle⟩ := hinv.cursor
  refine ⟨n, b, hen, hpn, ?_⟩
  have hCq : (1 : ℚ) ≤ (C : ℚ) := by exact_mod_cast hC
  have hpos : (0 : ℚ) < (C : ℚ) * dir0.colNum := by positivity
  have hcol : (0 : ℚ) ≤ (col : ℚ) * C := by positivity
  have hj : (0 : ℚ) ≤ (j : ℚ) := Nat.cast_nonneg j
  have hb : (b : ℚ) ≤ (n : ℚ) / ((C : ℚ) * dir0.colNum) := by
    rw [le_div_iff₀ hpos]
    nlinarith
  have hceil : (b : ℚ) ≤ ((⌈(n : ℚ) / ((C : ℚ) * dir0.colNum)⌉ : ℤ) : ℚ) :=
    le_trans hb (Int.le_ceil _)
  exact_mod_cast hceil

/-- C8, the claim at automatic page breaks and at negative ordinates. On a
page of height 40 with cells of height 4 (three per first-page column, two
columns), the three entries of the scenario make no page break by the cursor,
and the surface adds two pages when a text line crosses the bottom margin line:
two page breaks against a bound of ceil(3 / (3 · 2)) = 1. With a top margin of
-20 the column break sets a negative ordinate, which the surface reads from the
bottom edge: six entries make three page breaks by the cursor against a bound
of ceil(6 / (6 · 2)) = 1. With a padding of -8 and a top margin of 0 the cell
start of a later page is negative: six entries make four page breaks by the
cursor against a bound of ceil(6 / (2 · 1)) = 3. -/
theorem C8_page_breaks_counterexample :
    ((3 : ℚ) * cellHeight dirShort ≤ firstPageColumnHeight dirShort scenarioSection
      ∧ firstPageColumnHeight dirShort scenarioSection < ((3 : ℚ) + 1) * cellHeight dirShort
      ∧ dirShort.colNum = 2
      ∧ (entryCount dirShort.pdf.ops, explicitPages dirShort.pdf.ops, autoPages dirShort.pdf.ops,
          dirShort.pdf.page) = (0, 1, 0, 1)
      ∧ (writeSection (envWith .noBytes) 0 dirShort scenarioEntries "Members"
          scenarioSection).map (fun r => (entryCount r.2.pdf.ops, explicitPages r.2.pdf.ops,
            autoPages r.2.pdf.ops, r.2.pdf.page)) = some (3, 2, 2, 4))
    ∧ ((6 : ℚ) * cellHeight dirNegativeTopMargin
          ≤ firstPageColumnHeight dirNegativeTopMargin scenarioSection
      ∧ firstPageColumnHeight dirNegativeTopMargin scenarioSection
          < ((6 : ℚ) + 1) * cellHeight dirNegativeTopMargin
      ∧ dirNegativeTopMargin.colNum = 2
      ∧ (entryCount dirNegativeTopMargin.pdf.ops, explicitPages dirNegativeTopMargin.pdf.ops)
          = (0, 1)
      ∧ (writeSection (envWith .noBytes) 0 dirNegativeTopMargin sixEntries "Members"
          scenarioSection).map (fun r => (entryCount r.2.pdf.ops, explicitPages r.2.pdf.ops))
          = some (6, 5))
    ∧ ((2 : ℚ) * cellHeight dirNegativePadding
          ≤ firstPageColumnHeight dirNegativePadding scenarioSection
      ∧ firstPageColumnHeight dirNegativePadding scenarioSection
          < ((2 : ℚ) + 1) * cellHeight dirNegativePadding
      ∧ dirNegativePadding.colNum = 1
      ∧ (entryCount dirNegativePadding.pdf.ops, explicitPages dirNegativePadding.pdf.ops)
          = (0, 1)
      ∧ (writeSection (envWith .noBytes) 0 dirNegativePadding sixEntries "Members"
          scenarioSection).map (fun r => (entryCount r.2.pdf.ops, explicitPages r.2.pdf.ops))
          = some (6, 6)) :=
  ⟨⟨by with_unfolding_all decide, by with_unfolding_all decide, by with_unfolding_all decide,
    by with_unfolding_all decide, by with_unfolding_all decide⟩,
   ⟨by with_unfolding_all decide, by with_unfolding_all decide, by with_unfolding_all decide,
    by with_unfolding_all decide, by with_unfolding_all decide⟩,
   ⟨by with_unfolding_all decide, by with_unfolding_all decide, by with_unfolding_all decide,
    by with_unfolding_all decide, by with_unfolding_all decide⟩⟩

/-- C8, amended: within one `writeSection` run that returns, with cell height
H = columnHeight + padding, with C ≥ 1 the number of cells of height H that fit
in one column of the first page of the section (between topMargin + header
offset and page height − bottomMargin − footnote reserve), a column count
colNum ≥ 1, a top margin and a padding that are not negative, a positive font
size and a positive conversion ratio of the surface: if the run draws N name
cells (one per visible entry) and adds, after the first page of the section, B
pages by the page breaks of the cursor of `writeEntry` (its `AddPage` calls;
the pages that the surface adds by itself when a text line crosses the bottom
margin line are not counted), then B ≤ ceil(N / (C · colNum)). -/
theorem C8_page_breaks_bound (env : Env) (fuel : Nat) (dir : PdfDir)
    (entries : List (String × Household)) (header : String) (displayOptions : Section)
    (C : Nat) (ok : Bool) (dir1 : PdfDir)
    (hk : 0 < dir.pdf.k) (hfs : 0 < dir.fontSize)
    (htop : 0 ≤ dir.topMargin) (hpad : 0 ≤ dir.padding)
    (hK : 1 ≤ dir.colNum) (hC : 1 ≤ C)
    (hlo : (C : ℚ) * cellHeight dir ≤ firstPageColumnHeight dir displayOptions)
    (hhi : firstPageColumnHeight dir displayOptions < ((C : ℚ) + 1) * cellHeight dir)
    (hrun : writeSection env fuel dir entries header displayOptions = some (ok, dir1)) :
    ∃ N B : Nat, entryCount dir1.pdf.ops = entryCount dir.pdf.ops + N
      ∧ explicitPages dir1.pdf.ops = explicitPages dir.pdf.ops + 1 + B
      ∧ (B : ℤ) ≤ ⌈(N : ℚ) / ((C : ℚ) * dir.colNum)⌉ := by
  have hH : 0 < cellHeight dir := by nlinarith
  have hhead := RosterInv_writeSectionHeader env dir header C hk hfs htop hK
  unfold writeSection at hrun
  simp only at hrun
  split at hrun
  · simp only [Option.some.injEq, Prod.mk.injEq] at hrun
    obtain ⟨-, rfl⟩ := hrun
    exact RosterInv_bound dir C _ _ _ hC hK hhead
  · split at hrun
    · simp only [Option.some.injEq, Prod.mk.injEq] at hrun
      obtain ⟨-, rfl⟩ := hrun
      exact RosterInv_bound dir C _ _ _ hC hK hhead
    · split at hrun
      · cases hrun
      · next st hloop =>
        simp only [Option.some.injEq, Prod.mk.injEq] at hrun
        obtain ⟨-, rfl⟩ := hrun
        have hinv := RosterInv_writeHouseholds env fuel dir C _ _ displayOptions hk hfs hH htop hpad hlo
          _ _ st hhead hloop
        obtain ⟨n, b, hen, hpn, hb⟩ := RosterInv_bound dir C _ _ st hC hK hinv
        obtain ⟨x, y, lm, ops, hf, h1, h2⟩ := writeFooter_frame env st.2.2 displayOptions
        refine ⟨n, b, ?_, ?_, hb⟩
        · show entryCount (writeFooter env st.2.2 displayOptions).ops = _
          rw [hf]
          show entryCount ops = _
          rw [h2, hinv.fontStyle, hen]
          simp
        · show explicitPages (writeFooter env st.2.2 displayOptions).ops = _
          rw [hf]
          show explicitPages ops = _
          rw [h1, hpn]

/-- C8 run on the scenario in a single column that holds two cells: the run
returns, draws three name cells and makes one page break (the trace ends with
three explicit pages: one from before, the first page of the section, and the
break), within the bound ceil(3 / (2 · 1)). -/
theorem C8_page_breaks_bound_witness :
    (writeSection (envWith .noBytes) 0 dirTall scenarioEntries "Members" scenarioSection).map
        (fun r => (entryCount r.2.pdf.ops, explicitPages r.2.pdf.ops)) = some (3, 3)
    ∧ ∃ r, writeSection (envWith .noBytes) 0 dirTall scenarioEntries "Members" scenarioSection
          = some r
        ∧ ∃ N B : Nat, entryCount r.2.pdf.ops = entryCount dirTall.pdf.ops + N
          ∧ explicitPages r.2.pdf.ops = explicitPages dirTall.pdf.ops + 1 + B
          ∧ (B : ℤ) ≤ ⌈(N : ℚ) / (((2 : Nat) : ℚ) * dirTall.colNum)⌉ := by
  have hs : (writeSection (envWith .noBytes) 0 dirTall scenarioEntries "Members"
      scenarioSection).isSome = true := by with_unfolding_all decide
  obtain ⟨r, hr⟩ := Option.isSome_iff_exists.1 hs
  obtain ⟨ok, d1⟩ := r
  exact ⟨by with_unfolding_all decide, (ok, d1), hr,
    C8_page_breaks_bound (envWith .noBytes) 0 dirTall scenarioEntries "Members" scenarioSection
      2 ok d1 (by with_unfolding_all decide) (by with_unfolding_all decide)
      (by with_unfolding_all decide) (by with_unfolding_all decide)
      (by with_unfolding_all decide) (by decide) (by with_unfolding_all decide)
      (by with_unfolding_all decide) hr⟩

/-! ## Theorems: shrink-to-fit -/

/-- When the shrink loop ends, the string fits. -/
theorem shrinkLoop_fits (env : Env) (width : ℚ) (str : String) (fuel : Nat) (f g : Pdf)
    (h : shrinkLoop env width str fuel f = some g) :
    Pdf.GetStringWidth env g str + g.cMargin ≤ width := by
  induction fuel generalizing f with
  | zero =>
    unfold shrinkLoop at h
    split at h
    · cases h
    · next hc =>
      simp only [Option.some.injEq] at h
      subst h
      exact not_lt.1 hc
  | succ n ih =>
    unfold shrinkLoop at h
    split at h
    · exact ih _ h
    · next hc =>
      simp only [Option.some.injEq] at h
      subst h
      exact not_lt.1 hc

/-- The shrink loop reads the font and the cell margin only: two surfaces that
agree on them settle on the same font size, or both run out of fuel. -/
theorem shrinkLoop_congr (env : Env) (width : ℚ) (str : String) (fuel : Nat) (f f2 : Pdf)
    (h1 : f2.fontSizePt = f.fontSizePt) (h2 : f2.k = f.k) (h3 : f2.cMargin = f.cMargin)
    (h4 : f2.fontFamily = f.fontFamily) (h5 : f2.fontStyle = f.fontStyle) :
    (shrinkLoop env width str fuel f2).map (fun r => r.fontSizePt)
      = (shrinkLoop env width str fuel f).map (fun r => r.fontSizePt) := by
  induction fuel generalizing f f2 with
  | zero =>
    have hw : Pdf.GetStringWidth env f2 str + f2.cMargin = Pdf.GetStringWidth env f str + f.cMargin := by
      unfold Pdf.GetStringWidth Pdf.rawWidth Pdf.fontSize
      rw [h1, h2, h3, h4, h5]
    unfold shrinkLoop
    rw [hw]
    split
    · rfl
    · exact congrArg some h1
  | succ n ih =>
    have hw : Pdf.GetStringWidth env f2 str + f2.cMargin = Pdf.GetStringWidth env f str + f.cMargin := by
      unfold Pdf.GetStringWidth Pdf.rawWidth Pdf.fontSize
      rw [h1, h2, h3, h4, h5]
    unfold shrinkLoop
    rw [hw]
    split
    · exact ih (f.SetFontSize (f.fontSizePt - 1 / 10)) (f2.SetFontSize (f2.fontSizePt - 1 / 10))
        (by simp [Pdf.SetFontSize, h1]) h2 h3 h4 h5
    · exact congrArg some h1

/-- With a positive raw width and a positive conversion ratio, `n` steps of 0.1
point are enough as soon as the string fits at the size reached after them. -/
theorem shrinkLoop_returns (env : Env) (width : ℚ) (str : String) (n : Nat) (f : Pdf)
    (hfit : (Pdf.rawWidth env f str : ℚ) * ((f.fontSizePt - (n : ℚ) / 10) / f.k) / 1000
      + f.cMargin ≤ width) :
    (shrinkLoop env width str n f).isSome = true := by
  induction n generalizing f with
  | zero =>
    unfold shrinkLoop
    split
    · next hc =>
      exfalso
      unfold Pdf.GetStringWidth Pdf.fontSize at hc
      simp only [Nat.cast_zero, zero_div, sub_zero] at hfit
      exact absurd hfit (not_le.2 hc)
    · rfl
  | succ m ih =>
    unfold shrinkLoop
    split
    · apply ih
      have e : ((f.SetFontSize (f.fontSizePt - 1 / 10)).fontSizePt - (m : ℚ) / 10)
          = f.fontSizePt - ((m + 1 : Nat) : ℚ) / 10 := by
        simp only [Pdf.SetFontSize]
        push_cast
        ring
      have e2 : Pdf.rawWidth env (f.SetFontSize (f.fontSizePt - 1 / 10)) str
          = Pdf.rawWidth env f str := rfl
      have e3 : (f.SetFontSize (f.fontSizePt - 1 / 10)).k = f.k := rfl
      have e4 : (f.SetFontSize (f.fontSizePt - 1 / 10)).cMargin = f.cMargin := rfl
      rw [e, e2, e3, e4]
      exact hfit
    · rfl

/-- With a positive raw width and a positive conversion ratio the shrink loop
ends: some number of iterations is enough. -/
theorem shrinkLoop_terminates (env : Env) (width : ℚ) (str : String) (f : Pdf)
    (hraw : 0 < Pdf.rawWidth env f str) (hk : 0 < f.k) :
    ∃ fuel, (shrinkLoop env width str fuel f).isSome = true := by
  have hr : (0 : ℚ) < (Pdf.rawWidth env f str : ℚ) := by exact_mod_cast hraw
  obtain ⟨n, hn⟩ := exists_nat_ge
    (10 * (f.fontSizePt - (width - f.cMargin) * 1000 * f.k / (Pdf.rawWidth env f str : ℚ)))
  refine ⟨n, shrinkLoop_returns env width str n f ?_⟩
  have h1 : f.fontSizePt - (n : ℚ) / 10
      ≤ (width - f.cMargin) * 1000 * f.k / (Pdf.rawWidth env f str : ℚ) := by linarith
  have h2 : (Pdf.rawWidth env f str : ℚ) * (f.fontSizePt - (n : ℚ) / 10)
      ≤ (width - f.cMargin) * 1000 * f.k := by
    have := mul_le_mul_of_nonneg_left h1 hr.le
    rwa [mul_div_cancel₀ _ (ne_of_gt hr)] at this
  have h3 : (Pdf.rawWidth env f str : ℚ) * ((f.fontSizePt - (n : ℚ) / 10) / f.k) / 1000
      ≤ width - f.cMargin := by
    rw [← mul_div_assoc, div_div, div_le_iff₀ (by positivity)]
    linarith
  linarith

/-- The cell drawn by `shrinkedCell` is the last drawing call, at the font size
the loop settled on. -/
theorem shrinkedCell_drawn (env : Env) (fuel : Nat) (f g : Pdf) (width height : ℚ)
    (str align : String) (h : shrinkedCell env fuel f width height str align = some g) :
    ∃ f1, shrinkLoop env width str fuel f = some f1
      ∧ lastCellSize g.ops = some f1.fontSizePt ∧ g.fontSizePt = f.fontSizePt
      ∧ g.k = f.k ∧ g.cMargin = f.cMargin ∧ g.fontFamily = f.fontFamily
      ∧ g.fontStyle = f.fontStyle := by
  unfold shrinkedCell at h
  simp only at h
  cases hl : shrinkLoop env width str fuel f with
  | none => rw [hl] at h; cases h
  | some f1 =>
    rw [hl] at h
    simp only [Option.some.injEq] at h
    obtain ⟨sz, hsz⟩ := shrinkLoop_frame env width str fuel f f1 hl
    refine ⟨f1, rfl, ?_⟩
    subst h
    subst hsz
    unfold Pdf.CellFormat Pdf.SetFontSize
    simp only
    split <;> split <;> simp [lastCellSize]

/-- C19: shrink-to-fit never clips. Whenever `shrinkedCell` returns, the loop
has settled on a font size at which the measured width of the string plus the
cell margin is at most the available width, and the cell is drawn at that
size; and for every string of positive raw width, on a surface with a positive
conversion ratio, the routine does return once given enough iterations,
whatever the available width. -/
theorem C19_shrink_never_clips (env : Env) (f : Pdf) (width height : ℚ) (str align : String) :
    (∀ fuel g, shrinkedCell env fuel f width height str align = some g →
      ∃ f1, shrinkLoop env width str fuel f = some f1
        ∧ lastCellSize g.ops = some f1.fontSizePt
        ∧ Pdf.GetStringWidth env f1 str + f1.cMargin ≤ width)
    ∧ (0 < Pdf.rawWidth env f str → 0 < f.k →
      ∃ fuel, (shrinkedCell env fuel f width height str align).isSome = true) := by
  constructor
  · intro fuel g h
    obtain ⟨f1, h1, h2, -⟩ := shrinkedCell_drawn env fuel f g width height str align h
    exact ⟨f1, h1, h2, shrinkLoop_fits env width str fuel f f1 h1⟩
  · intro hraw hk
    obtain ⟨fuel, hf⟩ := shrinkLoop_terminates env width str f hraw hk
    refine ⟨fuel, ?_⟩
    unfold shrinkedCell
    simp only
    obtain ⟨f1, h1⟩ := Option.isSome_iff_exists.1 hf
    rw [h1]
    rfl

/-- C19 run on Jan Doe's name line in a width of 12: the loop takes the font from
9 down to 8.5 points, where the line measures 4 · 8.5 · 127 / 360 ≤ 12. -/
theorem C19_shrink_never_clips_witness :
    (shrinkedCell (envWith .noBytes) 10 pdfA narrowWidth 4 "DOE, JAN" "L").map
        (fun g => lastCellSize g.ops) = some (some (17 / 2))
    ∧ ∃ g f1, shrinkedCell (envWith .noBytes) 10 pdfA narrowWidth 4 "DOE, JAN" "L" = some g
        ∧ shrinkLoop (envWith .noBytes) narrowWidth "DOE, JAN" 10 pdfA = some f1
        ∧ lastCellSize g.ops = some f1.fontSizePt
        ∧ Pdf.GetStringWidth (envWith .noBytes) f1 "DOE, JAN" + f1.cMargin ≤ narrowWidth := by
  have hs : (shrinkedCell (envWith .noBytes) 10 pdfA narrowWidth 4 "DOE, JAN" "L").isSome
      = true := by with_unfolding_all decide
  obtain ⟨g, hg⟩ := Option.isSome_iff_exists.1 hs
  obtain ⟨f1, h1, h2, h3⟩ :=
    (C19_shrink_never_clips (envWith .noBytes) pdfA narrowWidth 4 "DOE, JAN" "L").1 10 g hg
  exact ⟨by with_unfolding_all decide, g, f1, hg, h1, h2, h3⟩

/-- C20: shrink-to-fit is idempotent. When `shrinkedCell` returns, the current
font size is the one before the call; a second call on the same string and
width then returns as well, draws at the same font size as the first, and
again leaves the original font size. -/
theorem C20_shrink_idempotent (env : Env) (fuel : Nat) (f g : Pdf) (width height : ℚ)
    (str align : String) (h : shrinkedCell env fuel f width height str align = some g) :
    g.fontSizePt = f.fontSizePt
    ∧ ∃ g2, shrinkedCell env fuel g width height str align = some g2
        ∧ lastCellSize g2.ops = lastCellSize g.ops
        ∧ g2.fontSizePt = f.fontSizePt := by
  obtain ⟨f1, h1, h2, h3, h4, h5, h6, h7⟩ :=
    shrinkedCell_drawn env fuel f g width height str align h
  refine ⟨h3, ?_⟩
  have hc := shrinkLoop_congr env width str fuel f g h3 h4 h5 h6 h7
  rw [h1] at hc
  cases hl : shrinkLoop env width str fuel g with
  | none => rw [hl] at hc; cases hc
  | some f2 =>
    rw [hl] at hc
    simp only [Option.map_some', Option.some.injEq] at hc
    have hrun : ∃ g2, shrinkedCell env fuel g width height str align = some g2 := by
      unfold shrinkedCell
      simp only
      rw [hl]
      exact ⟨_, rfl⟩
    obtain ⟨g2, hg2⟩ := hrun
    obtain ⟨f3, e1, e2, e3, -⟩ := shrinkedCell_drawn env fuel g g2 width height str align hg2
    rw [hl] at e1
    simp only [Option.some.injEq] at e1
    subst e1
    exact ⟨g2, hg2, by rw [e2, h2, hc], e3.trans h3⟩

/-- C20 run twice on Jan Doe's name line in a width of 12: both calls draw at
8.5 points and leave the font at 9 points. -/
theorem C20_shrink_idempotent_witness :
    ∃ g, shrinkedCell (envWith .noBytes) 10 pdfA narrowWidth 4 "DOE, JAN" "L" = some g
      ∧ g.fontSizePt = pdfA.fontSizePt
      ∧ ∃ g2, shrinkedCell (envWith .noBytes) 10 g narrowWidth 4 "DOE, JAN" "L" = some g2
        ∧ lastCellSize g2.ops = lastCellSize g.ops
        ∧ g2.fontSizePt = pdfA.fontSizePt := by
  have hs : (shrinkedCell (envWith .noBytes) 10 pdfA narrowWidth 4 "DOE, JAN" "L").isSome
      = true := by with_unfolding_all decide
  obtain ⟨g, hg⟩ := Option.isSome_iff_exists.1 hs
  exact ⟨g, hg, C20_shrink_idempotent (envWith .noBytes) 10 pdfA g narrowWidth 4 "DOE, JAN" "L" hg⟩

/-! ## Theorems: phone formatting -/

/-- A padded number below `10 ^ width` has exactly `width` characters. -/
theorem padNat_length (width n : Nat) (hw : 0 < width) (hn : n < 10 ^ width) :
    (padNat width n).length = width := by
  have hlen : (Nat.toDigits 10 n).length ≤ width := by
    unfold Nat.toDigits
    exact Nat.toDigitsCore_length 10 (by decide) (n + 1) n width hn hw
  unfold padNat
  simp only [String.length, List.length_append, List.length_replicate]
  omega

/-- C18, as stated, fails: 10005551234 is at least 10^7, and its formatted text
is the country code followed directly by the last seven digits, without an
area-code group; the same happens at 10^10 itself. -/
theorem C18_area_code_counterexample :
    (10 : Int) ^ 7 ≤ 10005551234
    ∧ phoneNumber 10005551234 = "+1 555-1234"
    ∧ phoneNumber 10005551234 = countryCodeGroup 10005551234 ++ lastSevenGroup 10005551234
    ∧ phoneNumber 10005551234
        ≠ countryCodeGroup 10005551234 ++ areaCodeGroup 10005551234 ++ lastSevenGroup 10005551234
    ∧ phoneNumber (10 ^ 10) = "+1 000-0000" := by
  decide

/-- C18, amended: for every non-negative phone value p, `phoneNumber p` ends with
the last seven digits grouped as `###-####` (eight characters), carries the
three-digit area-code group in front of them if and only if the digits eight to
ten of p are not all zero, which for p < 10^10 is the same as p ≥ 10^7, and
carries the `+<country code> ` prefix if and only if p ≥ 10^10. -/
theorem C18_phone_format (p : Int) (hp : 0 ≤ p) :
    phoneNumber p
      = (if (10 : Int) ^ 10 ≤ p then countryCodeGroup p else "")
        ++ ((if (p / 10000000) % 1000 ≠ 0 then areaCodeGroup p else "") ++ lastSevenGroup p)
    ∧ (lastSevenGroup p).length = 8
    ∧ (areaCodeGroup p).length = 4
    ∧ (p < (10 : Int) ^ 10 → ((p / 10000000) % 1000 ≠ 0 ↔ (10 : Int) ^ 7 ≤ p)) := by
  have e1 : p.tmod 10000 = p % 10000 := Int.tmod_eq_emod hp (by decide)
  have e2 : p.tdiv 10000 = p / 10000 := Int.tdiv_eq_ediv hp (by decide)
  have e3 : p.tdiv 10000000 = p / 10000000 := Int.tdiv_eq_ediv hp (by decide)
  have e4 : p.tdiv 10000000000 = p / 10000000000 := Int.tdiv_eq_ediv hp (by decide)
  have e5 : (p / 10000).tmod 1000 = (p / 10000) % 1000 :=
    Int.tmod_eq_emod (by omega) (by decide)
  have e6 : (p / 10000000).tmod 1000 = (p / 10000000) % 1000 :=
    Int.tmod_eq_emod (by omega) (by decide)
  refine ⟨?_, ?_, ?_, ?_⟩
  · unfold phoneNumber
    simp only [e1, e2, e3, e4, e5, e6, lastSevenGroup, areaCodeGroup, countryCodeGroup]
    have hpfx : (p / 10000000000 ≠ 0) ↔ ((10 : Int) ^ 10 ≤ p) := by
      norm_num
      omega
    by_cases h10 : (10 : Int) ^ 10 ≤ p
    · have h10b : p / 10000000000 ≠ 0 := hpfx.2 h10
      by_cases hac : (p / 10000000) % 1000 ≠ 0
      · simp only [h10, h10b, hac, if_true, ne_eq, not_false_eq_true, String.append_assoc]
      · simp only [h10, h10b, hac, if_true, if_false, ne_eq, not_false_eq_true,
          String.append_assoc, String.empty_append]
    · have h10b : ¬ (p / 10000000000 ≠ 0) := fun h => h10 (hpfx.1 h)
      by_cases hac : (p / 10000000) % 1000 ≠ 0
      · simp only [h10, h10b, hac, if_true, if_false, ne_eq, not_false_eq_true,
          String.append_assoc, String.empty_append]
      · simp only [h10, h10b, hac, if_true, if_false, ne_eq, not_false_eq_true,
          String.append_assoc, String.empty_append]
  · unfold lastSevenGroup fmtZeroPad
    have h1 : ¬ ((p / 10000) % 1000 < 0) := by omega
    have h2 : ¬ (p % 10000 < 0) := by omega
    simp only [h1, h2, if_false, String.length_append]
    rw [padNat_length 3 _ (by decide) (by omega), padNat_length 4 _ (by decide) (by omega)]
    rfl
  · unfold areaCodeGroup fmtZeroPad
    have h1 : ¬ ((p / 10000000) % 1000 < 0) := by omega
    simp only [h1, if_false, String.length_append]
    rw [padNat_length 3 _ (by decide) (by omega)]
    rfl
  · intro hlt
    norm_num at hlt ⊢
    omega

/-- C18, amended, run on a ten-digit number: area code, no country code. -/
theorem C18_phone_format_witness :
    phoneNumber 5551234567 = "555-123-4567"
    ∧ phoneNumber 5551234567
      = (if (10 : Int) ^ 10 ≤ 5551234567 then countryCodeGroup 5551234567 else "")
        ++ ((if ((5551234567 : Int) / 10000000) % 1000 ≠ 0 then areaCodeGroup 5551234567 else "")
          ++ lastSevenGroup 5551234567) :=
  ⟨by decide, (C18_phone_format 5551234567 (by decide)).1⟩

/-! ## Theorems: calendar difference and age text -/

/-- A month has between 28 and 31 days. -/
theorem daysInMonth_bounds (y : Int) (m : Nat) : 28 ≤ daysInMonth y m ∧ daysInMonth y m ≤ 31 := by
  unfold daysInMonth
  split
  · split <;> omega
  · split <;> omega

/-- The results of `dateDiffOrdered` are normalized when the first value is
not after the second. -/
theorem dateDiffOrdered_bounds (a b : Time) (ha : a.Valid) (hb : b.Valid)
    (hab : a.After b = false) :
    0 ≤ (dateDiffOrdered a b).year
    ∧ 0 ≤ (dateDiffOrdered a b).month ∧ (dateDiffOrdered a b).month ≤ 11
    ∧ 0 ≤ (dateDiffOrdered a b).day ∧ (dateDiffOrdered a b).day ≤ 30
    ∧ 0 ≤ (dateDiffOrdered a b).hour ∧ (dateDiffOrdered a b).hour ≤ 23
    ∧ 0 ≤ (dateDiffOrdered a b).min ∧ (dateDiffOrdered a b).min ≤ 59
    ∧ 0 ≤ (dateDiffOrdered a b).sec ∧ (dateDiffOrdered a b).sec ≤ 59 := by
  obtain ⟨a1, a2, a3, a4, a5, a6, a7⟩ := ha
  obtain ⟨b1, b2, b3, b4, b5, b6, b7⟩ := hb
  have da := daysInMonth_bounds a.year a.month
  have db := daysInMonth_bounds b.year b.month
  rw [← Bool.not_eq_true] at hab
  simp only [Time.After, decide_eq_true_eq] at hab
  unfold dateDiffOrdered
  simp only
  generalize daysInMonth a.year a.month = dimA at *
  generalize daysInMonth b.year b.month = dimB at *
  split_ifs <;> omega

/-- The next day of a valid value is valid. -/
theorem Time.nextDay_valid (t : Time) (ht : t.Valid) : t.nextDay.Valid := by
  obtain ⟨h1, h2, h3, h4, h5, h6, h7⟩ := ht
  unfold Time.nextDay
  split
  · exact ⟨h1, h2, by simp, by simp only; omega, h5, h6, h7⟩
  · split
    · have := daysInMonth_bounds t.year (t.month + 1)
      exact ⟨by simp, by simp only; omega, le_refl 1, by simp only; omega, h5, h6, h7⟩
    · have := daysInMonth_bounds (t.year + 1) 1
      exact ⟨le_refl 1, by simp, le_refl 1, by simp only; omega, h5, h6, h7⟩

/-- The previous day of a valid value is valid. -/
theorem Time.prevDay_valid (t : Time) (ht : t.Valid) : t.prevDay.Valid := by
  obtain ⟨h1, h2, h3, h4, h5, h6, h7⟩ := ht
  unfold Time.prevDay
  split
  · exact ⟨h1, h2, by simp only; omega, by simp only; omega, h5, h6, h7⟩
  · split
    · have := daysInMonth_bounds t.year (t.month - 1)
      exact ⟨by simp only; omega, by simp only; omega, by simp only; omega, le_refl _, h5, h6, h7⟩
    · exact ⟨by simp, le_refl 12, by simp, by simp [daysInMonth], h5, h6, h7⟩

/-- Moving a valid value forward by whole days keeps it valid. -/
theorem Time.addDays_valid (n : Nat) (t : Time) (ht : t.Valid) : (Time.addDays n t).Valid := by
  induction n generalizing t with
  | zero => exact ht
  | succ k ih => exact ih _ (Time.nextDay_valid t ht)

/-- Moving a valid value backward by whole days keeps it valid. -/
theorem Time.subDays_valid (n : Nat) (t : Time) (ht : t.Valid) : (Time.subDays n t).Valid := by
  induction n generalizing t with
  | zero => exact ht
  | succ k ih => exact ih _ (Time.prevDay_valid t ht)

/-- Reading a valid value in another location gives a valid value, in that
location. -/
theorem Time.In_valid (t : Time) (zone : Int) (ht : t.Valid) :
    (t.In zone).Valid ∧ (t.In zone).zone = zone := by
  refine ⟨?_, rfl⟩
  unfold Time.In
  simp only
  have hr : ((((t.hour : Int) * 3600 + (t.min : Int) * 60 + (t.sec : Int) + (zone - t.zone))
      % 86400).toNat) < 86400 := by omega
  generalize ((((t.hour : Int) * 3600 + (t.min : Int) * 60 + (t.sec : Int) + (zone - t.zone))
      % 86400).toNat) = r at hr
  have hd : ∀ t1 : Time, t1.Valid →
      ({ t1 with hour := r / 3600, min := (r % 3600) / 60, sec := r % 60, zone := zone } :
        Time).Valid := by
    intro t1 ⟨h1, h2, h3, h4, _, _, _⟩
    exact ⟨h1, h2, h3, h4, by simp only; omega, by simp only; omega, by simp only; omega⟩
  split
  · exact hd _ (Time.addDays_valid _ t ht)
  · exact hd _ (Time.subDays_valid _ t ht)

/-- The results of `dateDiff` on two valid values are normalized. -/
theorem dateDiff_bounds (a b : Time) (ha : a.Valid) (hb : b.Valid) :
    0 ≤ (dateDiff a b).year
    ∧ 0 ≤ (dateDiff a b).month ∧ (dateDiff a b).month ≤ 11
    ∧ 0 ≤ (dateDiff a b).day ∧ (dateDiff a b).day ≤ 30
    ∧ 0 ≤ (dateDiff a b).hour ∧ (dateDiff a b).hour ≤ 23
    ∧ 0 ≤ (dateDiff a b).min ∧ (dateDiff a b).min ≤ 59
    ∧ 0 ≤ (dateDiff a b).sec ∧ (dateDiff a b).sec ≤ 59 := by
  have hb2 : (if a.zone ≠ b.zone then b.In a.zone else b).Valid := by
    split
    · exact (Time.In_valid b a.zone hb).1
    · exact hb
  unfold dateDiff
  generalize (if a.zone ≠ b.zone then b.In a.zone else b) = b2 at hb2
  unfold dateDiffSameLocation
  by_cases hab : a.After b2 = true
  · rw [if_pos hab]
    refine dateDiffOrdered_bounds b2 a hb2 ha ?_
    simp only [Time.After, decide_eq_true_eq] at hab
    simp only [Time.After, decide_eq_false_iff_not]
    omega
  · rw [if_neg hab]
    exact dateDiffOrdered_bounds a b2 ha hb2 (by simpa using hab)

/-- In one location, the order of the two arguments does not matter. -/
theorem dateDiffSameLocation_comm (a b : Time) (hz : a.zone = b.zone) :
    dateDiffSameLocation a b = dateDiffSameLocation b a := by
  unfold dateDiffSameLocation
  by_cases hab : a.After b = true
  · have hba : b.After a = false := by
      simp only [Time.After, decide_eq_true_eq] at hab
      simp only [Time.After, decide_eq_false_iff_not]
      omega
    rw [if_pos hab, hba]
    rfl
  · by_cases hba : b.After a = true
    · rw [if_neg hab, if_pos hba]
    · have heq : a = b := by
        simp only [Time.After, decide_eq_true_eq] at hab hba
        obtain ⟨y1, M1, d1, h1, m1, s1, z1⟩ := a
        obtain ⟨y2, M2, d2, h2, m2, s2, z2⟩ := b
        simp only at hab hba hz
        simp only [Time.mk.injEq]
        omega
      rw [heq]

/-- Reading a valid value in its own location changes nothing. -/
theorem Time.In_self (t : Time) (ht : t.Valid) : t.In t.zone = t := by
  obtain ⟨_, _, _, _, h5, h6, h7⟩ := ht
  obtain ⟨y, M, d, h, m, s, z⟩ := t
  simp only at h5 h6 h7
  unfold Time.In
  simp only [sub_self, add_zero]
  have e1 : ((h : Int) * 3600 + (m : Int) * 60 + (s : Int)) / 86400 = 0 := by omega
  have e2 : (((h : Int) * 3600 + (m : Int) * 60 + (s : Int)) % 86400).toNat
      = h * 3600 + m * 60 + s := by omega
  rw [e1, e2]
  simp only [le_refl, if_true, Int.toNat_zero, Time.addDays, Time.mk.injEq, true_and, and_true]
  omega

/-- With a valid second value, `dateDiff` always works on the second value as
read in the location of the first. -/
theorem dateDiff_eq (a b : Time) (hb : b.Valid) :
    dateDiff a b = dateDiffSameLocation a (b.In a.zone) := by
  unfold dateDiff
  split
  · rfl
  · rename_i h
    have hz : a.zone = b.zone := by simpa using h
    rw [hz, Time.In_self b hb]

/-- Within the month, adding days only moves the day of the month. -/
theorem Time.addDays_within (n : Nat) (t : Time)
    (h : t.day + n ≤ daysInMonth t.year t.month) :
    Time.addDays n t = { t with day := t.day + n } := by
  induction n generalizing t with
  | zero => rfl
  | succ k ih =>
    have hlt : t.day < daysInMonth t.year t.month := by omega
    have hn : t.nextDay = { t with day := t.day + 1 } := by
      unfold Time.nextDay
      rw [if_pos hlt]
    show Time.addDays k t.nextDay = _
    rw [hn, ih _ (by simp only; omega)]
    simp only [Time.mk.injEq, true_and, and_true]
    omega

/-- Past the end of the month, adding days continues from the first day of the
next month. -/
theorem Time.addDays_roll (n : Nat) (t : Time)
    (hd : t.day ≤ daysInMonth t.year t.month)
    (h : daysInMonth t.year t.month < t.day + n) :
    Time.addDays n t
      = Time.addDays (n - (daysInMonth t.year t.month - t.day) - 1) t.firstOfNextMonth := by
  induction n generalizing t with
  | zero => omega
  | succ k ih =>
    show Time.addDays k t.nextDay = _
    by_cases hlt : t.day < daysInMonth t.year t.month
    · have hn : t.nextDay = { t with day := t.day + 1 } := by
        unfold Time.nextDay
        rw [if_pos hlt]
      rw [hn, ih _ (by simp only; omega) (by simp only; omega)]
      have e : ({ t with day := t.day + 1 } : Time).firstOfNextMonth = t.firstOfNextMonth := rfl
      rw [e]
      congr 1
      simp only
      omega
    · have hn : t.nextDay = t.firstOfNextMonth := by
        unfold Time.nextDay Time.firstOfNextMonth
        rw [if_neg hlt]
      rw [hn]
      congr 1
      omega

/-- Thirty days after a day of a month the date is in the next month, when
that month is long enough. -/
theorem Time.addDays_thirty_roll (b : Time) (hb : b.Valid)
    (h1 : daysInMonth b.year b.month < b.day + 30)
    (h2 : b.day + 30 - daysInMonth b.year b.month
      ≤ daysInMonth b.firstOfNextMonth.year b.firstOfNextMonth.month) :
    Time.addDays 30 b
      = { b.firstOfNextMonth with day := b.day + 30 - daysInMonth b.year b.month } := by
  have hday : b.firstOfNextMonth.day = 1 := by
    unfold Time.firstOfNextMonth
    split <;> rfl
  rw [Time.addDays_roll 30 b hb.2.2.2.1 h1, Time.addDays_within _ _ (by rw [hday]; omega), hday]
  have := hb.2.2.2.1
  congr 1
  omega

/-- The calendar difference from a valid value to a day of the next month with
the same clock. -/
theorem dateDiffSameLocation_next_month (b : Time) (hb : b.Valid) (D : Nat) :
    dateDiffSameLocation b { b.firstOfNextMonth with day := D }
      = if (D : Int) < (b.day : Int) then
          DateDiff.mk 0 0 ((D : Int) - (b.day : Int) + (daysInMonth b.year b.month : Int)) 0 0 0
        else DateDiff.mk 0 1 ((D : Int) - (b.day : Int)) 0 0 0 := by
  obtain ⟨h1, h2, h3, h4, h5, h6, h7⟩ := hb
  obtain ⟨y, M, d, h, m, s, z⟩ := b
  simp only at h1 h2 h3 h4 h5 h6 h7
  have hA : Time.After ⟨y, M, d, h, m, s, z⟩
      { Time.firstOfNextMonth ⟨y, M, d, h, m, s, z⟩ with day := D } = false := by
    unfold Time.firstOfNextMonth
    split <;> simp only [Time.After, decide_eq_false_iff_not] <;> omega
  unfold dateDiffSameLocation
  rw [hA]
  simp only [Bool.false_eq_true, if_false]
  unfold dateDiffOrdered Time.firstOfNextMonth
  generalize daysInMonth y M = dim at *
  by_cases hM : M < 12
  · simp only [hM, if_true, sub_self, lt_self_iff_false, if_false, Nat.cast_add, Nat.cast_one,
      add_sub_cancel_left, sub_sub_cancel]
    by_cases hd : (D : Int) < (d : Int)
    · simp only [hd, if_true, sub_neg, sub_self, lt_self_iff_false, if_false, DateDiff.mk.injEq,
        and_true, true_and]
    · simp only [hd, if_false, sub_neg, DateDiff.mk.injEq, and_true, true_and]
      norm_num
  · have hM12 : M = 12 := by omega
    subst hM12
    simp only [lt_self_iff_false, if_false, sub_self, add_sub_cancel_left, Nat.cast_one,
      Nat.cast_ofNat]
    by_cases hd : (D : Int) < (d : Int)
    · simp only [hd, if_true, sub_neg, DateDiff.mk.injEq, and_true, true_and]
      norm_num
    · simp only [hd, if_false, sub_neg, DateDiff.mk.injEq, and_true, true_and]
      norm_num

/-- The calendar difference from a value to a later day of the same month
with the same clock. -/
theorem dateDiffSameLocation_same_month (b : Time) (n : Nat) :
    dateDiffSameLocation b { b with day := b.day + n } = DateDiff.mk 0 0 n 0 0 0 := by
  have hA : Time.After b { b with day := b.day + n } = false := by
    simp only [Time.After, decide_eq_false_iff_not]
    omega
  unfold dateDiffSameLocation
  rw [hA]
  simp only [Bool.false_eq_true, if_false]
  unfold dateDiffOrdered
  simp only [sub_self, lt_self_iff_false, if_false, Nat.cast_add, add_sub_cancel_left,
    DateDiff.mk.injEq, true_and, and_true]
  have hn : ¬ ((n : Int) < 0) := by omega
  simp only [hn, if_false, and_self]
  norm_num

/-- The calendar difference from a value to the same day and clock of the next
year. -/
theorem dateDiffSameLocation_next_year (b : Time) :
    dateDiffSameLocation b { b with year := b.year + 1 } = DateDiff.mk 1 0 0 0 0 0 := by
  have hA : Time.After b { b with year := b.year + 1 } = false := by
    simp only [Time.After, decide_eq_false_iff_not]
    omega
  unfold dateDiffSameLocation
  rw [hA]
  simp only [Bool.false_eq_true, if_false]
  unfold dateDiffOrdered
  simp only [sub_self, lt_self_iff_false, if_false, add_sub_cancel_left]

/-- The age text is a function of the calendar difference. -/
theorem ageText_of (birthday now : Time) (d : DateDiff) (h : dateDiff birthday now = d) :
    ageText birthday now
      = if d.month = 0 ∧ d.year = 0 then fmtInt d.day ++ " days"
        else if d.year = 0 then fmtInt d.month ++ " mos."
        else fmtInt d.year := by
  subst h
  rfl

/-- **C15.** For every valid birthday and render time, with the calendar
difference computed by `dateDiff`: the age text is the day count followed by
" days" when years and months are both 0, the month count followed by " mos."
when years is 0 and months is at least 1, and the decimal year count in every
other case; and when the render time, read in the location of the birthday, is
the birthday one calendar year later, the age text is "1". -/
theorem C15_age_text (birthday now : Time) (hb : birthday.Valid) (hn : now.Valid) :
    (((dateDiff birthday now).year = 0 ∧ (dateDiff birthday now).month = 0) →
      ageText birthday now = fmtInt (dateDiff birthday now).day ++ " days")
    ∧ (((dateDiff birthday now).year = 0 ∧ 1 ≤ (dateDiff birthday now).month) →
      ageText birthday now = fmtInt (dateDiff birthday now).month ++ " mos.")
    ∧ (¬ (((dateDiff birthday now).year = 0 ∧ (dateDiff birthday now).month = 0)
          ∨ ((dateDiff birthday now).year = 0 ∧ 1 ≤ (dateDiff birthday now).month)) →
      ageText birthday now = fmtInt (dateDiff birthday now).year)
    ∧ (now.In birthday.zone = { birthday with year := birthday.year + 1 } →
      ageText birthday now = "1") := by
  have hbd := dateDiff_bounds birthday now hb hn
  refine ⟨?_, ?_, ?_, ?_⟩
  · intro ⟨hy, hm⟩
    rw [ageText_of birthday now _ rfl, if_pos ⟨hm, hy⟩]
  · intro ⟨hy, hm⟩
    have hm0 : ¬ ((dateDiff birthday now).month = 0 ∧ (dateDiff birthday now).year = 0) := by
      omega
    rw [ageText_of birthday now _ rfl, if_neg hm0, if_pos hy]
  · intro h
    have hy : ¬ (dateDiff birthday now).year = 0 := by omega
    have hm0 : ¬ ((dateDiff birthday now).month = 0 ∧ (dateDiff birthday now).year = 0) := by
      omega
    rw [ageText_of birthday now _ rfl, if_neg hm0, if_neg hy]
  · intro h
    have hd : dateDiff birthday now = DateDiff.mk 1 0 0 0 0 0 := by
      rw [dateDiff_eq birthday now hn, h, dateDiffSameLocation_next_year]
    rw [ageText_of birthday now _ hd]
    decide

/-- Witness of C15: a birthday on 10 May 2023 rendered on 10 May 2024. -/
theorem C15_age_text_witness :
    ageText ⟨2023, 5, 10, 9, 0, 0, 0⟩ ⟨2024, 5, 10, 9, 0, 0, 0⟩ = "1" :=
  (C15_age_text ⟨2023, 5, 10, 9, 0, 0, 0⟩ ⟨2024, 5, 10, 9, 0, 0, 0⟩ (by decide) (by decide)).2.2.2
    (by decide)

/-- **C16, counterexample.** A birthday on 1 April 2024 is exactly 30 days
before a render time of 1 May 2024 at the same clock, and the age text is
"1 mos.", not "30 days". -/
theorem C16_thirty_days_counterexample :
    Time.Valid ⟨2024, 4, 1, 0, 0, 0, 0⟩ ∧ Time.Valid ⟨2024, 5, 1, 0, 0, 0, 0⟩
    ∧ Time.addDays 30 ⟨2024, 4, 1, 0, 0, 0, 0⟩ = ⟨2024, 5, 1, 0, 0, 0, 0⟩
    ∧ ageText ⟨2024, 4, 1, 0, 0, 0, 0⟩ ⟨2024, 5, 1, 0, 0, 0, 0⟩ = "1 mos."
    ∧ ageText ⟨2024, 4, 1, 0, 0, 0, 0⟩ ⟨2024, 5, 1, 0, 0, 0, 0⟩ ≠ "30 days" := by
  set_option maxRecDepth 4000 in
  decide

/-- **C16, amended.** For a valid birthday and a render time that, read in the
location of the birthday, is exactly 30 days after it: the age text is
"30 days" when the month of the birthday has 31 days and, for a January
birthday, the day is at most one more than the length of that February; and the
age text is "1 mos." when the month of the birthday has at most 30 days. -/
theorem C16_thirty_days (birthday now : Time) (hb : birthday.Valid) (hn : now.Valid)
    (h30 : now.In birthday.zone = Time.addDays 30 birthday) :
    (daysInMonth birthday.year birthday.month = 31 →
      (birthday.month = 1 → birthday.day ≤ daysInMonth birthday.year 2 + 1) →
        ageText birthday now = "30 days")
    ∧ (daysInMonth birthday.year birthday.month ≤ 30 → ageText birthday now = "1 mos.") := by
  have hd : dateDiff birthday now = dateDiffSameLocation birthday (Time.addDays 30 birthday) := by
    rw [dateDiff_eq birthday now hn, h30]
  obtain ⟨h1, h2, h3, h4, -, -, -⟩ := id hb
  constructor
  · intro h31 hJan
    by_cases hday : birthday.day = 1
    · have e : dateDiff birthday now = DateDiff.mk 0 0 30 0 0 0 := by
        rw [hd, Time.addDays_within 30 birthday (by omega),
          dateDiffSameLocation_same_month birthday 30]
        rfl
      rw [ageText_of birthday now _ e]
      decide
    · have hm : birthday.month = 1 ∨ birthday.month = 3 ∨ birthday.month = 5
          ∨ birthday.month = 7 ∨ birthday.month = 8 ∨ birthday.month = 10
          ∨ birthday.month = 12 := by
        unfold daysInMonth at h31
        split_ifs at h31 <;> omega
      have hnext1 : birthday.day - 1
          ≤ daysInMonth birthday.firstOfNextMonth.year birthday.firstOfNextMonth.month := by
        unfold Time.firstOfNextMonth
        rcases hm with hm | hm | hm | hm | hm | hm | hm
        · have := hJan hm
          rw [hm]
          simp only [Nat.one_lt_ofNat, if_true, Nat.reduceAdd]
          omega
        all_goals
          rw [hm]
          simp [daysInMonth]
          omega
      have hnext : birthday.day + 30 - daysInMonth birthday.year birthday.month
          ≤ daysInMonth birthday.firstOfNextMonth.year birthday.firstOfNextMonth.month := by
        omega
      have e : dateDiff birthday now = DateDiff.mk 0 0 30 0 0 0 := by
        rw [hd, Time.addDays_thirty_roll birthday hb (by omega) hnext,
          dateDiffSameLocation_next_month birthday hb, if_pos (by omega)]
        congr 1
        omega
      rw [ageText_of birthday now _ e]
      decide
  · intro h30d
    have hm : birthday.month = 2 ∨ birthday.month = 4 ∨ birthday.month = 6
        ∨ birthday.month = 9 ∨ birthday.month = 11 := by
      unfold daysInMonth at h30d
      split_ifs at h30d <;> omega
    have hnext1 : daysInMonth birthday.firstOfNextMonth.year birthday.firstOfNextMonth.month
        = 31 := by
      unfold Time.firstOfNextMonth
      rcases hm with hm | hm | hm | hm | hm <;> rw [hm] <;> simp [daysInMonth]
    have hnext : birthday.day + 30 - daysInMonth birthday.year birthday.month
        ≤ daysInMonth birthday.firstOfNextMonth.year birthday.firstOfNextMonth.month := by
      omega
    have e : dateDiff birthday now = DateDiff.mk 0 1
        ((birthday.day + 30 - daysInMonth birthday.year birthday.month : Nat) - birthday.day)
        0 0 0 := by
      rw [hd, Time.addDays_thirty_roll birthday hb (by omega) hnext,
        dateDiffSameLocation_next_month birthday hb, if_neg (by omega)]
    rw [ageText_of birthday now _ e]
    simp only [one_ne_zero, false_and, if_false, if_true]
    decide

/-- Witness of C16: a birthday on 15 March 2024, rendered on 14 April 2024. -/
theorem C16_thirty_days_witness :
    ageText ⟨2024, 3, 15, 8, 0, 0, 0⟩ ⟨2024, 4, 14, 8, 0, 0, 0⟩ = "30 days" :=
  (C16_thirty_days ⟨2024, 3, 15, 8, 0, 0, 0⟩ ⟨2024, 4, 14, 8, 0, 0, 0⟩ (by decide) (by decide)
    (by set_option maxRecDepth 4000 in decide)).1 (by decide) (by decide)

/-- On locations at fixed offsets `dateDiffIn` is `dateDiff`, which reads the
location of a value off its offset. -/
theorem dateDiffIn_fixed (a b : Time) :
    dateDiffIn (.fixed a.zone) (.fixed b.zone) a b = dateDiff a b := by
  unfold dateDiffIn dateDiff dateDiffSameLocation Time.AfterInstant
  by_cases hz : a.zone = b.zone
  · simp [hz]
  · have hne : Location.fixed a.zone ≠ Location.fixed b.zone := by
      intro h
      exact hz (Location.fixed.inj h)
    have hzone : (b.In a.zone).zone = a.zone := rfl
    simp [hz, hne, Location.offsetAt, hzone]

/-- Two values at the same offset: `dateDiffIn` compares dates and clocks. -/
theorem dateDiffIn_same_offset (la lb : Location) (a b : Time) (hb : b.Valid)
    (hwb : b.zone = lb.offsetAt b) (hsame : la.offsetAt b = a.zone) :
    dateDiffIn la lb a b = dateDiffSameLocation a (b.In a.zone) := by
  unfold dateDiffIn dateDiffSameLocation Time.AfterInstant
  have hzone : (b.In a.zone).zone = a.zone := rfl
  by_cases hl : la = lb
  · subst hl
    have hz : a.zone = b.zone := by rw [hwb, hsame]
    have hin : b.In b.zone = b := Time.In_self b hb
    simp [hz, hin]
  · simp [hl, hsame, hzone]

/-- **C17, counterexample.** Across two locations the order of the arguments
matters: from 28 February 2023 23:30 at UTC to 31 March 2023 00:45 one hour
east, `dateDiff` gives one month and two days, and with the arguments swapped
it gives thirty days. And in one location that changes its offset the result is
not normalized: in New York, from 5 November 2023 01:30 (four hours west of
UTC) to 01:10 of the same day (five hours west, forty minutes later), the first
value is not after the second, the clocks differ by minus twenty minutes, and
the borrows end in a year of -1. -/
theorem C17_order_counterexample :
    (Time.Valid ⟨2023, 2, 28, 23, 30, 0, 0⟩ ∧ Time.Valid ⟨2023, 3, 31, 0, 45, 0, 3600⟩
      ∧ dateDiffIn (.fixed 0) (.fixed 3600) ⟨2023, 2, 28, 23, 30, 0, 0⟩
          ⟨2023, 3, 31, 0, 45, 0, 3600⟩ = ⟨0, 1, 2, 0, 15, 0⟩
      ∧ dateDiffIn (.fixed 3600) (.fixed 0) ⟨2023, 3, 31, 0, 45, 0, 3600⟩
          ⟨2023, 2, 28, 23, 30, 0, 0⟩ = ⟨0, 0, 30, 0, 15, 0⟩)
    ∧ (Time.Valid ⟨2023, 11, 5, 1, 30, 0, -14400⟩ ∧ Time.Valid ⟨2023, 11, 5, 1, 10, 0, -18000⟩
      ∧ newYork.offsetAt ⟨2023, 11, 5, 1, 30, 0, -14400⟩ = -14400
      ∧ newYork.offsetAt ⟨2023, 11, 5, 1, 10, 0, -18000⟩ = -18000
      ∧ Time.AfterInstant ⟨2023, 11, 5, 1, 30, 0, -14400⟩ ⟨2023, 11, 5, 1, 10, 0, -18000⟩
          = false
      ∧ dateDiffIn newYork newYork ⟨2023, 11, 5, 1, 30, 0, -14400⟩
          ⟨2023, 11, 5, 1, 10, 0, -18000⟩ = ⟨-1, 11, 29, 23, 40, 0⟩) := by
  decide

/-- **C17, amended.** For every pair of valid values, in either order, given
with their locations (each value read at the offset that its location has at
its instant), such that the location of the first has at the instant of the
second the offset from UTC at which the first value is read (as UTC and every
location at a fixed offset have): `dateDiffIn` returns components with
year at least 0, month from 0 to 11, day from 0 to 30, hour from 0 to 23, minute
and second from 0 to 59; and when the two values are in the same location the
result does not depend on the order of the two arguments. -/
theorem C17_dateDiff_normalized (la lb : Location) (a b : Time) (ha : a.Valid) (hb : b.Valid)
    (hwa : a.zone = la.offsetAt a) (hwb : b.zone = lb.offsetAt b)
    (hsame : la.offsetAt b = a.zone) :
    (0 ≤ (dateDiffIn la lb a b).year
      ∧ 0 ≤ (dateDiffIn la lb a b).month ∧ (dateDiffIn la lb a b).month ≤ 11
      ∧ 0 ≤ (dateDiffIn la lb a b).day ∧ (dateDiffIn la lb a b).day ≤ 30
      ∧ 0 ≤ (dateDiffIn la lb a b).hour ∧ (dateDiffIn la lb a b).hour ≤ 23
      ∧ 0 ≤ (dateDiffIn la lb a b).min ∧ (dateDiffIn la lb a b).min ≤ 59
      ∧ 0 ≤ (dateDiffIn la lb a b).sec ∧ (dateDiffIn la lb a b).sec ≤ 59)
    ∧ (la = lb → dateDiffIn la lb a b = dateDiffIn lb la b a) := by
  have hab := dateDiffIn_same_offset la lb a b hb hwb hsame
  constructor
  · rw [hab, ← dateDiff_eq a b hb]
    exact dateDiff_bounds a b ha hb
  · intro hl
    subst hl
    have hz : a.zone = b.zone := by rw [hwb, hsame]
    have hba := dateDiffIn_same_offset la la b a ha hwa (by rw [← hwa, hz])
    rw [hab, hba, ← hz, Time.In_self a ha, hz, Time.In_self b hb]
    exact dateDiffSameLocation_comm a b hz

/-- Witness of C17: a birthday on 29 February 2020 against 28 February 2023, a
date of a year without a 29 February, both at UTC; and two values in New York on
the same side of the change of 5 November 2023. -/
theorem C17_dateDiff_normalized_witness :
    (dateDiffIn (.fixed 0) (.fixed 0) ⟨2020, 2, 29, 0, 0, 0, 0⟩ ⟨2023, 2, 28, 12, 0, 0, 0⟩
        = dateDiffIn (.fixed 0) (.fixed 0) ⟨2023, 2, 28, 12, 0, 0, 0⟩ ⟨2020, 2, 29, 0, 0, 0, 0⟩
      ∧ dateDiffIn (.fixed 0) (.fixed 0) ⟨2020, 2, 29, 0, 0, 0, 0⟩ ⟨2023, 2, 28, 12, 0, 0, 0⟩
        = ⟨2, 11, 28, 12, 0, 0⟩)
    ∧ 0 ≤ (dateDiffIn newYork newYork ⟨2023, 11, 6, 9, 0, 0, -18000⟩
        ⟨2023, 11, 5, 1, 10, 0, -18000⟩).year
    ∧ dateDiffIn newYork newYork ⟨2023, 11, 6, 9, 0, 0, -18000⟩ ⟨2023, 11, 5, 1, 10, 0, -18000⟩
        = ⟨0, 0, 1, 7, 50, 0⟩ :=
  ⟨⟨(C17_dateDiff_normalized (.fixed 0) (.fixed 0) ⟨2020, 2, 29, 0, 0, 0, 0⟩
      ⟨2023, 2, 28, 12, 0, 0, 0⟩ (by decide) (by decide) rfl rfl rfl).2 rfl, by decide⟩,
   (C17_dateDiff_normalized newYork newYork ⟨2023, 11, 6, 9, 0, 0, -18000⟩
      ⟨2023, 11, 5, 1, 10, 0, -18000⟩ (by decide) (by decide) (by decide) (by decide)
      (by decide)).1.1,
   by decide⟩

/-! ## Theorems: children section -/

/-- The receiver after the filter is the receiver after the resolver call on
the head. -/
theorem childrenFilter_dir (env : Env) (dir : PdfDir) (h : Household) (o : Section)
    (head : Person) (hh : h.Head = some head) :
    (childrenFilter env dir h o).2 = (getSectionOverride env dir head o).2 := by
  unfold childrenFilter
  rw [hh]
  simp only
  split_ifs <;> rfl

/-- The filter lets a household through exactly when it has a child and its
head, if any, resolves `ShowHousehold` and `ShowChildren` and is not excluded. -/
theorem childrenFilter_iff (env : Env) (dir : PdfDir) (h : Household) (o : Section) :
    (childrenFilter env dir h o).1 = true ↔
      (1 ≤ h.Children.length ∧ ∀ head, h.Head = some head →
        (getSectionOverride env dir head o).1.ShowHousehold = true
        ∧ (getSectionOverride env dir head o).1.ShowChildren = true
        ∧ isExcluded head o.ExcludeDirSections = false) := by
  unfold childrenFilter
  cases hh : h.Head with
  | none =>
    simp only
    split_ifs with hc
    · simp only [Bool.false_eq_true, false_iff, not_and]
      intro h1
      omega
    · simp only [true_iff]
      exact ⟨by omega, fun head hd => by cases hd⟩
  | some head =>
    simp only [Option.some.injEq, forall_eq']
    split_ifs with h1 h2 h3
    · simp only [Bool.false_eq_true, false_iff]
      intro ⟨_, hs, hc, _⟩
      simp [hs, hc] at h1
    · simp only [Bool.false_eq_true, false_iff]
      intro ⟨_, _, _, he⟩
      simp [he] at h2
    · simp only [Bool.false_eq_true, false_iff]
      intro ⟨hl, _⟩
      omega
    · simp only [true_iff]
      simp only [Bool.or_eq_true, Bool.not_eq_true', not_or, Bool.not_eq_false] at h1
      exact ⟨by omega, h1.1, h1.2, by simpa using h2⟩

/-- A household is written exactly when the filter lets it through. -/
theorem writeChildrenHousehold_isSome (env : Env) (dir : PdfDir) (h : Household)
    (o : Section) :
    (writeChildrenHousehold env dir h o).1.isSome = (childrenFilter env dir h o).1 := by
  unfold writeChildrenHousehold
  split <;> rename_i heq <;> rw [heq] <;> rfl

/-- The label of a written household is the translated parent label, computed
on the receiver that the filter leaves. -/
theorem writeChildrenHousehold_label (env : Env) (dir : PdfDir) (h : Household)
    (o : Section) (b : ChildrenBlock) (hb : (writeChildrenHousehold env dir h o).1 = some b) :
    b.label = env.translate (parentLabel env (childrenFilter env dir h o).2 h o).1
    ∧ b.lines = (childOrder h.Children).map (childLine env o) := by
  unfold writeChildrenHousehold at hb
  split at hb <;> rename_i heq
  · cases hb
  · simp only [Option.some.injEq] at hb
    rw [heq, ← hb]
    exact ⟨rfl, rfl⟩

/-- A string with a character is not the empty string. -/
theorem ne_empty_of_length_pos (s : String) (h : 0 < s.length) : s ≠ "" := by
  intro e
  rw [e] at h
  exact absurd h (by decide)

/-- With a visible head, the loop over the members builds the label as the
specification words it, from any non-empty start. -/
theorem foldl_labelStep (h : Household) (o : Section) (head : Person)
    (hh : h.Head = some head) (hs : o.Show = true) (members : List Person) (str : String)
    (hstr : 0 < str.length) :
    members.foldl (labelStep h o) str
      = members.foldl
          (fun s m =>
            if m.LastName = head.LastName then s ++ " and " ++ m.FirstName
            else s ++ " and " ++ m.FirstName ++ " " ++ m.LastName) str := by
  induction members generalizing str with
  | nil => rfl
  | cons m rest ih =>
    simp only [List.foldl_cons]
    have hstep : labelStep h o str m
        = if m.LastName = head.LastName then str ++ " and " ++ m.FirstName
          else str ++ " and " ++ m.FirstName ++ " " ++ m.LastName := by
      unfold labelStep
      rw [hh]
      simp only [hs, Bool.and_true, decide_eq_true_eq, ne_eq]
      by_cases hl : m.LastName = head.LastName
      · simp only [hl, not_true_eq_false, if_false, if_true]
        rw [if_pos (ne_empty_of_length_pos str hstr)]
      · simp only [hl, not_false_eq_true, if_true, if_false]
    rw [hstep]
    apply ih
    split <;> simp only [String.length_append] <;> omega

/-- **C12.** The loop over the children visits the keys
birthday(YYYY-MM-DD)+firstname in ascending order, oldest child first: in the
scenario of the specification the one block of the children section, for the
Doe household, lists Amy (born 2022) before Ben (born 2023). -/
theorem C12_children_ascending :
    (∀ children : List (String × Person),
      childOrder children = (sortStrings (childKeys children)).map (childOfKey children)
      ∧ (sortStrings (childKeys children)).Pairwise (fun a b => a.data ≤ b.data))
    ∧ childOrder householdB.Children = [amyDoe, benDoe]
    ∧ (writeChildren (envWith .noBytes) dirA scenarioEntries scenarioSection).1
        = [{ label := "Doe, Jan",
             lines := [["Amy", "Feb 01, 2022"], ["Ben", "Dec 01, 2023"]] }]
    ∧ (writeChildren (envWith .noBytes) dirA scenarioEntries showAll).1
        = [{ label := "Doe, Jan",
             lines := [["Amy", "2", "Feb 01, 2022"], ["Ben", "3 mos.", "Dec 01, 2023"]] }] := by
  exact ⟨fun children => ⟨rfl, (sortStrings_spec (childKeys children)).2⟩, by decide, by decide,
    by decide⟩

/-- One pass of the household loop of `writeChildren` writes a block
for the household if and only if the household has at least one child and, when
it has a head, the head's effective `ShowHousehold` and `ShowChildren` are both
true and the head's `DirectorySections` does not meet `ExcludeDirSections`; a
household without a head needs only the child. -/
theorem childrenFilter_block (env : Env) (dir : PdfDir) (h : Household)
    (displayOptions : Section) :
    ((writeChildrenHousehold env dir h displayOptions).1.isSome = true ↔
      (1 ≤ h.Children.length ∧ ∀ head, h.Head = some head →
        (getSectionOverride env dir head displayOptions).1.ShowHousehold = true
        ∧ (getSectionOverride env dir head displayOptions).1.ShowChildren = true
        ∧ isExcluded head displayOptions.ExcludeDirSections = false))
    ∧ (h.Head = none →
        ((writeChildrenHousehold env dir h displayOptions).1.isSome = true
          ↔ 1 ≤ h.Children.length)) := by
  have key := childrenFilter_iff env dir h displayOptions
  rw [writeChildrenHousehold_isSome]
  refine ⟨key, fun hn => ?_⟩
  rw [key]
  constructor
  · exact fun hc => hc.1
  · intro hc
    refine ⟨hc, fun head hd => ?_⟩
    rw [hn] at hd
    cases hd

/-- Household B of the scenario has no head and two children, and a block is
written for it. -/
theorem childrenFilter_block_example :
    householdB.Head = none
    ∧ (writeChildrenHousehold (envWith .noBytes) dirA householdB showAll).1.isSome = true :=
  ⟨rfl, ((childrenFilter_block (envWith .noBytes) dirA householdB showAll).2 rfl).2 (by decide)⟩

/-- **C13**, the code at the failing input: two households without a head, with
the same SortKey and one child each. Both meet the condition of the claim and
one pass of the household loop writes a block for each of them; `writeChildren`
over the map of the two writes no block for `twinKidsA` and the block of
`twinKidsB` twice (and, with the map iterated the other way round, the block of
`twinKidsA` twice and none for `twinKidsB`). -/
theorem C13_duplicate_sortkey_blocks :
    twinKidsA.SortKey = twinKidsB.SortKey
    ∧ twinKidsA.Head = none ∧ twinKidsB.Head = none
    ∧ 1 ≤ twinKidsA.Children.length ∧ 1 ≤ twinKidsB.Children.length
    ∧ (writeChildrenHousehold (envWith .noBytes) dirA twinKidsA showAll).1
        = some { label := "Smith, John1", lines := [["Kim", "3", "Jun 15, 2020"]] }
    ∧ (writeChildrenHousehold (envWith .noBytes) dirA twinKidsB showAll).1
        = some { label := "Smith, John", lines := [["Amy", "2", "Feb 01, 2022"]] }
    ∧ (writeChildren (envWith .noBytes) dirA [("A", twinKidsA), ("B", twinKidsB)] showAll).1
        = [{ label := "Smith, John", lines := [["Amy", "2", "Feb 01, 2022"]] },
           { label := "Smith, John", lines := [["Amy", "2", "Feb 01, 2022"]] }]
    ∧ (writeChildren (envWith .noBytes) dirA [("B", twinKidsB), ("A", twinKidsA)] showAll).1
        = [{ label := "Smith, John1", lines := [["Kim", "3", "Jun 15, 2020"]] },
           { label := "Smith, John1", lines := [["Kim", "3", "Jun 15, 2020"]] }] := by
  refine ⟨by decide, by decide, by decide, by decide, by decide, ?_, ?_, ?_, ?_⟩ <;>
    with_unfolding_all decide

/-- **C14, counterexample.** Household C has head John Smith, whose override
record hides him and keeps `ShowHousehold` and `ShowChildren`; the household
passes the filter of the children section, and its label starts with the first
member, "Smith, Jane and Jan", where the specification words
"Smith, John and Jane and Jan Doe". -/
theorem C14_parent_label_counterexample :
    (childrenFilter (envWith (.parsed (some johnHiddenTable))) dirA householdC showAll).1 = true
    ∧ (writeChildrenHousehold (envWith (.parsed (some johnHiddenTable))) dirA householdC
        showAll).1.map (fun b => b.label) = some "Smith, Jane and Jan"
    ∧ specLabel johnSmith householdC.Members = "Smith, John and Jane and Jan Doe" := by
  decide

/-- **C14, amended.** For every household with a head that passes the filter of
the children section and whose head resolves `Show` at the resolver call of the
label, the label drawn is the translation of the head's "Last, First" followed,
for each member in list order, by " and First" when the member's last name is
the head's and by " and First Last" when it differs. -/
theorem C14_parent_label (env : Env) (dir : PdfDir) (h : Household) (displayOptions : Section)
    (head : Person) (b : ChildrenBlock) (hh : h.Head = some head)
    (hb : (writeChildrenHousehold env dir h displayOptions).1 = some b)
    (hshow : (getSectionOverride env (getSectionOverride env dir head displayOptions).2 head
      displayOptions).1.Show = true) :
    b.label = env.translate (specLabel head h.Members) := by
  rw [(writeChildrenHousehold_label env dir h displayOptions b hb).1,
    childrenFilter_dir env dir h displayOptions head hh]
  congr 1
  unfold parentLabel specLabel
  rw [hh]
  simp only [hshow, if_true]
  apply foldl_labelStep h _ head hh hshow
  simp only [String.length_append]
  have : ", ".length = 2 := rfl
  omega

/-- Witness of C14: household C without overrides is labelled
"Smith, John and Jane and Jan Doe". -/
theorem C14_parent_label_witness :
    ∃ b, (writeChildrenHousehold (envWith .noBytes) dirA householdC showAll).1 = some b
      ∧ b.label = "Smith, John and Jane and Jan Doe" := by
  have hs : (writeChildrenHousehold (envWith .noBytes) dirA householdC showAll).1.isSome
      = true := by decide
  obtain ⟨b, hb⟩ := Option.isSome_iff_exists.1 hs
  exact ⟨b, hb, (C14_parent_label (envWith .noBytes) dirA householdC showAll johnSmith b rfl hb
    (by decide)).trans (by decide)⟩

/-! ## Theorems: the cells of a household -/

/-- The name cells after one more drawing call. -/
theorem nameCells_cons (op : Op) (ops : List Op) :
    nameCells (op :: ops) = nameCells ops ++
      (match op with
       | .cell _ _ _ _ txt _ style _ => if style = "B" then [txt] else []
       | _ => []) := by
  unfold nameCells
  rw [List.reverse_cons, List.filterMap_append]
  congr 1
  cases op <;> simp [List.filterMap_cons]
  split <;> simp_all

/-- The call `CellFormat` keeps the font style and draws a name cell exactly
when the style is bold. -/
theorem CellFormat_names (f : Pdf) (w h : ℚ) (txt : String) (ln : Nat) (align : String) :
    (f.CellFormat w h txt ln align).fontStyle = f.fontStyle
    ∧ nameCells (f.CellFormat w h txt ln align).ops
        = nameCells f.ops ++ (if f.fontStyle = "B" then [txt] else []) := by
  unfold Pdf.CellFormat
  by_cases hb : f.autoPageBreak = true ∧ f.y + h > f.pageBreakTrigger <;>
    by_cases hl : 0 < ln <;>
    simp only [hb, hl, and_self, if_true, if_false, nameCells_cons, List.append_nil,
      true_and]

/-- The call `SetY` keeps the font style and the trace. -/
theorem SetY_names (f : Pdf) (y : ℚ) :
    (f.SetY y).fontStyle = f.fontStyle ∧ (f.SetY y).ops = f.ops := ⟨rfl, rfl⟩

/-- The call `SetX` keeps the font style and the trace. -/
theorem SetX_names (f : Pdf) (x : ℚ) :
    (f.SetX x).fontStyle = f.fontStyle ∧ (f.SetX x).ops = f.ops := ⟨rfl, rfl⟩

/-- The call `SetLeftMargin` keeps the font style and the trace. -/
theorem SetLeftMargin_names (f : Pdf) (m : ℚ) :
    (f.SetLeftMargin m).fontStyle = f.fontStyle ∧ (f.SetLeftMargin m).ops = f.ops := ⟨rfl, rfl⟩

/-- The call `SetAutoPageBreak` keeps the font style and the trace. -/
theorem SetAutoPageBreak_names (f : Pdf) (a : Bool) (m : ℚ) :
    (f.SetAutoPageBreak a m).fontStyle = f.fontStyle ∧ (f.SetAutoPageBreak a m).ops = f.ops :=
  ⟨rfl, rfl⟩

/-- The call `AddPage` keeps the font style and the name cells. -/
theorem AddPage_names (f : Pdf) :
    f.AddPage.fontStyle = f.fontStyle ∧ nameCells f.AddPage.ops = nameCells f.ops := by
  refine ⟨rfl, ?_⟩
  show nameCells (Op.addPage false :: f.ops) = _
  rw [nameCells_cons]
  simp

/-- The call `SetFont` sets the font style and keeps the trace. -/
theorem SetFont_names (f : Pdf) (family style : String) (size : ℚ) :
    (f.SetFont family style size).fontStyle = style ∧ (f.SetFont family style size).ops = f.ops :=
  ⟨rfl, rfl⟩

/-- The method `writeFooter` keeps a plain surface plain. -/
theorem Plain_writeFooter (env : Env) (dir : PdfDir) (o : Section) (n : List String)
    (h : Plain n dir.pdf) : Plain n (writeFooter env dir o) := by
  obtain ⟨h1, h2⟩ := h
  unfold writeFooter Plain
  by_cases hb : o.BaptismFootnote = true <;> by_cases hn : o.NewMemberFootnote = true <;>
    simp only [hb, hn, if_true, if_false, Bool.false_eq_true, SetY_names, SetX_names,
      SetLeftMargin_names, SetAutoPageBreak_names, CellFormat_names, h1, h2,
      String.reduceEq, List.append_nil, and_self]

/-- The breaks taken before a cell keep a plain surface plain. -/
theorem Plain_writeEntryBreaks (env : Env) (dir : PdfDir) (c : ℚ) (fp : Bool) (o : Section)
    (n : List String) (h : Plain n dir.pdf) : Plain n (writeEntryBreaks env dir c fp o).2.2 := by
  have hpage : ∀ f0 : Pdf, Plain n f0 →
      Plain n ((((writeFooter env
        { dir with pdf := (((f0.SetLeftMargin dir.leftMargin).SetX dir.leftMargin).SetY
            (dir.pdf.h - dir.pdf.bMargin)) } o).AddPage.SetY dir.pdf.tMargin).SetX
          dir.pdf.lMargin).SetLeftMargin dir.pdf.lMargin) := by
    intro f0 hf0
    obtain ⟨hf1, hf2⟩ := Plain_writeFooter env
      { dir with pdf := (((f0.SetLeftMargin dir.leftMargin).SetX dir.leftMargin).SetY
          (dir.pdf.h - dir.pdf.bMargin)) } o n hf0
    unfold Plain
    simp only [SetY_names, SetX_names, SetLeftMargin_names, AddPage_names]
    exact ⟨hf1, hf2⟩
  unfold writeEntryBreaks
  simp only [ge_iff_le, gt_iff_lt]
  by_cases hcb : dir.pdf.h - dir.pdf.bMargin
      - (if (o.BaptismFootnote || o.NewMemberFootnote) = true then dir.pdf.fontSize else 0)
      < dir.pdf.y + dir.columnHeight + dir.padding
  · simp only [hcb, decide_True, if_true]
    by_cases hpb : dir.colNum ≤ c + 1
    · simp only [hpb, if_true]
      exact hpage _ h
    · simp only [hpb, if_false]
      exact h
  · simp only [hcb, decide_False, if_false, Bool.false_eq_true]
    by_cases hpb : dir.colNum ≤ c
    · simp only [hpb, if_true]
      exact hpage _ h
    · simp only [hpb, if_false]
      exact h

/-- The highlight bands keep the font style and the name cells. -/
theorem writeEntryHighlights_names (dir : PdfDir) (f : Pdf) (hT hB : Bool) :
    (writeEntryHighlights dir f hT hB).fontStyle = f.fontStyle
    ∧ nameCells (writeEntryHighlights dir f hT hB).ops = nameCells f.ops := by
  unfold writeEntryHighlights
  cases hT <;> cases hB <;>
    simp only [if_true, if_false, Bool.false_eq_true, Pdf.SetFillColor, Pdf.SetDrawColor,
      Pdf.Rect, nameCells_cons, List.append_nil, and_self]

/-- The method `shrinkedCell` keeps the font style and draws a name cell exactly
when the style is bold. -/
theorem shrinkedCell_names (env : Env) (fuel : Nat) (f g : Pdf) (width height : ℚ)
    (str align : String) (h : shrinkedCell env fuel f width height str align = some g) :
    g.fontStyle = f.fontStyle
    ∧ nameCells g.ops = nameCells f.ops ++ (if f.fontStyle = "B" then [str] else []) := by
  unfold shrinkedCell at h
  simp only at h
  cases hl : shrinkLoop env width str fuel f with
  | none => rw [hl] at h; cases h
  | some f1 =>
    rw [hl] at h
    simp only [Option.some.injEq] at h
    obtain ⟨sz, hsz⟩ := shrinkLoop_frame env width str fuel f f1 hl
    obtain ⟨h1, h2⟩ := CellFormat_names f1 width height str 1 align
    subst h
    subst hsz
    exact ⟨h1, h2⟩

/-- A run of `shrinkedCell` calls keeps a plain surface plain. -/
theorem Plain_shrinkedCells (env : Env) (fuel : Nat) (width height : ℚ) (lines : List String)
    (n : List String) (f g : Pdf) (hp : Plain n f)
    (h : shrinkedCells env fuel width height lines f = some g) : Plain n g := by
  induction lines generalizing f with
  | nil =>
    unfold shrinkedCells at h
    simp only [Option.some.injEq] at h
    subst h
    exact hp
  | cons s rest ih =>
    unfold shrinkedCells at h
    cases hc : shrinkedCell env fuel f width height (env.translate s) "L" with
    | none => rw [hc] at h; cases h
    | some f1 =>
      rw [hc] at h
      simp only at h
      obtain ⟨h1, h2⟩ := shrinkedCell_names env fuel f f1 _ _ _ _ hc
      refine ih f1 ⟨h1.trans hp.1, ?_⟩ h
      rw [h2, hp.1, hp.2]
      simp

/-- Drawing the cell of a person on a plain surface adds the name cell of the
person, and leaves the surface plain. -/
theorem Plain_writeEntryCell (env : Env) (fuel : Nat) (dir : PdfDir) (f g : Pdf) (p : Person)
    (c : ℚ) (hT hB : Bool) (o : Section) (n : List String) (hp : Plain n f)
    (h : writeEntryCell env fuel dir f p c hT hB o = some g) :
    Plain (n ++ [env.translate (entryName env p o)]) g := by
  unfold writeEntryCell at h
  simp only at h
  obtain ⟨hs, hn⟩ := writeEntryHighlights_names dir
    (((f.SetY (f.y + dir.padding / 2)).SetLeftMargin
      (dir.leftMargin + c * (dir.colWd + dir.gutter))).SetX
      (dir.leftMargin + c * (dir.colWd + dir.gutter))) hT hB
  generalize writeEntryHighlights dir
    (((f.SetY (f.y + dir.padding / 2)).SetLeftMargin
      (dir.leftMargin + c * (dir.colWd + dir.gutter))).SetX
      (dir.leftMargin + c * (dir.colWd + dir.gutter))) hT hB = f3 at h hs hn
  have hn3 : nameCells f3.ops = n := hn.trans hp.2
  split at h
  · cases h
  · next f5 hc =>
    split at h
    · cases h
    · next f7 hcs =>
      simp only [Option.some.injEq] at h
      subst h
      obtain ⟨h1, h2⟩ := shrinkedCell_names _ _ _ _ _ _ _ _ hc
      have hp5 : Plain (n ++ [env.translate (entryName env p o)])
          (f5.SetFont dir.fontFamily "" dir.fontSize) := by
        refine ⟨rfl, ?_⟩
        show nameCells f5.ops = _
        rw [h2]
        by_cases ht : p.Thumbnail = true
        · simp only [ht, if_true, Pdf.SetFont, Pdf.SetLeftMargin, Pdf.Image, nameCells_cons,
            List.append_nil, hn3]
        · simp only [ht, if_false, Pdf.SetFont, Pdf.SetLeftMargin, hn3, Bool.false_eq_true,
            if_true]
      have h7 := Plain_shrinkedCells _ _ _ _ _ _ _ f7 hp5 hcs
      exact ⟨h7.1, h7.2⟩

/-- The lazy load reads the receiver through the override table and the count
of store reads only. -/
theorem loadOverrides_congr (env : Env) (d1 d2 : PdfDir) (h : SameResolver d1 d2) :
    (loadOverrides env d1).1 = (loadOverrides env d2).1
    ∧ SameResolver (loadOverrides env d1).2 (loadOverrides env d2).2 := by
  obtain ⟨h1, h2⟩ := h
  unfold loadOverrides
  rw [h1, h2]
  cases d2.overrides with
  | some t => exact ⟨rfl, h1 ▸ rfl, h2⟩
  | none =>
    simp only
    cases env.store d2.storeReads <;> simp only [SameResolver, h2, and_self]

/-- The resolver reads the receiver through the override table and the count of
store reads only. -/
theorem getSectionOverride_congr (env : Env) (d1 d2 : PdfDir) (p : Person) (o : Section)
    (h : SameResolver d1 d2) :
    (getSectionOverride env d1 p o).1 = (getSectionOverride env d2 p o).1
    ∧ SameResolver (getSectionOverride env d1 p o).2 (getSectionOverride env d2 p o).2 := by
  obtain ⟨hl1, hl2⟩ := loadOverrides_congr env d1 d2 h
  unfold getSectionOverride
  simp only
  by_cases he : isExcluded p o.ExcludeDirSections = true
  · simp only [he, if_true, true_and]
    exact h
  · simp only [he, if_false, Bool.false_eq_true]
    rcases e1 : loadOverrides env d1 with ⟨b1, x1⟩
    rcases e2 : loadOverrides env d2 with ⟨b2, x2⟩
    rw [e1, e2] at hl1 hl2
    simp only at hl1 hl2
    subst hl1
    cases b1
    · exact ⟨rfl, hl2⟩
    · simp only
      rw [hl2.1]
      split <;> exact ⟨rfl, hl2⟩

/-- The name line reads the two footnote flags of the options only. -/
theorem entryName_congr (env : Env) (p : Person) (o1 o : Section)
    (h1 : o1.BaptismFootnote = o.BaptismFootnote)
    (h2 : o1.NewMemberFootnote = o.NewMemberFootnote) : entryName env p o1 = entryName env p o := by
  unfold entryName
  rw [h1, h2]

/-- For an excluded person the resolver answers `Show = false` and leaves the
receiver as it is. -/
theorem getSectionOverride_excluded (env : Env) (dir : PdfDir) (p : Person) (o : Section)
    (he : isExcluded p o.ExcludeDirSections = true) :
    (getSectionOverride env dir p o).1.Show = false ∧ (getSectionOverride env dir p o).2 = dir := by
  unfold getSectionOverride
  simp only [he, if_true, and_self]

/-- One call of `writeEntry` on a plain surface: the name cell of the person is
added exactly when the effective `Show` is true, the surface stays plain, and
the resolver moves as in a bare resolver call. -/
theorem writeEntry_names (env : Env) (fuel : Nat) (dir dS : PdfDir) (p : Person) (c : ℚ)
    (hT hB fp : Bool) (o : Section) (n : List String) (r : ℚ × Bool × PdfDir)
    (hsame : SameResolver dir dS) (hp : Plain n dir.pdf)
    (hw : writeEntry env fuel dir p c hT hB fp o = some r) :
    Plain (n ++ (if (getSectionOverride env dS p o).1.Show then [cellName env o p] else []))
        r.2.2.pdf
    ∧ SameResolver r.2.2 (getSectionOverride env dS p o).2 := by
  obtain ⟨hc1, hc2⟩ := getSectionOverride_congr env dir dS p o hsame
  obtain ⟨ov, sr, w, hd⟩ := getSectionOverride_dir env dir p o
  rw [← hc1]
  by_cases hshow : (getSectionOverride env dir p o).1.Show = true
  · obtain ⟨-, -, g, gc, hcell, hr⟩ := writeEntry_visible env fuel dir p c hT hB fp o r hshow hw
    have hp1 : Plain n (getSectionOverride env dir p o).2.pdf := by
      rw [hd]
      exact hp
    have hb := Plain_writeEntryBreaks env (getSectionOverride env dir p o).2 c fp
      (getSectionOverride env dir p o).1 n hp1
    have hg := Plain_writeEntryCell env fuel _ _ g p _ hT hB _ n hb hcell
    obtain ⟨hf1, hf2⟩ := getSectionOverride_footnotes env dir p o
    rw [entryName_congr env p _ o hf1 hf2] at hg
    rw [hr]
    simp only [hshow, if_true]
    exact ⟨hg, hc2⟩
  · have hfalse : (getSectionOverride env dir p o).1.Show = false := by simpa using hshow
    rw [writeEntry_hidden env fuel dir p c hT hB fp o hfalse] at hw
    simp only [Option.some.injEq] at hw
    subst hw
    simp only [hfalse, Bool.false_eq_true, if_false, List.append_nil]
    refine ⟨?_, hc2⟩
    rw [hd]
    exact hp

/-- Registering a thumbnail changes the registered images of the surface and
nothing else. -/
theorem registerThumbnail_frame (env : Env) (dir d1 : PdfDir) (p : Person)
    (h : registerThumbnail env dir p = some d1) :
    ∃ imgs, d1 = { dir with pdf := { dir.pdf with images := imgs } } := by
  unfold registerThumbnail at h
  split at h
  · split at h
    · simp only [Option.some.injEq] at h
      exact ⟨_, h.symm⟩
    · cases h
  · simp only [Option.some.injEq] at h
    exact ⟨dir.pdf.images, h.symm⟩

/-- One pass of `memberLoop` on a plain surface. -/
theorem writeMember_names (env : Env) (fuel : Nat) (o : Section) (st st1 : ℚ × Bool × PdfDir)
    (m : Person) (dS : PdfDir) (n : List String)
    (hsame : SameResolver st.2.2 dS) (hp : Plain n st.2.2.pdf)
    (h : writeMember env fuel o st m = some st1) :
    Plain (n ++ (if (getSectionOverride env dS m o).1.Show then [cellName env o m] else []))
        st1.2.2.pdf
    ∧ SameResolver st1.2.2 (getSectionOverride env dS m o).2 := by
  unfold writeMember at h
  split at h
  · cases h
  · next d hreg =>
    obtain ⟨imgs, hd⟩ := registerThumbnail_frame env _ d m hreg
    have hsame1 : SameResolver d dS := by rw [hd]; exact hsame
    have hp1 : Plain n d.pdf := by rw [hd]; exact hp
    split at h
    · next he =>
      simp only [Option.some.injEq] at h
      subst h
      obtain ⟨hs, hdir⟩ := getSectionOverride_excluded env dS m o he
      rw [hs, hdir]
      simp only [Bool.false_eq_true, if_false, List.append_nil]
      exact ⟨hp1, hsame1⟩
    · exact writeEntry_names env fuel d dS m _ _ _ _ o n st1 hsame1 hp1 h

/-- The loop `memberLoop` on a plain surface draws the name cells of the
members whose effective `Show` is true, in list order. -/
theorem writeMembers_names (env : Env) (fuel : Nat) (o : Section) (ms : List Person)
    (st st1 : ℚ × Bool × PdfDir) (dS : PdfDir) (n : List String)
    (hsame : SameResolver st.2.2 dS) (hp : Plain n st.2.2.pdf)
    (h : writeMembers env fuel o ms st = some st1) :
    Plain (n ++ (keepShown env o ms dS).1.map (cellName env o)) st1.2.2.pdf
    ∧ SameResolver st1.2.2 (keepShown env o ms dS).2 := by
  induction ms generalizing st dS n with
  | nil =>
    unfold writeMembers at h
    simp only [Option.some.injEq] at h
    subst h
    simp only [keepShown, List.map_nil, List.append_nil]
    exact ⟨hp, hsame⟩
  | cons m rest ih =>
    unfold writeMembers at h
    split at h
    · cases h
    · next st2 hm =>
      obtain ⟨hp2, hs2⟩ := writeMember_names env fuel o st st2 m dS n hsame hp hm
      obtain ⟨hp3, hs3⟩ := ih st2 _ _ hs2 hp2 h
      simp only [keepShown]
      refine ⟨?_, hs3⟩
      by_cases hshow : (getSectionOverride env dS m o).1.Show = true
      · simp only [hshow, if_true, List.map_cons] at hp3 ⊢
        rw [List.append_assoc] at hp3
        exact hp3
      · simp only [hshow, if_false, List.append_nil, Bool.false_eq_true] at hp3 ⊢
        exact hp3

/-- One pass of `householdLoop` on a plain surface draws the cells of the
household as the specification words them. -/
theorem writeHousehold_names (env : Env) (fuel : Nat) (o : Section) (hh : Household)
    (st st1 : ℚ × Bool × PdfDir) (dS : PdfDir) (n : List String)
    (hsame : SameResolver st.2.2 dS) (hp : Plain n st.2.2.pdf)
    (h : writeHousehold env fuel o st hh = some st1) :
    Plain (n ++ (householdCells env o hh dS).1.map (cellName env o)) st1.2.2.pdf
    ∧ SameResolver st1.2.2 (householdCells env o hh dS).2 := by
  unfold writeHousehold at h
  unfold householdCells
  cases hhead : hh.Head with
  | none =>
    rw [hhead] at h
    exact writeMembers_names env fuel o hh.Members st st1 dS n hsame hp h
  | some head =>
    rw [hhead] at h
    simp only at h ⊢
    obtain ⟨hc1, hc2⟩ := getSectionOverride_congr env st.2.2 dS head o hsame
    obtain ⟨ov, sr, w, hd⟩ := getSectionOverride_dir env st.2.2 head o
    rcases hg : getSectionOverride env st.2.2 head o with ⟨o1, d1⟩
    rw [hg] at h hc1 hc2 hd
    simp only at h hc1 hc2 hd
    rw [← hc1]
    have hp1 : Plain n d1.pdf := by rw [hd]; exact hp
    by_cases hsh : o1.ShowHousehold = true
    · simp only [hsh, Bool.not_true, Bool.false_eq_true, if_false] at h ⊢
      split at h
      · cases h
      · next d2 hreg =>
        obtain ⟨imgs, hd2⟩ := registerThumbnail_frame env _ d2 head hreg
        have hsame2 : SameResolver d2 (getSectionOverride env dS head o).2 := by
          rw [hd2]; exact hc2
        have hp2 : Plain n d2.pdf := by rw [hd2]; exact hp1
        split at h
        · cases h
        · next st2 hw =>
          obtain ⟨hp3, hs3⟩ := writeEntry_names env fuel d2 _ head _ _ _ _ o n st2 hsame2 hp2 hw
          obtain ⟨hp4, hs4⟩ := writeMembers_names env fuel o hh.Members st2 st1 _ _ hs3 hp3 h
          simp only [keepShown]
          refine ⟨?_, hs4⟩
          by_cases hshow :
              (getSectionOverride env (getSectionOverride env dS head o).2 head o).1.Show = true
          · simp only [hshow, if_true, List.map_cons] at hp4 ⊢
            rw [List.append_assoc] at hp4
            exact hp4
          · simp only [hshow, if_false, List.append_nil, Bool.false_eq_true] at hp4 ⊢
            exact hp4
    · have hsf : o1.ShowHousehold = false := by simpa using hsh
      simp only [hsf, Bool.not_false, if_true, Option.some.injEq] at h ⊢
      subst h
      simp only [List.map_nil, List.append_nil]
      exact ⟨hp1, hc2⟩

/-- The loop `householdLoop` on a plain surface draws the cells of the
households as the specification words them. -/
theorem writeHouseholds_names (env : Env) (fuel : Nat) (o : Section) (hs : List Household)
    (st st1 : ℚ × Bool × PdfDir) (dS : PdfDir) (n : List String)
    (hsame : SameResolver st.2.2 dS) (hp : Plain n st.2.2.pdf)
    (h : writeHouseholds env fuel o hs st = some st1) :
    Plain (n ++ (sectionCells env o hs dS).1.map (cellName env o)) st1.2.2.pdf
    ∧ SameResolver st1.2.2 (sectionCells env o hs dS).2 := by
  induction hs generalizing st dS n with
  | nil =>
    unfold writeHouseholds at h
    simp only [Option.some.injEq] at h
    subst h
    simp only [sectionCells, List.map_nil, List.append_nil]
    exact ⟨hp, hsame⟩
  | cons hh rest ih =>
    unfold writeHouseholds at h
    split at h
    · cases h
    · next st2 hm =>
      obtain ⟨hp2, hs2⟩ := writeHousehold_names env fuel o hh st st2 dS n hsame hp hm
      obtain ⟨hp3, hs3⟩ := ih st2 _ _ hs2 hp2 h
      simp only [sectionCells, List.map_append]
      rw [List.append_assoc] at hp3
      exact ⟨hp3, hs3⟩

/-- The header of a section leaves a plain surface with the name cells it
found, and does not touch the resolver. -/
theorem writeSectionHeader_names (env : Env) (dir : PdfDir) (header : String) :
    Plain (nameCells dir.pdf.ops) (writeSectionHeader env dir header).pdf
    ∧ SameResolver (writeSectionHeader env dir header) dir := by
  refine ⟨?_, rfl, rfl⟩
  have h0 : (sectionFirstPage dir).fontStyle = ""
      ∧ nameCells (sectionFirstPage dir).ops = nameCells dir.pdf.ops := by
    unfold sectionFirstPage
    simp only [SetY_names, SetX_names, SetLeftMargin_names, SetFont_names]
    refine ⟨trivial, ?_⟩
    show nameCells (Op.addPage false :: dir.pdf.ops) = _
    rw [nameCells_cons]
    simp
  unfold writeSectionHeader Plain
  generalize sectionFirstPage dir = f0 at h0
  obtain ⟨h1, h2⟩ := h0
  simp only [SetY_names, SetX_names, SetLeftMargin_names, SetFont_names, CellFormat_names,
    h1, h2, String.reduceEq, if_false, List.append_nil, and_self]

/-- The cells of a household. (1) One pass of the household loop of
`writeSection`, started on a surface in the regular font style (as the loop
finds it), draws for the household exactly the name cells of `householdCells`:
none when the household has a head whose effective `ShowHousehold` is false,
otherwise the head, if present, then the members in list order, keeping the
persons whose effective `Show` is true. (2) A member whose `DirectorySections`
meets `ExcludeDirSections` is passed over with the column index, the
first-page flag, the cursor, the page count and the drawing trace unchanged.
(3) A whole run of `writeSection` that returns without error adds to the trace
the cells of the households in visiting order, and no other name cell. -/
theorem householdLoop_cells (env : Env) (fuel : Nat) (displayOptions : Section) :
    (∀ (h : Household) (st st1 : ℚ × Bool × PdfDir), st.2.2.pdf.fontStyle = "" →
      writeHousehold env fuel displayOptions st h = some st1 →
      nameCells st1.2.2.pdf.ops = nameCells st.2.2.pdf.ops
        ++ (householdCells env displayOptions h st.2.2).1.map (cellName env displayOptions))
    ∧ (∀ (m : Person) (st st1 : ℚ × Bool × PdfDir),
      isExcluded m displayOptions.ExcludeDirSections = true →
      writeMember env fuel displayOptions st m = some st1 →
      st1.1 = st.1 ∧ st1.2.1 = st.2.1 ∧ st1.2.2.pdf.x = st.2.2.pdf.x
        ∧ st1.2.2.pdf.y = st.2.2.pdf.y ∧ st1.2.2.pdf.page = st.2.2.pdf.page
        ∧ st1.2.2.pdf.ops = st.2.2.pdf.ops)
    ∧ (∀ (dir dir1 : PdfDir) (entries : List (String × Household)) (header : String),
      writeSection env fuel dir entries header displayOptions = some (true, dir1) →
      nameCells dir1.pdf.ops = nameCells dir.pdf.ops
        ++ (sectionCells env displayOptions (visitOrder entries) dir).1.map
            (cellName env displayOptions)) := by
  refine ⟨?_, ?_, ?_⟩
  · intro h st st1 hstyle hrun
    exact (writeHousehold_names env fuel displayOptions h st st1 st.2.2 _ ⟨rfl, rfl⟩
      ⟨hstyle, rfl⟩ hrun).1.2
  · intro m st st1 he hrun
    unfold writeMember at hrun
    split at hrun
    · cases hrun
    · next d hreg =>
      obtain ⟨imgs, hd⟩ := registerThumbnail_frame env _ d m hreg
      simp only [he, if_true, Option.some.injEq] at hrun
      subst hrun
      subst hd
      exact ⟨rfl, rfl, rfl, rfl, rfl, rfl⟩
  · intro dir dir1 entries header hrun
    obtain ⟨hp, hsame⟩ := writeSectionHeader_names env dir header
    unfold writeSection at hrun
    simp only at hrun
    split at hrun
    · simp only [Option.some.injEq, Prod.mk.injEq] at hrun
      exact absurd hrun.1 (by decide)
    · split at hrun
      · simp only [Option.some.injEq, Prod.mk.injEq] at hrun
        exact absurd hrun.1 (by decide)
      · split at hrun
        · cases hrun
        · next st hloop =>
          simp only [Option.some.injEq, Prod.mk.injEq, true_and] at hrun
          subst hrun
          obtain ⟨hp1, -⟩ := writeHouseholds_names env fuel displayOptions (visitOrder entries)
            _ st dir _ hsame hp hloop
          exact (Plain_writeFooter env st.2.2 displayOptions _ hp1).2

/-- The cells of the scenario, rendered with directory section 463631
excluded. The run returns without error; Jan Doe, the one member of household
B, is passed over, and the name cells are those of John and Jane Smith. -/
theorem householdLoop_cells_example :
    ∃ dir1, writeSection (envWith .noBytes) 0 dirA scenarioEntries "Members" scenarioExcluding
        = some (true, dir1)
      ∧ nameCells dir1.pdf.ops = ["SMITH, JOHN", "SMITH, JANE"] := by
  have hs : (writeSection (envWith .noBytes) 0 dirA scenarioEntries "Members"
      scenarioExcluding).isSome = true := by with_unfolding_all decide
  have hok : (writeSection (envWith .noBytes) 0 dirA scenarioEntries "Members"
      scenarioExcluding).map (fun r => r.1) = some true := by with_unfolding_all decide
  obtain ⟨r, hr⟩ := Option.isSome_iff_exists.1 hs
  obtain ⟨ok, d1⟩ := r
  rw [hr] at hok
  simp only [Option.map_some', Option.some.injEq] at hok
  subst hok
  refine ⟨d1, hr, ?_⟩
  rw [(householdLoop_cells (envWith .noBytes) 0 scenarioExcluding).2.2 dirA d1 scenarioEntries
    "Members" hr]
  decide

/-- **C11**, the code at the failing input: two households with the same
SortKey. Household `twinA` has no head and one member, John1 Smith, whose
effective `Show` is true, so that its cells are the one cell of John1 Smith; the
run of `writeSection` over the two households returns without error and draws
no cell for `twinA` and the cell of `twinB` twice (and, with the map iterated
the other way round, the cell of `twinA` twice and none for `twinB`). -/
theorem C11_duplicate_sortkey_cells :
    twinA.SortKey = twinB.SortKey
    ∧ (householdCells (envWith .noBytes) scenarioSection twinA dirA).1.map
        (cellName (envWith .noBytes) scenarioSection) = ["SMITH, JOHN1"]
    ∧ (householdCells (envWith .noBytes) scenarioSection twinB dirA).1.map
        (cellName (envWith .noBytes) scenarioSection) = ["SMITH, JOHN"]
    ∧ (writeSection (envWith .noBytes) 0 dirA [("A", twinA), ("B", twinB)] "Members"
        scenarioSection).map (fun r => (r.1, nameCells r.2.pdf.ops))
        = some (true, ["SMITH, JOHN", "SMITH, JOHN"])
    ∧ (writeSection (envWith .noBytes) 0 dirA [("B", twinB), ("A", twinA)] "Members"
        scenarioSection).map (fun r => (r.1, nameCells r.2.pdf.ops))
        = some (true, ["SMITH, JOHN1", "SMITH, JOHN1"]) :=
  ⟨by decide, by with_unfolding_all decide, by with_unfolding_all decide,
   by with_unfolding_all decide, by with_unfolding_all decide⟩

/-! ## Theorems: exact shape of a matched override -/

/-- One statement of the narrowing block, as a conjunction. -/
theorem narrow_flag (a b : Bool) : (if (a && !b) = true then false else a) = (a && b) := by
  cases a <;> cases b <;> rfl

/-- One statement of the narrowing block on a flag forced to true. -/
theorem narrow_forced (b : Bool) : (if (!b) = true then false else true) = b := by
  cases b <;> rfl

/-- **C26, counterexample.** The store holds a table with the record of Jan Doe
(non-empty `KeyFirstName`, `Phones` clear) and its bytes fail to parse after the
record was read: the call leaves the record in the table of the receiver and
returns the base Section with the two forced flags, `Phones` still set. -/
theorem C26_parse_error_counterexample :
    isExcluded janDoe showAll.ExcludeDirSections = false
    ∧ (getSectionOverride (envWith (.parseError (some janTable))) dirA janDoe showAll).2.overrides
        = some janTable
    ∧ lookupOverride (some janTable) (overrideKey (envWith (.parseError (some janTable))) janDoe)
        = some janOverride
    ∧ janOverride.KeyFirstName ≠ ""
    ∧ (showAll.Phones && janOverride.Phones) = false
    ∧ (getSectionOverride (envWith (.parseError (some janTable))) dirA janDoe showAll).1.Phones
        = true
    ∧ (getSectionOverride (envWith (.parseError (some janTable))) dirA janDoe showAll).1
        = { showAll with ShowHousehold := true, ShowChildren := true } := by
  decide

/-- **C26, amended.** When the person is not excluded and the override table,
loaded without failure, holds a record `ov` under the person's key: if
`KeyFirstName` of the record is not empty, the Section returned by
`getSectionOverride` has `Show`, `Phones`, `Email`, `Address`, `DateJoined`,
`Birthday`, `City`, `State`, `PostalCode` and `Country` equal to base AND
override, `ShowHousehold` and `ShowChildren` equal to the values of the record,
and every other field equal to the field of the base Section; if `KeyFirstName`
is empty, the result is the one without any record, the base Section with the
two forced flags. -/
theorem C26_matched_override_shape (env : Env) (dir : PdfDir) (p : Person) (base ov : Section)
    (hex : isExcluded p base.ExcludeDirSections = false)
    (hload : (loadOverrides env dir).1 = true)
    (hrec : lookupOverride (loadOverrides env dir).2.overrides (overrideKey env p) = some ov) :
    (ov.KeyFirstName ≠ "" →
      (getSectionOverride env dir p base).1
        = { base with
            Show := base.Show && ov.Show
            Phones := base.Phones && ov.Phones
            Email := base.Email && ov.Email
            Address := base.Address && ov.Address
            DateJoined := base.DateJoined && ov.DateJoined
            Birthday := base.Birthday && ov.Birthday
            City := base.City && ov.City
            State := base.State && ov.State
            PostalCode := base.PostalCode && ov.PostalCode
            Country := base.Country && ov.Country
            ShowHousehold := ov.ShowHousehold
            ShowChildren := ov.ShowChildren })
    ∧ (ov.KeyFirstName = "" →
      (getSectionOverride env dir p base).1
        = { base with ShowHousehold := true, ShowChildren := true }) := by
  constructor
  · intro hkey
    rw [getSectionOverride_matched env dir p base ov hex hload hrec hkey]
    simp only [narrow, narrow_flag, narrow_forced, Bool.true_and]
  · intro hkey
    unfold getSectionOverride
    simp only [hex]
    rcases hl : loadOverrides env dir with ⟨ok, d1⟩
    rw [hl] at hload hrec
    simp only at hload hrec
    subst hload
    simp [hrec, hkey]

/-- Witness of C26: Jan Doe with the stored record that keeps `Show` and
clears every other flag, and Émile Doe, whose key is lowered outside ASCII,
with the stored record that keeps `Show` and `ShowHousehold`. -/
theorem C26_matched_override_shape_witness :
    (getSectionOverride (envWith (.parsed (some janTable))) dirA janDoe showAll).1
      = { showAll with
          Phones := false, Email := false, Address := false, DateJoined := false,
          Birthday := false, City := false, State := false, PostalCode := false,
          Country := false, ShowHousehold := false, ShowChildren := false }
    ∧ (getSectionOverride (envWith (.parsed (some emileTable))) dirA emileDoe showAll).1
      = { showAll with
          Phones := false, Email := false, Address := false, DateJoined := false,
          Birthday := false, City := false, State := false, PostalCode := false,
          Country := false, ShowHousehold := true, ShowChildren := false } :=
  ⟨((C26_matched_override_shape (envWith (.parsed (some janTable))) dirA janDoe showAll
      janOverride (by decide) (by decide) (by decide)).1 (by decide)).trans (by decide),
   ((C26_matched_override_shape (envWith (.parsed (some emileTable))) dirA emileDoe showAll
      emileOverride (by decide) (by decide) (by decide)).1 (by decide)).trans (by decide)⟩

/-! ## Theorems: column index -/

/-- The column index after the breaks: the index given, the next one when it is
still below the column count, or 0. -/
theorem writeEntryBreaks_column (env : Env) (dir : PdfDir) (c : ℚ) (fp : Bool) (o : Section) :
    (writeEntryBreaks env dir c fp o).1 = c ∧ c < dir.colNum
    ∨ (writeEntryBreaks env dir c fp o).1 = c + 1 ∧ c + 1 < dir.colNum
    ∨ (writeEntryBreaks env dir c fp o).1 = 0 := by
  unfold writeEntryBreaks
  simp only [ge_iff_le, gt_iff_lt]
  by_cases hcb : dir.pdf.h - dir.pdf.bMargin
      - (if (o.BaptismFootnote || o.NewMemberFootnote) = true then dir.pdf.fontSize else 0)
      < dir.pdf.y + dir.columnHeight + dir.padding
  · simp only [hcb, decide_True, if_true]
    by_cases hpb : dir.colNum ≤ c + 1
    · simp only [hpb, if_true, or_true]
    · simp only [hpb, if_false, true_and]
      exact Or.inr (Or.inl (not_le.1 hpb))
  · simp only [hcb, decide_False, if_false, Bool.false_eq_true]
    by_cases hpb : dir.colNum ≤ c
    · simp only [hpb, if_true, or_true]
    · simp only [hpb, if_false, true_and]
      exact Or.inl (not_le.1 hpb)

/-- One call of `writeEntry` keeps the column count of the receiver, and keeps
the column index a whole number below the column count. -/
theorem writeEntry_column (env : Env) (fuel : Nat) (dir : PdfDir) (p : Person) (c : ℚ)
    (hT hB fp : Bool) (o : Section) (r : ℚ × Bool × PdfDir) (n : Nat)
    (hK : 1 ≤ dir.colNum) (hn : c = n) (hlt : c < dir.colNum)
    (hw : writeEntry env fuel dir p c hT hB fp o = some r) :
    (∃ m : Nat, r.1 = m) ∧ r.1 < dir.colNum ∧ r.2.2.colNum = dir.colNum := by
  obtain ⟨ov, sr, w, hd⟩ := getSectionOverride_dir env dir p o
  by_cases hshow : (getSectionOverride env dir p o).1.Show = true
  · obtain ⟨h1, -, g, gc, -, hr⟩ := writeEntry_visible env fuel dir p c hT hB fp o r hshow hw
    have hcol : (getSectionOverride env dir p o).2.colNum = dir.colNum := by rw [hd]
    have hr2 : r.2.2.colNum = dir.colNum := by rw [hr]; exact hcol
    rcases writeEntryBreaks_column env (getSectionOverride env dir p o).2 c fp
      (getSectionOverride env dir p o).1 with ⟨e, -⟩ | ⟨e, hl⟩ | e
    · rw [h1, e]
      exact ⟨⟨n, hn⟩, hlt, hr2⟩
    · rw [h1, e]
      rw [hcol] at hl
      exact ⟨⟨n + 1, by rw [hn]; push_cast; ring⟩, hl, hr2⟩
    · rw [h1, e]
      exact ⟨⟨0, by simp⟩, by linarith, hr2⟩
  · have hfalse : (getSectionOverride env dir p o).1.Show = false := by simpa using hshow
    rw [writeEntry_hidden env fuel dir p c hT hB fp o hfalse] at hw
    simp only [Option.some.injEq] at hw
    subst hw
    exact ⟨⟨n, hn⟩, hlt, by rw [hd]⟩

/-- One pass of `memberLoop` keeps the column index in range. -/
theorem ColumnInRange_writeMember (env : Env) (fuel : Nat) (o : Section) (K : ℚ)
    (st st1 : ℚ × Bool × PdfDir) (m : Person) (hK : 1 ≤ K) (hin : ColumnInRange K st)
    (h : writeMember env fuel o st m = some st1) : ColumnInRange K st1 := by
  obtain ⟨⟨n, hn⟩, hlt, hcol⟩ := hin
  unfold writeMember at h
  split at h
  · cases h
  · next d hreg =>
    obtain ⟨imgs, hd⟩ := registerThumbnail_frame env _ d m hreg
    have hdc : d.colNum = K := by rw [hd]; exact hcol
    split at h
    · simp only [Option.some.injEq] at h
      subst h
      exact ⟨⟨n, hn⟩, hlt, hdc⟩
    · obtain ⟨h1, h2, h3⟩ := writeEntry_column env fuel d m st.1 _ _ _ o st1 n
        (by rw [hdc]; exact hK) hn (by rw [hdc]; exact hlt) h
      exact ⟨h1, by rw [← hdc]; exact h2, h3.trans hdc⟩

/-- The loop `memberLoop` keeps the column index in range. -/
theorem ColumnInRange_writeMembers (env : Env) (fuel : Nat) (o : Section) (K : ℚ)
    (ms : List Person) (st st1 : ℚ × Bool × PdfDir) (hK : 1 ≤ K) (hin : ColumnInRange K st)
    (h : writeMembers env fuel o ms st = some st1) : ColumnInRange K st1 := by
  induction ms generalizing st with
  | nil =>
    unfold writeMembers at h
    simp only [Option.some.injEq] at h
    subst h
    exact hin
  | cons m rest ih =>
    unfold writeMembers at h
    split at h
    · cases h
    · next st2 hm =>
      exact ih st2 (ColumnInRange_writeMember env fuel o K st st2 m hK hin hm) h

/-- One pass of `householdLoop` keeps the column index in range. -/
theorem ColumnInRange_writeHousehold (env : Env) (fuel : Nat) (o : Section) (K : ℚ)
    (hh : Household) (st st1 : ℚ × Bool × PdfDir) (hK : 1 ≤ K) (hin : ColumnInRange K st)
    (h : writeHousehold env fuel o st hh = some st1) : ColumnInRange K st1 := by
  unfold writeHousehold at h
  cases hhead : hh.Head with
  | none =>
    rw [hhead] at h
    exact ColumnInRange_writeMembers env fuel o K hh.Members st st1 hK hin h
  | some head =>
    rw [hhead] at h
    simp only at h
    obtain ⟨⟨n, hn⟩, hlt, hcol⟩ := hin
    obtain ⟨ov, sr, w, hd⟩ := getSectionOverride_dir env st.2.2 head o
    rcases hg : getSectionOverride env st.2.2 head o with ⟨o1, d1⟩
    rw [hg] at h hd
    simp only at h hd
    have hd1 : d1.colNum = K := by rw [hd]; exact hcol
    split at h
    · simp only [Option.some.injEq] at h
      subst h
      exact ⟨⟨n, hn⟩, hlt, hd1⟩
    · split at h
      · cases h
      · next d2 hreg =>
        obtain ⟨imgs, hd2⟩ := registerThumbnail_frame env _ d2 head hreg
        have hd2c : d2.colNum = K := by rw [hd2]; exact hd1
        split at h
        · cases h
        · next st2 hw =>
          obtain ⟨h1, h2, h3⟩ := writeEntry_column env fuel d2 head st.1 _ _ _ o st2 n
            (by rw [hd2c]; exact hK) hn (by rw [hd2c]; exact hlt) hw
          exact ColumnInRange_writeMembers env fuel o K hh.Members st2 st1 hK
            ⟨h1, by rw [← hd2c]; exact h2, h3.trans hd2c⟩ h

/-- The loop `householdLoop` keeps the column index in range. -/
theorem ColumnInRange_writeHouseholds (env : Env) (fuel : Nat) (o : Section) (K : ℚ)
    (hs : List Household) (st st1 : ℚ × Bool × PdfDir) (hK : 1 ≤ K) (hin : ColumnInRange K st)
    (h : writeHouseholds env fuel o hs st = some st1) : ColumnInRange K st1 := by
  induction hs generalizing st with
  | nil =>
    unfold writeHouseholds at h
    simp only [Option.some.injEq] at h
    subst h
    exact hin
  | cons hh rest ih =>
    unfold writeHouseholds at h
    split at h
    · cases h
    · next st2 hm =>
      exact ih st2 (ColumnInRange_writeHousehold env fuel o K hh st st2 hK hin hm) h

/-- **C27, counterexample.** A column count of 3/2, with the column width that
`setupPDF` computes for it. From column 0, at the bottom of the column,
`writeEntry` returns the column index 1, a whole number with 0 ≤ 1 < 3/2; the
last column is column 3/2 - 1 = 1/2, and the cell of column 1 has its left edge
right of the left edge of that column and its right edge right of the right
margin line, 215.9 - 10. -/
theorem C27_fractional_columns_counterexample :
    1 ≤ dirFractional.colNum
    ∧ (writeEntry (envWith .noBytes) 0 dirFractional janDoe 0 false true true showAll).map
        (fun r => r.1) = some 1
    ∧ (1 : ℚ) < dirFractional.colNum
    ∧ dirFractional.colNum - 1 < 1
    ∧ cellLeft dirFractional (dirFractional.colNum - 1) < cellLeft dirFractional 1
    ∧ dirFractional.pdf.w - dirFractional.rightMargin
        < cellLeft dirFractional 1 + dirFractional.colWd :=
  ⟨by with_unfolding_all decide, by with_unfolding_all decide, by with_unfolding_all decide,
   by with_unfolding_all decide, by with_unfolding_all decide, by with_unfolding_all decide⟩

/-- **C27, amended.** Column-index invariant for a column count that is a whole
number K ≥ 1. (1) For every incoming column index that is a whole number below
the column count, the column index that `writeEntry` returns is a whole number
from 0 to K - 1, and the left edge of its cell, leftMargin + column · (colWd +
gutter), is the left edge of one of the columns 0 to K - 1. (2) In a run of
`writeSection`, which starts the household loop at column 0 after the header,
the same holds of the column index after any number of households. -/
theorem C27_column_index (env : Env) (fuel : Nat) (displayOptions : Section) (K : Nat)
    (hK : 1 ≤ K) :
    (∀ (dir : PdfDir) (p : Person) (c : ℚ) (hT hB fp : Bool) (r : ℚ × Bool × PdfDir) (n : Nat),
      dir.colNum = K → c = n → c < dir.colNum →
      writeEntry env fuel dir p c hT hB fp displayOptions = some r →
      (∃ m : Nat, r.1 = m) ∧ 0 ≤ r.1 ∧ r.1 < dir.colNum ∧ r.1 ≤ dir.colNum - 1
        ∧ ∃ j : Nat, j < K ∧ cellLeft dir r.1 = cellLeft dir j)
    ∧ (∀ (dir : PdfDir) (header : String) (hs : List Household) (st1 : ℚ × Bool × PdfDir),
      dir.colNum = K →
      writeHouseholds env fuel displayOptions hs (0, true, writeSectionHeader env dir header)
        = some st1 →
      (∃ m : Nat, st1.1 = m) ∧ 0 ≤ st1.1 ∧ st1.1 < dir.colNum ∧ st1.1 ≤ dir.colNum - 1
        ∧ ∃ j : Nat, j < K ∧ cellLeft dir st1.1 = cellLeft dir j) := by
  have hK1 : (1 : ℚ) ≤ (K : ℚ) := by exact_mod_cast hK
  have key : ∀ (colNum x : ℚ) (m : Nat) (dir : PdfDir), colNum = K → x = m → x < colNum →
      (∃ m : Nat, x = m) ∧ 0 ≤ x ∧ x < colNum ∧ x ≤ colNum - 1
        ∧ ∃ j : Nat, j < K ∧ cellLeft dir x = cellLeft dir j := by
    intro colNum x m dir hc hm hlt
    rw [hc, hm] at hlt
    have hmK : m < K := by exact_mod_cast hlt
    have hle : ((m + 1 : Nat) : ℚ) ≤ (K : ℚ) := by exact_mod_cast hmK
    push_cast at hle
    refine ⟨⟨m, hm⟩, by rw [hm]; exact Nat.cast_nonneg m, by rw [hc, hm]; exact_mod_cast hmK,
      by rw [hc, hm]; linarith, m, hmK, by rw [hm]⟩
  constructor
  · intro dir p c hT hB fp r n hc hn hlt hw
    obtain ⟨⟨m, hm⟩, h2, -⟩ := writeEntry_column env fuel dir p c hT hB fp displayOptions r n
      (by rw [hc]; exact hK1) hn hlt hw
    exact key dir.colNum r.1 m dir hc hm h2
  · intro dir header hs st1 hc hrun
    obtain ⟨⟨m, hm⟩, h2, -⟩ := ColumnInRange_writeHouseholds env fuel displayOptions dir.colNum hs
      _ st1 (by rw [hc]; exact hK1)
      ⟨⟨0, by simp⟩, lt_of_lt_of_le zero_lt_one (by rw [hc]; exact hK1), rfl⟩ hrun
    exact key dir.colNum st1.1 m dir hc hm h2

/-- Witness of C27: Jan Doe drawn in the second of the two columns of `dirA`;
the run returns and the column index stays 1, the last of the columns 0 and
1. -/
theorem C27_column_index_witness :
    ∃ r, writeEntry (envWith .noBytes) 0 dirA janDoe 1 false true true showAll = some r
      ∧ (∃ m : Nat, r.1 = m) ∧ 0 ≤ r.1 ∧ r.1 < dirA.colNum ∧ r.1 ≤ dirA.colNum - 1
      ∧ ∃ j : Nat, j < 2 ∧ cellLeft dirA r.1 = cellLeft dirA j := by
  have hs : (writeEntry (envWith .noBytes) 0 dirA janDoe 1 false true true showAll).isSome
      = true := by with_unfolding_all decide
  obtain ⟨r, hr⟩ := Option.isSome_iff_exists.1 hs
  exact ⟨r, hr, (C27_column_index (envWith .noBytes) 0 showAll 2 (by decide)).1 dirA janDoe 1
    false true true r 1 (by with_unfolding_all decide) (by simp)
    (by with_unfolding_all decide) hr⟩

/-! ## Theorems: the shrink loop has no floor -/

/-- A string without width that does not fit never fits: the shrink loop uses
up any number of iterations. -/
theorem shrinkLoop_stuck (env : Env) (width : ℚ) (str : String) (fuel : Nat) (f : Pdf)
    (hraw : Pdf.rawWidth env f str = 0) (hw : width < f.cMargin) :
    shrinkLoop env width str fuel f = none := by
  have hgt : ∀ g : Pdf, Pdf.rawWidth env g str = 0 → g.cMargin = f.cMargin →
      Pdf.GetStringWidth env g str + g.cMargin > width := by
    intro g hg hc
    unfold Pdf.GetStringWidth
    rw [hg, hc]
    simpa using hw
  induction fuel generalizing f with
  | zero =>
    unfold shrinkLoop
    rw [if_pos (hgt f hraw rfl)]
  | succ n ih =>
    unfold shrinkLoop
    rw [if_pos (hgt f hraw rfl)]
    exact ih (f.SetFontSize (f.fontSizePt - 1 / 10)) hraw hw
      (fun g hg hc => hgt g hg hc)

/-- **C25, counterexample.** The loop has no floor and does not always end.
On the empty string with an available width of -1 (and a cell margin of 0) no
number of iterations ends the loop; on "DOE, JAN" with the same width the loop
ends only at the font size -0.8, and the cell is drawn at that size. -/
theorem C25_no_floor_counterexample :
    (∀ fuel, shrinkLoop (envWith .noBytes) (-1) "" fuel pdfA = none)
    ∧ (∀ fuel, shrinkedCell (envWith .noBytes) fuel pdfA (-1) 4 "" "L" = none)
    ∧ (shrinkedCell (envWith .noBytes) 100 pdfA (-1) 4 "DOE, JAN" "L").map
        (fun g => lastCellSize g.ops) = some (some (-4 / 5)) := by
  have h1 : ∀ fuel, shrinkLoop (envWith .noBytes) (-1) "" fuel pdfA = none := fun fuel =>
    shrinkLoop_stuck (envWith .noBytes) (-1) "" fuel pdfA (by decide)
      (by with_unfolding_all decide)
  refine ⟨h1, fun fuel => ?_, by with_unfolding_all decide⟩
  unfold shrinkedCell
  simp only [h1 fuel]

/-- A string that fits is left at its font size, whatever the fuel. -/
theorem shrinkLoop_fit_at_start (env : Env) (width : ℚ) (str : String) (fuel : Nat) (f : Pdf)
    (hfit : Pdf.GetStringWidth env f str + f.cMargin ≤ width) :
    shrinkLoop env width str fuel f = some f := by
  cases fuel <;> unfold shrinkLoop <;> rw [if_neg (not_lt.2 hfit)]

/-- **C25, amended.** The shrink loop has no floor font size: it stops as soon
as the string fits, and only then. When the string fits at the starting size the
loop ends at once and the size is unchanged; whenever the loop ends, the string
fits at the size reached and only the font size has changed. When the available
width is smaller than the cell margin, a string without width (the empty
string) makes the loop use up any number of iterations, and for a string of
positive raw width, on a surface with a positive conversion ratio, the loop
ends only at a font size below zero, at which `shrinkedCell` draws the cell. -/
theorem C25_shrink_loop_no_floor (env : Env) (f : Pdf) (width : ℚ) (str : String) :
    (Pdf.GetStringWidth env f str + f.cMargin ≤ width →
      ∀ fuel, shrinkLoop env width str fuel f = some f)
    ∧ (∀ fuel g, shrinkLoop env width str fuel f = some g →
        Pdf.GetStringWidth env g str + g.cMargin ≤ width
        ∧ ∃ size, g = { f with fontSizePt := size })
    ∧ (Pdf.rawWidth env f str = 0 → width < f.cMargin →
        ∀ fuel, shrinkLoop env width str fuel f = none)
    ∧ (0 < Pdf.rawWidth env f str → 0 < f.k → width < f.cMargin →
        (∀ fuel g, shrinkLoop env width str fuel f = some g → g.fontSizePt < 0)
        ∧ ∀ fuel height align g, shrinkedCell env fuel f width height str align = some g →
            ∃ size, size < 0 ∧ lastCellSize g.ops = some size) := by
  have hneg : 0 < Pdf.rawWidth env f str → 0 < f.k → width < f.cMargin →
      ∀ fuel g, shrinkLoop env width str fuel f = some g → g.fontSizePt < 0 := by
    intro hraw hk hw fuel g h
    have hfit := shrinkLoop_fits env width str fuel f g h
    obtain ⟨sz, hg⟩ := shrinkLoop_frame env width str fuel f g h
    subst hg
    have hr : (0 : ℚ) < (Pdf.rawWidth env f str : ℚ) := by exact_mod_cast hraw
    have e1 : Pdf.rawWidth env { f with fontSizePt := sz } str = Pdf.rawWidth env f str := rfl
    unfold Pdf.GetStringWidth Pdf.fontSize at hfit
    rw [e1] at hfit
    simp only at hfit ⊢
    by_contra hsz
    have hsz : 0 ≤ sz := not_lt.1 hsz
    have h0 : 0 ≤ (Pdf.rawWidth env f str : ℚ) * (sz / f.k) / 1000 :=
      div_nonneg (mul_nonneg hr.le (div_nonneg hsz hk.le)) (by norm_num)
    linarith
  refine ⟨fun hfit fuel => shrinkLoop_fit_at_start env width str fuel f hfit, ?_, ?_, ?_⟩
  · intro fuel g h
    exact ⟨shrinkLoop_fits env width str fuel f g h, shrinkLoop_frame env width str fuel f g h⟩
  · intro hraw hw fuel
    exact shrinkLoop_stuck env width str fuel f hraw hw
  · intro hraw hk hw
    refine ⟨hneg hraw hk hw, ?_⟩
    intro fuel height align g h
    obtain ⟨f1, hl, hsize, -⟩ := shrinkedCell_drawn env fuel f g width height str align h
    exact ⟨f1.fontSizePt, hneg hraw hk hw fuel f1 hl, hsize⟩

/-- Witness of C25: Jan Doe's name line on `pdfA`. In a width of 20 it fits at
9 points and the loop ends at once; in a width of -1 the loop, when it ends,
ends below zero. -/
theorem C25_shrink_loop_no_floor_witness :
    (∀ fuel, shrinkLoop (envWith .noBytes) 20 "DOE, JAN" fuel pdfA = some pdfA)
    ∧ (∀ fuel g, shrinkLoop (envWith .noBytes) (-1) "DOE, JAN" fuel pdfA = some g →
        g.fontSizePt < 0)
    ∧ (shrinkLoop (envWith .noBytes) (-1) "DOE, JAN" 100 pdfA).isSome = true :=
  ⟨(C25_shrink_loop_no_floor (envWith .noBytes) pdfA 20 "DOE, JAN").1
      (by with_unfolding_all decide),
   ((C25_shrink_loop_no_floor (envWith .noBytes) pdfA (-1) "DOE, JAN").2.2.2 (by decide)
      (by with_unfolding_all decide) (by with_unfolding_all decide)).1,
   by with_unfolding_all decide⟩

/-! ## Theorems: phone round trip -/

/-- The digit characters of core's `Nat.digitChar`, below ten: each is a
decimal digit and stands for its number. -/
theorem digitChar_value (k : Nat) (hk : k < 10) :
    decide ('0' ≤ Nat.digitChar k ∧ Nat.digitChar k ≤ '9') = true
    ∧ (Nat.digitChar k).toNat - 48 = k := by
  interval_cases k <;> decide

/-- The digits produced so far are a prefix of what `toDigitsCore` returns. -/
theorem toDigitsCore_append (f n : Nat) (tl : List Char) :
    Nat.toDigitsCore 10 f n tl = Nat.toDigitsCore 10 f n [] ++ tl := by
  induction f generalizing n tl with
  | zero => simp [Nat.toDigitsCore]
  | succ k ih =>
    simp only [Nat.toDigitsCore]
    split
    · simp
    · rw [ih (n / 10) (Nat.digitChar (n % 10) :: tl), ih (n / 10) [Nat.digitChar (n % 10)]]
      simp

/-- With enough fuel, the characters of `toDigitsCore` are decimal digits and
read back as the number. -/
theorem toDigitsCore_value (f n : Nat) (hf : n < f) :
    (∀ c ∈ Nat.toDigitsCore 10 f n [], decide ('0' ≤ c ∧ c ≤ '9') = true)
    ∧ ∀ acc : Nat, (Nat.toDigitsCore 10 f n []).foldl (fun a c => a * 10 + (c.toNat - 48)) acc
        = acc * 10 ^ (Nat.toDigitsCore 10 f n []).length + n := by
  induction f generalizing n with
  | zero => omega
  | succ k ih =>
    obtain ⟨hd1, hd2⟩ := digitChar_value (n % 10) (Nat.mod_lt n (by decide))
    simp only [Nat.toDigitsCore]
    split
    · next h0 =>
      refine ⟨?_, fun acc => ?_⟩
      · intro c hc
        simp only [List.mem_singleton] at hc
        rw [hc]
        exact hd1
      · simp only [List.foldl_cons, List.foldl_nil, List.length_singleton, pow_one, hd2]
        omega
    · next h0 =>
      rw [toDigitsCore_append k (n / 10) [Nat.digitChar (n % 10)]]
      obtain ⟨ih1, ih2⟩ := ih (n / 10) (by omega)
      refine ⟨?_, fun acc => ?_⟩
      · intro c hc
        rcases List.mem_append.1 hc with hc | hc
        · exact ih1 c hc
        · simp only [List.mem_singleton] at hc
          rw [hc]
          exact hd1
      · rw [List.foldl_append, ih2 acc]
        simp only [List.foldl_cons, List.foldl_nil, List.length_append, List.length_singleton,
          hd2, pow_succ]
        have := Nat.div_add_mod n 10
        nlinarith [Nat.div_add_mod n 10]

/-- The characters of a padded number are decimal digits and read back as the
number. -/
theorem padNat_value (width n : Nat) :
    (∀ c ∈ (padNat width n).data, decide ('0' ≤ c ∧ c ≤ '9') = true)
    ∧ ∀ acc : Nat, (padNat width n).data.foldl (fun a c => a * 10 + (c.toNat - 48)) acc
        = acc * 10 ^ (padNat width n).length + n := by
  obtain ⟨h1, h2⟩ := toDigitsCore_value (n + 1) n (Nat.lt_succ_self n)
  have hzeros : ∀ (k acc : Nat),
      (List.replicate k '0').foldl (fun a c => a * 10 + (c.toNat - 48)) acc = acc * 10 ^ k := by
    intro k
    induction k with
    | zero => intro acc; simp
    | succ j ih =>
      intro acc
      rw [List.replicate_succ, List.foldl_cons, ih]
      have : ('0' : Char).toNat - 48 = 0 := by decide
      rw [this, pow_succ]
      ring
  unfold padNat Nat.toDigits
  refine ⟨?_, fun acc => ?_⟩
  · intro c hc
    simp only [List.mem_append, List.mem_replicate] at hc
    rcases hc with ⟨-, hc⟩ | hc
    · rw [hc]
      decide
    · exact h1 c hc
  · simp only [String.length, List.foldl_append, List.length_append, List.length_replicate]
    rw [hzeros, h2, pow_add]
    ring

/-- The digits of two or three zero-padded groups separated by dashes read back
as the groups side by side. -/
theorem extractDigits_groups (a b c : Nat) (ha : a < 1000) (hb : b < 1000) (hc : c < 10000)
    (area : Bool) :
    extractDigits ((if area then padNat 3 a ++ "-" else "") ++ (padNat 3 b ++ "-" ++ padNat 4 c))
      = (((if area then a else 0) * 10 ^ 7 + b * 10 ^ 4 + c : Nat) : Int) := by
  have fa := List.filter_eq_self.2 (padNat_value 3 a).1
  have fb := List.filter_eq_self.2 (padNat_value 3 b).1
  have fc := List.filter_eq_self.2 (padNat_value 4 c).1
  have la : (padNat 3 a).length = 3 := padNat_length 3 a (by decide) (by omega)
  have lb : (padNat 3 b).length = 3 := padNat_length 3 b (by decide) (by omega)
  have lc : (padNat 4 c).length = 4 := padNat_length 4 c (by decide) (by omega)
  have hdash : List.filter (fun c => decide ('0' ≤ c ∧ c ≤ '9')) "-".data = [] := by decide
  have hempty : List.filter (fun c => decide ('0' ≤ c ∧ c ≤ '9')) "".data = [] := by decide
  have hne : ∀ l : List Char, l ++ (padNat 3 b).data ++ (padNat 4 c).data ≠ [] := by
    intro l h
    have := congrArg List.length h
    simp only [List.length_append, List.length_nil] at this
    have : (padNat 4 c).data.length = 4 := lc
    omega
  unfold extractDigits
  cases area
  · simp only [Bool.false_eq_true, if_false, String.data_append, List.filter_append, fb, fc,
      hdash, hempty, List.append_nil, List.nil_append]
    have hn := hne []
    simp only [List.nil_append] at hn
    rw [if_neg hn]
    have hv : decimalValue ((padNat 3 b).data ++ (padNat 4 c).data) = b * 10 ^ 4 + c := by
      unfold decimalValue
      rw [List.foldl_append, (padNat_value 3 b).2, (padNat_value 4 c).2, lb, lc]
      ring
    rw [hv]
    have hsmall : ¬ (b * 10 ^ 4 + c > 2 ^ 63 - 1) := by
      norm_num
      omega
    rw [if_neg hsmall]
    simp
  · simp only [if_true, String.data_append, List.filter_append, fa, fb, fc, hdash,
      List.append_nil, List.nil_append, List.append_assoc]
    have hn := hne (padNat 3 a).data
    simp only [List.append_assoc] at hn
    rw [if_neg hn]
    have hv : decimalValue ((padNat 3 a).data ++ ((padNat 3 b).data ++ (padNat 4 c).data))
        = a * 10 ^ 7 + b * 10 ^ 4 + c := by
      unfold decimalValue
      rw [List.foldl_append, List.foldl_append, (padNat_value 3 a).2, (padNat_value 3 b).2,
        (padNat_value 4 c).2, la, lb, lc]
      ring
    rw [hv]
    have hsmall : ¬ (a * 10 ^ 7 + b * 10 ^ 4 + c > 2 ^ 63 - 1) := by
      norm_num
      omega
    rw [if_neg hsmall]

/-- Below 10^10 the formatted phone number is the last seven digits, preceded
by the area-code group when that group is not 000. -/
theorem phoneNumber_small (p : Int) (hp : 0 ≤ p) (hlt : p < 10 ^ 10) :
    phoneNumber p
      = (if decide ((p / 10000000) % 1000 ≠ 0) = true
          then padNat 3 ((p / 10000000) % 1000).toNat ++ "-" else "")
        ++ (padNat 3 ((p / 10000) % 1000).toNat ++ "-" ++ padNat 4 (p % 10000).toNat) := by
  have e1 : p.tmod 10000 = p % 10000 := Int.tmod_eq_emod hp (by decide)
  have e2 : p.tdiv 10000 = p / 10000 := Int.tdiv_eq_ediv hp (by decide)
  have e3 : p.tdiv 10000000 = p / 10000000 := Int.tdiv_eq_ediv hp (by decide)
  have e4 : p.tdiv 10000000000 = p / 10000000000 := Int.tdiv_eq_ediv hp (by decide)
  have e5 : (p / 10000).tmod 1000 = (p / 10000) % 1000 :=
    Int.tmod_eq_emod (by omega) (by decide)
  have e6 : (p / 10000000).tmod 1000 = (p / 10000000) % 1000 :=
    Int.tmod_eq_emod (by omega) (by decide)
  have hpfx : p / 10000000000 = 0 := by
    norm_num at hlt
    omega
  have h1 : ¬ ((p / 10000) % 1000 < 0) := by omega
  have h2 : ¬ (p % 10000 < 0) := by omega
  have h3 : ¬ ((p / 10000000) % 1000 < 0) := by omega
  unfold phoneNumber
  simp only [e1, e2, e3, e4, e5, e6, hpfx, ne_eq, not_true_eq_false, if_false, fmtZeroPad, h1, h2,
    h3]
  by_cases hac : (p / 10000000) % 1000 = 0
  · simp only [hac, not_true_eq_false, if_false, decide_False, Bool.false_eq_true,
      String.empty_append]
  · simp only [hac, not_false_eq_true, if_true, decide_True, String.append_assoc]

/-- **C28.** Phone round trip: for every phone value p with 0 ≤ p < 10^10,
`extractDigits (phoneNumber p) = p`. -/
theorem C28_phone_round_trip (p : Int) (hp : 0 ≤ p) (hlt : p < 10 ^ 10) :
    extractDigits (phoneNumber p) = p := by
  rw [phoneNumber_small p hp hlt, extractDigits_groups _ _ _ (by omega) (by omega) (by omega)]
  have hlt2 : p < 10000000000 := by
    norm_num at hlt
    exact hlt
  by_cases hac : (p / 10000000) % 1000 = 0
  · simp only [hac, ne_eq, not_true_eq_false, decide_False, Bool.false_eq_true, if_false]
    push_cast
    omega
  · simp only [hac, ne_eq, not_false_eq_true, decide_True, if_true]
    push_cast
    omega

/-- Witness of C28: a ten-digit number, and a number below 10^7 whose groups
are zero-padded. -/
theorem C28_phone_round_trip_witness :
    extractDigits (phoneNumber 5551234567) = 5551234567
    ∧ phoneNumber 5551234567 = "555-123-4567"
    ∧ extractDigits (phoneNumber 5) = 5 ∧ phoneNumber 5 = "000-0005" :=
  ⟨C28_phone_round_trip 5551234567 (by decide) (by decide), by decide,
   by decide, by decide⟩

/-! ## Theorems: SortKey anchoring -/

/-- A map read after a write of the same key finds what was written. -/
theorem lookup_mapSet {α : Type} (m : List (String × α)) (k : String) (v : α) :
    (mapSet m k v).lookup k = some v := by
  simp [mapSet, List.lookup]

/-- One household update moves the SortKey of the household as `anchorKey`
does. -/
theorem TracksSortKey_householdUpdate (households : List (String × Household))
    (hid s : String) (d : PersonData) (hhid : hid ≠ "") (hd : d.householdId = hid)
    (h : TracksSortKey households hid s) :
    TracksSortKey (householdUpdate households d) hid (anchorKey d.householdHead s d) := by
  right
  unfold householdUpdate anchorKey PersonData.sortKey
  rw [hd]
  rcases h with ⟨hnone, hs⟩ | ⟨h0, hsome, hid0, hs0⟩
  · subst hs
    simp only [hnone, Option.getD_none, Household.zero, if_true, lookup_mapSet, Option.getD_some]
    split
    · exact ⟨_, rfl, rfl, rfl⟩
    · exact ⟨_, rfl, rfl, rfl⟩
  · have hne : ¬ (h0.Id = "") := by rw [hid0]; exact hhid
    simp only [hsome, Option.getD_some, hne, if_false, lookup_mapSet]
    split
    · exact ⟨_, rfl, hid0, rfl⟩
    · refine ⟨_, rfl, hid0, ?_⟩
      simp only [hs0]

/-- The household updates of a list of persons of one household move its
SortKey as the fold of `anchorKey` does. -/
theorem TracksSortKey_foldl (recs : List PersonData) (households : List (String × Household))
    (hid hh s : String) (hhid : hid ≠ "")
    (hrecs : ∀ d ∈ recs, d.householdId = hid ∧ d.householdHead = hh)
    (h : TracksSortKey households hid s) :
    TracksSortKey (recs.foldl householdUpdate households) hid (recs.foldl (anchorKey hh) s) := by
  induction recs generalizing households s with
  | nil => exact h
  | cons d rest ih =>
    simp only [List.foldl_cons]
    obtain ⟨h1, h2⟩ := hrecs d (List.mem_cons_self d rest)
    have hstep := TracksSortKey_householdUpdate households hid s d hhid h1 h
    rw [h2] at hstep
    exact ih _ _ (fun e he => hrecs e (List.mem_cons_of_mem d he)) hstep

/-- The key of a person with an id is not empty. -/
theorem sortKey_ne_empty (d : PersonData) (hid : d.named.Id ≠ "") : d.sortKey ≠ "" := by
  apply ne_empty_of_length_pos
  unfold PersonData.sortKey
  simp only [String.length_append]
  have : 0 < d.named.Id.length := by
    rcases Nat.eq_zero_or_pos d.named.Id.length with h0 | hpos
    · exfalso
      apply hid
      apply String.ext
      exact List.length_eq_zero.1 h0
    · exact hpos
  omega

/-- Without a head among the persons, a SortKey that is set stays, and an empty
one takes the key of the first person. -/
theorem foldl_anchorKey_members (recs : List PersonData) (hh s : String)
    (hno : ∀ d ∈ recs, d.named.Id ≠ hh) (hids : ∀ d ∈ recs, d.named.Id ≠ "") :
    recs.foldl (anchorKey hh) s
      = if s ≠ "" then s else
          match recs with
          | [] => ""
          | first :: _ => first.sortKey := by
  induction recs generalizing s with
  | nil =>
    by_cases hs : s = ""
    · simp [hs]
    · simp [hs]
  | cons d rest ih =>
    simp only [List.foldl_cons]
    have hd : ¬ (hh = d.named.Id) := fun e => hno d (List.mem_cons_self d rest) e.symm
    have hk := sortKey_ne_empty d (hids d (List.mem_cons_self d rest))
    rw [ih _ (fun e he => hno e (List.mem_cons_of_mem d he))
      (fun e he => hids e (List.mem_cons_of_mem d he))]
    unfold anchorKey
    simp only [hd, if_false]
    by_cases hs : s = ""
    · simp [hs, hk]
    · simp [hs]

/-- With the head among the persons, the SortKey ends as the key of the
head. -/
theorem foldl_anchorKey_head (recs : List PersonData) (hh s : String) (head : PersonData)
    (hmem : head ∈ recs) (hhead : head.named.Id = hh)
    (huniq : ∀ d ∈ recs, d.named.Id = hh → d = head) (hids : ∀ d ∈ recs, d.named.Id ≠ "") :
    recs.foldl (anchorKey hh) s = head.sortKey := by
  induction recs generalizing s with
  | nil => cases hmem
  | cons d rest ih =>
    simp only [List.foldl_cons]
    have hsub1 : ∀ e ∈ rest, e.named.Id = hh → e = head :=
      fun e he => huniq e (List.mem_cons_of_mem d he)
    have hsub2 : ∀ e ∈ rest, e.named.Id ≠ "" := fun e he => hids e (List.mem_cons_of_mem d he)
    by_cases hin : head ∈ rest
    · exact ih _ hin hsub1 hsub2
    · have hdh : d = head := by
        rcases List.mem_cons.1 hmem with h | h
        · exact h.symm
        · exact absurd h hin
      have hno : ∀ e ∈ rest, e.named.Id ≠ hh := by
        intro e he heq
        exact hin (hsub1 e he heq ▸ he)
      rw [foldl_anchorKey_members rest hh _ hno hsub2]
      have hstep : anchorKey hh s d = head.sortKey := by
        unfold anchorKey
        rw [hdh, hhead]
        simp
      rw [hstep]
      have hk := sortKey_ne_empty head (hids head hmem)
      simp [hk]

/-- SortKey anchoring for a household with an id. Let the household update of `downloadPerson`
process, in any order, persons of one household (a non-empty household id, not
yet in the map), each with a non-empty id. If the head (the person whose id is
the primary contact of the household) is among them, the SortKey of the
household is lastname + firstname + id of the head; if no head is among them,
it is lastname + firstname + id of the first person processed. First names are
taken after the nickname is applied. -/
theorem sortKey_anchor (households : List (String × Household)) (recs : List PersonData)
    (hid hh : String) (hhid : hid ≠ "") (hnew : households.lookup hid = none)
    (hrecs : ∀ d ∈ recs, d.householdId = hid ∧ d.householdHead = hh ∧ d.named.Id ≠ "") :
    (∀ head ∈ recs, head.named.Id = hh → (∀ d ∈ recs, d.named.Id = hh → d = head) →
      ((recs.foldl householdUpdate households).lookup hid).map (fun h => h.SortKey)
        = some (head.named.LastName ++ head.named.FirstName ++ head.named.Id))
    ∧ ((∀ d ∈ recs, d.named.Id ≠ hh) → ∀ first rest, recs = first :: rest →
      ((recs.foldl householdUpdate households).lookup hid).map (fun h => h.SortKey)
        = some (first.named.LastName ++ first.named.FirstName ++ first.named.Id)) := by
  have htrack := TracksSortKey_foldl recs households hid hh "" hhid
    (fun d hd => ⟨(hrecs d hd).1, (hrecs d hd).2.1⟩) (Or.inl ⟨hnew, rfl⟩)
  have hids : ∀ d ∈ recs, d.named.Id ≠ "" := fun d hd => (hrecs d hd).2.2
  constructor
  · intro head hmem hhead huniq
    rw [foldl_anchorKey_head recs hh "" head hmem hhead huniq hids] at htrack
    rcases htrack with ⟨-, he⟩ | ⟨h, hl, -, hs⟩
    · exact absurd he (sortKey_ne_empty head (hids head hmem))
    · rw [hl]
      exact congrArg some hs
  · intro hno first rest hrec
    rw [foldl_anchorKey_members recs hh "" hno hids] at htrack
    subst hrec
    simp only [ne_eq, not_true_eq_false, if_false] at htrack
    rcases htrack with ⟨-, he⟩ | ⟨h, hl, -, hs⟩
    · exact absurd he.symm (sortKey_ne_empty first (hids first (List.mem_cons_self _ _))).symm
    · rw [hl]
      exact congrArg some hs

/-- Jane (nickname Janie) is processed before John, the head of household 77;
the SortKey ends as the key of John. -/
theorem sortKey_anchor_example :
    (([janeData, johnData].foldl householdUpdate []).lookup "77").map (fun h => h.SortKey)
      = some "SmithJohn1"
    ∧ (([janeData].foldl householdUpdate []).lookup "77").map (fun h => h.SortKey)
      = some "SmithJanie2" :=
  ⟨((sortKey_anchor [] [janeData, johnData] "77" "1" (by decide) rfl (by decide)).1
      johnData (by decide) (by decide) (by decide)).trans (by decide),
   by decide⟩

/-- **C23**, the code at the failing input: two persons whose responses include
no household record, so that both are filed under the empty household id. The
test `households[householdId].Id == ""` of line 650 finds the household of the
first person with an empty id and creates the household anew: after Jane (known
as Janie) and then Jan, the household has Jan as its one member and the SortKey
of Jan, where Jane was the first member added. -/
theorem C23_empty_household_id :
    janeAlone.householdId = janAlone.householdId
    ∧ janeAlone.named.Id ≠ "" ∧ janAlone.named.Id ≠ ""
    ∧ janeAlone.named.Id ≠ janeAlone.householdHead ∧ janAlone.named.Id ≠ janAlone.householdHead
    ∧ (([janeAlone].foldl householdUpdate []).lookup "").map
        (fun h => (h.SortKey, h.Members.map (fun m => m.FirstName))) = some ("SmithJanie2", ["Janie"])
    ∧ (([janeAlone, janAlone].foldl householdUpdate []).lookup "").map
        (fun h => (h.SortKey, h.Members.map (fun m => m.FirstName), h.Head.isSome))
        = some ("DoeJan3", ["Jan"], false)
    ∧ janeAlone.sortKey = "SmithJanie2" := by
  decide

/-! ## Theorems: list pagination -/

/-- **C29.** The URL requested by `downloadListPage` carries `offset=0`
whatever offset it is given: called with offset 100 on a list of two pages it
requests the first page again, and `downloadList` on that list requests the
first page at every iteration and never ends. -/
theorem C29_offset_not_sent :
    (∀ (env : ListEnv) (listName : String) (hs : List (String × Household)) (n : Int),
      (downloadListPage env listName hs n).requested = listPageUrl env listName 0)
    ∧ (downloadListPage twoPages "Members" [] 100).requested
        = "https://api/lists?include=people&per_page=100&offset=0&where[name]=Members"
    ∧ listPageUrl twoPages "Members" 100
        = "https://api/lists?include=people&per_page=100&offset=100&where[name]=Members"
    ∧ (downloadListPage twoPages "Members" [] 100).dataRemaining = true
    ∧ ∀ fuel, downloadList twoPages fuel "Members" = none := by
  refine ⟨?_, by decide, by decide, by decide, ?_⟩
  · intro env listName hs n
    unfold downloadListPage listPageUrl
    simp only
    split
    · rfl
    · split <;> rfl
  · have hloop : ∀ fuel urls (n : Int),
        downloadListLoop twoPages "Members" fuel [] n urls = none := by
      intro fuel
      induction fuel with
      | zero => intro urls n; rfl
      | succ k ih =>
        intro urls n
        have hr : downloadListPage twoPages "Members" [] n
            = { households := [], offset := 100, dataRemaining := true, err := false,
                requested :=
                  "https://api/lists?include=people&per_page=100&offset=0&where[name]=Members" } := by
          show downloadListPage twoPages "Members" [] 0 = _
          decide
        unfold downloadListLoop
        simp only [hr, if_true]
        exact ih _ _
    intro fuel
    exact hloop fuel [] 0

/-! ## Theorems: the driver -/

/-- With downloads that do not fail, a roster block adds the call of its
section. -/
theorem rosterBlock_ok (genv : DriverEnv) (config : Config) (i : Nat) (calls : List ComposerCall)
    (hdl : ∀ name, (genv.downloadList name).2 = false) (h0 : i ≠ 0) (h3 : i ≠ 3) (h8 : i ≠ 8) :
    rosterBlock genv config i calls = (false, calls ++ sectionCall genv config i) := by
  unfold rosterBlock sectionCall
  simp only [hdl, Bool.false_eq_true, if_false, h0, h3, h8]
  split <;> simp

/-- A roster block only adds calls at the end. -/
theorem rosterBlock_prefix (genv : DriverEnv) (config : Config) (i : Nat)
    (calls : List ComposerCall) :
    ∃ more, (rosterBlock genv config i calls).2 = calls ++ more := by
  unfold rosterBlock
  simp only
  split
  · split
    · exact ⟨[], by simp⟩
    · exact ⟨_, rfl⟩
  · exact ⟨[], by simp⟩

/-- **C24, counterexample.** With nine sections of which the roster 0, the
children section 3, the roster 4 and the index 8 are shown, `generatePDF`
composes the children section before the roster of section 4 and before the
index. -/
theorem C24_order_counterexample :
    (generatePDF driverOk configNine "1" blankPdf).map
        (fun r => (r.err, r.calls.map (fun c => (c.name, c.header))))
      = some (false, [("writeSection", "Members"), ("writeChildren", "Children"),
          ("writeSection", "Supported"), ("writeFirstNames", "Index"),
          ("closePDF", "d/pdfs/directory-1.pdf")]) := by
  with_unfolding_all decide

/-- **C24, amended.** For every configuration with at least one section, when
the transliteration table loads and no list download fails, the composer calls
of `generatePDF` follow the section indices: the roster compositions of
sections 0, 1 and 2, the children composition of section 3, the roster
compositions of sections 4 to 7 and the index composition of section 8, each
made when its section exists and is shown, followed by the one call of
`closePDF`, whose error is the error returned. -/
theorem C24_composer_order (genv : DriverEnv) (config : Config) (fileId : String) (blank : Pdf)
    (htr : genv.translatorOk = true) (hsec : config.Sections ≠ [])
    (hdl : ∀ name, (genv.downloadList name).2 = false) :
    generatePDF genv config fileId blank
      = some { err := !genv.closeOk, calls := composerOrder genv config fileId } := by
  have hrange : List.range 9 = [0, 1, 2, 3, 4, 5, 6, 7, 8] := by decide
  unfold generatePDF composerOrder
  rw [hrange]
  simp only [htr, Bool.not_true, Bool.false_eq_true, if_false, setupPDF]
  cases hs : config.Sections with
  | nil => exact absurd hs hsec
  | cons s0 rest =>
    simp only [← hs]
    have h0 : config.Sections.getD 0 Section.zero = s0 := by rw [hs]; rfl
    have hlen : config.Sections.length > 0 := by rw [hs]; simp
    have hmem : (if (s0.Show || (decide (config.Sections.length > 3)
          && (config.Sections.getD 3 Section.zero).Show)
          || (decide (config.Sections.length > 8)
          && (config.Sections.getD 8 Section.zero).Show)) = true
        then genv.downloadList s0.ListName else ([], false))
        = (sharedMembers genv config, false) := by
      unfold sharedMembers
      rw [h0]
      split
      · exact Prod.ext rfl (hdl _)
      · rfl
    rw [hmem]
    simp only [Bool.and_false, Bool.false_eq_true, if_false,
      rosterBlock_ok genv config _ _ hdl (by decide : (1 : Nat) ≠ 0) (by decide) (by decide),
      rosterBlock_ok genv config _ _ hdl (by decide : (2 : Nat) ≠ 0) (by decide) (by decide),
      rosterBlock_ok genv config _ _ hdl (by decide : (4 : Nat) ≠ 0) (by decide) (by decide),
      rosterBlock_ok genv config _ _ hdl (by decide : (5 : Nat) ≠ 0) (by decide) (by decide),
      rosterBlock_ok genv config _ _ hdl (by decide : (6 : Nat) ≠ 0) (by decide) (by decide),
      rosterBlock_ok genv config _ _ hdl (by decide : (7 : Nat) ≠ 0) (by decide) (by decide)]
    have e0 : (if s0.Show = true then
          [ComposerCall.writeSection (sharedMembers genv config) s0.Header s0] else [])
        = sectionCall genv config 0 := by
      unfold sectionCall
      simp only [h0, hlen, true_and, if_true]
    have e3 : ∀ calls : List ComposerCall,
        (if config.Sections.length > 3 ∧ (config.Sections.getD 3 Section.zero).Show = true then
          calls ++ [ComposerCall.writeChildren (sharedMembers genv config)
            (config.Sections.getD 3 Section.zero).Header (config.Sections.getD 3 Section.zero)]
        else calls) = calls ++ sectionCall genv config 3 := by
      intro calls
      unfold sectionCall
      by_cases h : config.Sections.length > 3
          ∧ (config.Sections.getD 3 Section.zero).Show = true
      · rw [if_pos h, if_pos h]
        rfl
      · rw [if_neg h, if_neg h, List.append_nil]
    have e8 : ∀ calls : List ComposerCall,
        (if config.Sections.length > 8 ∧ (config.Sections.getD 8 Section.zero).Show = true then
          calls ++ [ComposerCall.writeFirstNames (sharedMembers genv config)
            (config.Sections.getD 8 Section.zero).Header]
        else calls) = calls ++ sectionCall genv config 8 := by
      intro calls
      unfold sectionCall
      by_cases h : config.Sections.length > 8
          ∧ (config.Sections.getD 8 Section.zero).Show = true
      · rw [if_pos h, if_pos h]
        rfl
      · rw [if_neg h, if_neg h, List.append_nil]
    rw [e0, e3, e8]
    simp only [newPdfDir, List.map_cons, List.map_nil, List.flatten, List.append_assoc,
      List.append_nil]

/-- Witness of C24: the configuration of nine sections with collaborators that
never fail. -/
theorem C24_composer_order_witness :
    generatePDF driverOk configNine "1" blankPdf
      = some { err := !driverOk.closeOk, calls := composerOrder driverOk configNine "1" } :=
  C24_composer_order driverOk configNine "1" blankPdf rfl (by simp [configNine]) (fun _ => rfl)

/-- Once the roster of section 0 is composed, every way through the rest of
`generatePDF` keeps that call first. -/
theorem generatePDF_first_call (genv : DriverEnv) (config : Config) (fileId : String)
    (blank : Pdf) (s0 : Section) (rest : List Section) (htr : genv.translatorOk = true)
    (hs : config.Sections = s0 :: rest) (hshow : s0.Show = true)
    (hdl : (genv.downloadList s0.ListName).2 = false) :
    ∃ r more, generatePDF genv config fileId blank = some r
      ∧ r.calls = .writeSection (genv.downloadList s0.ListName).1 s0.Header s0 :: more := by
  unfold generatePDF
  simp only [htr, Bool.not_true, Bool.false_eq_true, if_false, setupPDF, hs, hshow, Bool.true_or,
    if_true, hdl, Bool.and_false]
  simp only [← hs]
  generalize hc0 : [ComposerCall.writeSection (genv.downloadList s0.ListName).1 s0.Header s0]
    = calls0
  have hstart : ∃ more, calls0
      = .writeSection (genv.downloadList s0.ListName).1 s0.Header s0 :: more := ⟨[], hc0.symm⟩
  clear hc0
  have hnext : ∀ (i : Nat) (calls : List ComposerCall),
      (∃ more, calls = .writeSection (genv.downloadList s0.ListName).1 s0.Header s0 :: more) →
      ∃ more, (rosterBlock genv config i calls).2
        = .writeSection (genv.downloadList s0.ListName).1 s0.Header s0 :: more := by
    intro i calls ⟨m, hm⟩
    obtain ⟨m2, hm2⟩ := rosterBlock_prefix genv config i calls
    exact ⟨m ++ m2, by rw [hm2, hm]; rfl⟩
  have hadd : ∀ (c : Prop) [Decidable c] (calls : List ComposerCall) (x : ComposerCall),
      (∃ more, calls = .writeSection (genv.downloadList s0.ListName).1 s0.Header s0 :: more) →
      ∃ more, (if c then calls ++ [x] else calls)
        = .writeSection (genv.downloadList s0.ListName).1 s0.Header s0 :: more := by
    intro c _ calls x ⟨m, hm⟩
    split
    · exact ⟨m ++ [x], by rw [hm]; rfl⟩
    · exact ⟨m, hm⟩
  have h1 := hnext 1 calls0 hstart
  rcases e1 : rosterBlock genv config 1 calls0 with ⟨b1, c1⟩
  rw [e1] at h1
  cases b1 with
  | true => exact ⟨_, _, rfl, h1.choose_spec⟩
  | false =>
    simp only
    have h2 := hnext 2 c1 h1
    rcases e2 : rosterBlock genv config 2 c1 with ⟨b2, c2⟩
    rw [e2] at h2
    cases b2 with
    | true => exact ⟨_, _, rfl, h2.choose_spec⟩
    | false =>
      simp only
      have h3 := hadd (config.Sections.length > 3
        ∧ (config.Sections.getD 3 Section.zero).Show = true) c2
        (.writeChildren (genv.downloadList s0.ListName).1
          (config.Sections.getD 3 Section.zero).Header (config.Sections.getD 3 Section.zero)) h2
      generalize (if config.Sections.length > 3
          ∧ (config.Sections.getD 3 Section.zero).Show = true
        then c2 ++ [ComposerCall.writeChildren (genv.downloadList s0.ListName).1
          (config.Sections.getD 3 Section.zero).Header (config.Sections.getD 3 Section.zero)]
        else c2) = c3 at h3 ⊢
      have h4 := hnext 4 c3 h3
      rcases e4 : rosterBlock genv config 4 c3 with ⟨b4, c4⟩
      rw [e4] at h4
      cases b4 with
      | true => exact ⟨_, _, rfl, h4.choose_spec⟩
      | false =>
        simp only
        have h5 := hnext 5 c4 h4
        rcases e5 : rosterBlock genv config 5 c4 with ⟨b5, c5⟩
        rw [e5] at h5
        cases b5 with
        | true => exact ⟨_, _, rfl, h5.choose_spec⟩
        | false =>
          simp only
          have h6 := hnext 6 c5 h5
          rcases e6 : rosterBlock genv config 6 c5 with ⟨b6, c6⟩
          rw [e6] at h6
          cases b6 with
          | true => exact ⟨_, _, rfl, h6.choose_spec⟩
          | false =>
            simp only
            have h7 := hnext 7 c6 h6
            rcases e7 : rosterBlock genv config 7 c6 with ⟨b7, c7⟩
            rw [e7] at h7
            cases b7 with
            | true => exact ⟨_, _, rfl, h7.choose_spec⟩
            | false =>
              simp only
              obtain ⟨m8, hm8⟩ := hadd (config.Sections.length > 8
                ∧ (config.Sections.getD 8 Section.zero).Show = true) c7
                (.writeFirstNames (genv.downloadList s0.ListName).1
                  (config.Sections.getD 8 Section.zero).Header) h7
              exact ⟨_, m8 ++ [_], rfl, by simp only [hm8]; rfl⟩

/-- **C22, counterexample.** A configuration with a column count of zero and
one roster section: `setupPDF` returns no error (and leaves a column width that
is not a number), `generatePDF` returns no error and composes the section
before it closes the document, and the first statements of that composition
add a page. -/
theorem C22_zero_columns_counterexample :
    configNoColumns.NumberOfColumns = 0
    ∧ (setupPDF driverOk (newPdfDir driverOk configNoColumns "1" blankPdf)).err = false
    ∧ (setupPDF driverOk (newPdfDir driverOk configNoColumns "1" blankPdf)).colWd = none
    ∧ (generatePDF driverOk configNoColumns "1" blankPdf).map
        (fun r => (r.err, r.calls.map (fun c => (c.name, c.header))))
      = some (false, [("writeSection", "Members"), ("closePDF", "d/pdfs/directory-1.pdf")])
    ∧ explicitPages (writeSectionHeader (envWith .noBytes)
        { newPdfDir driverOk configNoColumns "1" blankPdf with
          pdf := (setupPDF driverOk (newPdfDir driverOk configNoColumns "1" blankPdf)).pdf }
          "Members").pdf.ops = 1 := by
  refine ⟨rfl, rfl, by decide, by with_unfolding_all decide, by with_unfolding_all decide⟩

/-- **C22, amended.** No configuration is rejected. For every configuration, a
column count of zero included, `setupPDF` returns no error and adds no page to
the new document. `generatePDF` returns an error without any composer call
when the transliteration table does not load, and when the list of section 0,
shown, fails to download; when the table loads, section 0 is shown and its list
is downloaded, the roster of section 0 is composed first, whatever the column
count. -/
theorem C22_no_configuration_check (genv : DriverEnv) (config : Config) (fileId : String)
    (blank : Pdf) :
    (setupPDF genv (newPdfDir genv config fileId blank)).err = false
    ∧ (setupPDF genv (newPdfDir genv config fileId blank)).pdf.page
        = (genv.newPdf config.PageSize).page
    ∧ (setupPDF genv (newPdfDir genv config fileId blank)).pdf.ops
        = (genv.newPdf config.PageSize).ops
    ∧ (genv.translatorOk = false →
        generatePDF genv config fileId blank = some { err := true, calls := [] })
    ∧ (genv.translatorOk = true → ∀ s0 rest, config.Sections = s0 :: rest → s0.Show = true →
        (genv.downloadList s0.ListName).2 = true →
        generatePDF genv config fileId blank = some { err := true, calls := [] })
    ∧ (genv.translatorOk = true → ∀ s0 rest, config.Sections = s0 :: rest → s0.Show = true →
        (genv.downloadList s0.ListName).2 = false →
        ∃ r more, generatePDF genv config fileId blank = some r
          ∧ r.calls = .writeSection (genv.downloadList s0.ListName).1 s0.Header s0 :: more) := by
  refine ⟨rfl, rfl, rfl, ?_, ?_, ?_⟩
  · intro htr
    unfold generatePDF
    simp only [htr, Bool.not_false, if_true]
  · intro htr s0 rest hs hshow hdl
    unfold generatePDF
    simp only [htr, Bool.not_true, Bool.false_eq_true, if_false, setupPDF, hs, hshow,
      Bool.true_or, if_true, hdl, Bool.and_self]
  · intro htr s0 rest hs hshow hdl
    exact generatePDF_first_call genv config fileId blank s0 rest htr hs hshow hdl

/-- Witness of C22: the configuration without columns; when the
transliteration table does not load, or the list "Members" fails to download,
nothing is composed, and when both succeed the roster "Members" is composed
first. -/
theorem C22_no_configuration_check_witness :
    generatePDF { driverOk with translatorOk := false } configNoColumns "1" blankPdf
      = some { err := true, calls := [] }
    ∧ generatePDF { driverOk with downloadList := fun _ => ([], true) } configNoColumns "1"
        blankPdf = some { err := true, calls := [] }
    ∧ ∃ r more, generatePDF driverOk configNoColumns "1" blankPdf = some r
        ∧ r.calls = .writeSection scenarioEntries "Members" scenarioSection :: more :=
  ⟨(C22_no_configuration_check { driverOk with translatorOk := false } configNoColumns "1"
      blankPdf).2.2.2.1 rfl,
   (C22_no_configuration_check { driverOk with downloadList := fun _ => ([], true) }
      configNoColumns "1" blankPdf).2.2.2.2.1 rfl scenarioSection [] rfl rfl rfl,
   (C22_no_configuration_check driverOk configNoColumns "1" blankPdf).2.2.2.2.2 rfl
      scenarioSection [] rfl rfl rfl⟩

/-! ## Theorems: index composer -/

/-- The line cells after one more drawing call. -/
theorem lineCells_cons (op : Op) (ops : List Op) :
    lineCells (op :: ops) = lineCells ops ++
      (match op with
       | .cell _ _ _ _ txt _ _ align => if align = "L" then [txt] else []
       | _ => []) := by
  unfold lineCells
  rw [List.reverse_cons, List.filterMap_append]
  congr 1
  cases op <;> simp [List.filterMap_cons]
  split <;> simp_all

/-- The call `CellFormat` draws a line cell exactly when the alignment is
`"L"`. -/
theorem CellFormat_lines (f : Pdf) (w h : ℚ) (txt : String) (ln : Nat) (align : String) :
    lineCells (f.CellFormat w h txt ln align).ops
      = lineCells f.ops ++ (if align = "L" then [txt] else []) := by
  unfold Pdf.CellFormat
  by_cases hb : f.autoPageBreak = true ∧ f.y + h > f.pageBreakTrigger <;>
    by_cases hl : 0 < ln <;>
    simp only [hb, hl, and_self, if_true, if_false, lineCells_cons, List.append_nil]

/-- The call `AddPage` draws no line cell. -/
theorem AddPage_lines (f : Pdf) : lineCells f.AddPage.ops = lineCells f.ops := by
  show lineCells (Op.addPage false :: f.ops) = _
  rw [lineCells_cons]
  simp

/-- The method `shrinkedCell` with alignment `"L"` draws one line cell, of the
text it was given and of the width it was given. -/
theorem shrinkedCell_lines (env : Env) (fuel : Nat) (f g : Pdf) (width height : ℚ)
    (str : String) (h : shrinkedCell env fuel f width height str "L" = some g) :
    lineCells g.ops = lineCells f.ops ++ [str] := by
  unfold shrinkedCell at h
  simp only at h
  cases hl : shrinkLoop env width str fuel f with
  | none => rw [hl] at h; cases h
  | some f1 =>
    rw [hl] at h
    simp only [Option.some.injEq] at h
    obtain ⟨sz, hsz⟩ := shrinkLoop_frame env width str fuel f f1 hl
    have h2 := CellFormat_lines f1 width height str 1 "L"
    subst h
    subst hsz
    simpa using h2

/-- The header of the index draws no line cell and does not touch the
resolver. -/
theorem writeFirstNamesHeader_lines (env : Env) (dir : PdfDir) (header : String) :
    lineCells (writeFirstNamesHeader env dir header).pdf.ops = lineCells dir.pdf.ops
    ∧ SameResolver (writeFirstNamesHeader env dir header) dir := by
  refine ⟨?_, rfl, rfl⟩
  have h0 : lineCells (sectionFirstPage dir).ops = lineCells dir.pdf.ops := by
    unfold sectionFirstPage
    simp only [SetY_names, SetX_names, SetLeftMargin_names, SetFont_names]
    show lineCells (Op.addPage false :: dir.pdf.ops) = _
    rw [lineCells_cons]
    simp
  unfold writeFirstNamesHeader
  generalize sectionFirstPage dir = f0 at h0
  simp only [SetY_names, SetX_names, SetLeftMargin_names, SetFont_names, CellFormat_lines,
    h0, String.reduceEq, if_false, List.append_nil]

/-- One pass of `memberLoop`: a line with the name of the person under the key
is drawn exactly when the effective `Show` of that person is true, and the
resolver moves as in a bare resolver call. -/
theorem writeFirstName_lines (env : Env) (fuel : Nat) (ek : List (String × Person))
    (left top bottom height colWd : ℚ) (st st1 : ℚ × Bool × PdfDir) (k : String) (dS : PdfDir)
    (hsame : SameResolver st.2.2 dS)
    (h : writeFirstName env fuel ek left top bottom height colWd st k = some st1) :
    lineCells st1.2.2.pdf.ops = lineCells st.2.2.pdf.ops
        ++ (if (getSectionOverride env dS ((ek.lookup k).getD Person.zero) showOnly).1.Show
            then [indexName env ((ek.lookup k).getD Person.zero)] else [])
    ∧ SameResolver st1.2.2
        (getSectionOverride env dS ((ek.lookup k).getD Person.zero) showOnly).2 := by
  obtain ⟨hc1, hc2⟩ := getSectionOverride_congr env st.2.2 dS
    ((ek.lookup k).getD Person.zero) showOnly hsame
  obtain ⟨ov, sr, w, hd⟩ := getSectionOverride_dir env st.2.2
    ((ek.lookup k).getD Person.zero) showOnly
  rw [← hc1]
  unfold writeFirstName at h
  simp only at h
  rcases hg : getSectionOverride env st.2.2 ((ek.lookup k).getD Person.zero) showOnly
    with ⟨o1, d1⟩
  rw [hg] at h hc2 hd
  simp only at h hc2 hd ⊢
  have hpdf : d1.pdf = st.2.2.pdf := by rw [hd]
  by_cases hshow : o1.Show = true
  · simp only [hshow, Bool.not_true, Bool.false_eq_true, if_false, if_true] at h ⊢
    split at h
    · cases h
    · next g hcell =>
      simp only [Option.some.injEq] at h
      subst h
      have hl := shrinkedCell_lines _ _ _ _ _ _ _ hcell
      refine ⟨?_, hc2⟩
      show lineCells g.ops = _
      rw [hl]
      congr 1
      rw [← hpdf]
      split_ifs <;>
        simp only [SetY_names, SetX_names, SetLeftMargin_names, AddPage_lines]
  · have hfalse : o1.Show = false := by simpa using hshow
    simp only [hfalse, Bool.not_false, if_true, Option.some.injEq, Bool.false_eq_true,
      if_false, List.append_nil] at h ⊢
    subst h
    exact ⟨by rw [hpdf], hc2⟩

/-- The loop `memberLoop` draws the names of the persons under the keys, in the
order of the keys, for the persons whose effective `Show` is true. -/
theorem writeFirstNameLines_lines (env : Env) (fuel : Nat) (ek : List (String × Person))
    (left top bottom height colWd : ℚ) (ks : List String) (st st1 : ℚ × Bool × PdfDir)
    (dS : PdfDir) (hsame : SameResolver st.2.2 dS)
    (h : writeFirstNameLines env fuel ek left top bottom height colWd ks st = some st1) :
    lineCells st1.2.2.pdf.ops = lineCells st.2.2.pdf.ops
        ++ (keepShown env showOnly (ks.map (fun k => (ek.lookup k).getD Person.zero)) dS).1.map
            (indexName env) := by
  induction ks generalizing st dS with
  | nil =>
    unfold writeFirstNameLines at h
    simp only [Option.some.injEq] at h
    subst h
    simp [keepShown]
  | cons k rest ih =>
    unfold writeFirstNameLines at h
    split at h
    · cases h
    · next st2 hk =>
      obtain ⟨h1, h2⟩ := writeFirstName_lines env fuel ek left top bottom height colWd st st2 k
        dS hsame hk
      rw [ih st2 _ h2 h, h1]
      simp only [List.map_cons, keepShown]
      by_cases hshow :
          (getSectionOverride env dS ((ek.lookup k).getD Person.zero) showOnly).1.Show = true
      · simp only [hshow, if_true, List.map_cons, List.append_assoc, List.singleton_append]
      · simp only [hshow, if_false, List.append_nil, Bool.false_eq_true]

/-- A map read after a write of another key finds what was there. -/
theorem lookup_mapSet_ne {α : Type} (m : List (String × α)) (k k2 : String) (v : α)
    (hne : k2 ≠ k) : (mapSet m k v).lookup k2 = m.lookup k2 := by
  have hbeq : (k2 == k) = false := by simpa using hne
  unfold mapSet
  simp only [List.lookup, hbeq]
  induction m with
  | nil => rfl
  | cons e rest ih =>
    obtain ⟨a, b⟩ := e
    by_cases hak : a = k
    · subst hak
      simp only [List.filter, ne_eq, not_true_eq_false, decide_False, List.lookup, hbeq]
      exact ih
    · by_cases h2 : k2 = a
      · subst h2
        simp [List.filter, hak, List.lookup]
      · have hb2 : (k2 == a) = false := by simpa using h2
        simp only [List.filter, ne_eq, hak, not_false_eq_true, decide_True, List.lookup, hb2]
        exact ih

/-- Adding a person keeps the map and the slice in step with the people. -/
theorem HoldsPeople_add (st : IndexKeys) (ps : List Person) (p : Person)
    (h : HoldsPeople st ps) : HoldsPeople (st.add p) (ps ++ [p]) := by
  obtain ⟨h1, h2⟩ := h
  constructor
  · simp only [IndexKeys.add, h1, List.map_append, List.map_cons, List.map_nil]
  · intro k
    simp only [IndexKeys.add, List.reverse_append, List.reverse_cons, List.reverse_nil,
      List.nil_append, List.singleton_append, List.find?_cons]
    by_cases hk : firstNameKey p = k
    · subst hk
      simp [lookup_mapSet]
    · have hb : (firstNameKey p == k) = false := by simpa using hk
      rw [lookup_mapSet_ne _ _ _ _ (fun e => hk e.symm), hb]
      exact h2 k

/-- Adding the members of a household, one after the other. -/
theorem HoldsPeople_foldl_add (ms : List Person) (st : IndexKeys) (ps : List Person)
    (h : HoldsPeople st ps) :
    HoldsPeople (ms.foldl IndexKeys.add st) (ps ++ ms)
    ∧ (ms.foldl IndexKeys.add st).dir = st.dir := by
  induction ms generalizing st ps with
  | nil => exact ⟨by simpa using h, rfl⟩
  | cons m rest ih =>
    obtain ⟨h1, h2⟩ := ih (st.add m) (ps ++ [m]) (HoldsPeople_add st ps m h)
    simp only [List.foldl_cons]
    exact ⟨by simpa using h1, h2⟩

/-- The loop `householdLoop` of `writeFirstNames` collects the people of
`indexPeople`; it moves the resolver as `indexPeople` does and leaves the
surface as it is. -/
theorem HoldsPeople_collect (env : Env) (hs : List Household) (st : IndexKeys)
    (ps : List Person) (dS : PdfDir) (h : HoldsPeople st ps) (hsame : SameResolver st.dir dS) :
    HoldsPeople (hs.foldl (collectHousehold env) st) (ps ++ (indexPeople env hs dS).1)
    ∧ SameResolver (hs.foldl (collectHousehold env) st).dir (indexPeople env hs dS).2
    ∧ (hs.foldl (collectHousehold env) st).dir.pdf = st.dir.pdf := by
  induction hs generalizing st ps dS with
  | nil => exact ⟨by simpa [indexPeople] using h, hsame, rfl⟩
  | cons hh rest ih =>
    simp only [List.foldl_cons]
    generalize hst2 : collectHousehold env st hh = st2
    unfold collectHousehold at hst2
    unfold indexPeople
    cases hhead : hh.Head with
    | none =>
      rw [hhead] at hst2
      simp only at hst2
      subst hst2
      obtain ⟨h1, h2⟩ := HoldsPeople_foldl_add hh.Members st ps h
      obtain ⟨i1, i2, i3⟩ := ih _ (ps ++ hh.Members) dS h1 (by rw [h2]; exact hsame)
      refine ⟨by simpa using i1, i2, by rw [i3, h2]⟩
    | some head =>
      rw [hhead] at hst2
      simp only at hst2
      obtain ⟨hc1, hc2⟩ := getSectionOverride_congr env st.dir dS head showOnly hsame
      obtain ⟨ov, sr, w, hd⟩ := getSectionOverride_dir env st.dir head showOnly
      have hpdf : (getSectionOverride env st.dir head showOnly).2.pdf = st.dir.pdf := by rw [hd]
      simp only [← hc1]
      by_cases hsh : (getSectionOverride env st.dir head showOnly).1.ShowHousehold = true
      · simp only [hsh, Bool.not_true, Bool.false_eq_true, if_false] at hst2 ⊢
        subst hst2
        have h0 : HoldsPeople
            ({ st with dir := (getSectionOverride env st.dir head showOnly).2 }.add head)
            (ps ++ [head]) := HoldsPeople_add _ ps head h
        obtain ⟨h1, h2⟩ := HoldsPeople_foldl_add hh.Members _ _ h0
        obtain ⟨i1, i2, i3⟩ := ih _ (ps ++ [head] ++ hh.Members)
          (getSectionOverride env dS head showOnly).2 h1 (by rw [h2]; exact hc2)
        refine ⟨by simpa using i1, i2, ?_⟩
        rw [i3, h2]
        exact hpdf
      · have hsf : (getSectionOverride env st.dir head showOnly).1.ShowHousehold = false := by
          simpa using hsh
        simp only [hsf, Bool.not_false, if_true] at hst2 ⊢
        subst hst2
        obtain ⟨i1, i2, i3⟩ := ih { st with dir := (getSectionOverride env st.dir head showOnly).2 }
          ps (getSectionOverride env dS head showOnly).2 h hc2
        exact ⟨i1, i2, by rw [i3]; exact hpdf⟩

/-- The people of the index are heads and members of the households. -/
theorem indexPeople_mem (env : Env) (hs : List Household) (dir : PdfDir) (p : Person)
    (hp : p ∈ (indexPeople env hs dir).1) :
    ∃ h ∈ hs, h.Head = some p ∨ p ∈ h.Members := by
  induction hs generalizing dir with
  | nil => simp [indexPeople] at hp
  | cons hh rest ih =>
    unfold indexPeople at hp
    cases hhead : hh.Head with
    | none =>
      rw [hhead] at hp
      simp only [List.mem_append] at hp
      rcases hp with hp | hp
      · exact ⟨hh, List.mem_cons_self _ _, Or.inr hp⟩
      · obtain ⟨h, hm, hh2⟩ := ih _ hp
        exact ⟨h, List.mem_cons_of_mem _ hm, hh2⟩
    | some head =>
      rw [hhead] at hp
      simp only at hp
      split at hp
      · obtain ⟨h, hm, hh2⟩ := ih _ hp
        exact ⟨h, List.mem_cons_of_mem _ hm, hh2⟩
      · simp only [List.cons_append, List.mem_cons, List.mem_append] at hp
        rcases hp with hp | hp | hp
        · exact ⟨hh, List.mem_cons_self _ _, Or.inl (by rw [hhead, hp])⟩
        · exact ⟨hh, List.mem_cons_self _ _, Or.inr hp⟩
        · obtain ⟨h, hm, hh2⟩ := ih _ hp
          exact ⟨h, List.mem_cons_of_mem _ hm, hh2⟩

/-- Among people with distinct keys, the search for the key of one of them
finds that person. -/
theorem find_key_of_mem (ps : List Person) (p : Person) (hp : p ∈ ps)
    (hnd : (ps.map firstNameKey).Nodup) :
    ps.reverse.find? (fun q => firstNameKey q == firstNameKey p) = some p := by
  induction ps using List.reverseRecOn with
  | nil => cases hp
  | append_singleton rest q ih =>
    simp only [List.reverse_append, List.reverse_cons, List.reverse_nil, List.nil_append,
      List.singleton_append, List.find?_cons]
    rw [List.map_append, List.nodup_append] at hnd
    obtain ⟨hn1, -, hdisj⟩ := hnd
    by_cases hq : firstNameKey q = firstNameKey p
    · have hqp : q = p := by
        rcases List.mem_append.1 hp with h | h
        · exfalso
          exact hdisj (List.mem_map_of_mem firstNameKey h) (by simp [hq])
        · exact (List.mem_singleton.1 h).symm
      simp [hqp]
    · have hb : (firstNameKey q == firstNameKey p) = false := by simpa using hq
      rw [hb]
      rcases List.mem_append.1 hp with h | h
      · exact ih h hn1
      · exfalso
        simp only [List.mem_singleton] at h
        exact hq (by rw [h])

/-- C21, the claim at a person hidden by an override: in household C the head
John Smith resolves `ShowHousehold = true` and `Show = false`. The mapping has
the three keys of John, Jane and Jan, and `writeFirstNames` draws two lines:
John has a key and no line. And at a key shared by two people (John Smith,
person 1, and John Smith, person 123): the slice of keys holds the key twice
and the key gets two lines. -/
theorem C21_hidden_person_counterexample :
    ((indexPeople (envWith (.parsed (some johnHiddenTable))) [householdC] dirAfterRoster).1.map
        firstNameKey) = ["JohnSmith", "JaneSmith", "JanDoe"]
    ∧ (writeFirstNames (envWith (.parsed (some johnHiddenTable))) 100 dirAfterRoster
        [("C", householdC)] "Index").map (fun d => lineCells d.pdf.ops)
        = some ["Jan Doe", "Jane Smith"]
    ∧ ((indexPeople (envWith .noBytes) [householdA, twinB] dirAfterRoster).1.map firstNameKey)
        = ["JohnSmith", "JaneSmith", "JohnSmith"]
    ∧ (writeFirstNames (envWith .noBytes) 100 dirAfterRoster [("A", householdA), ("B", twinB)]
        "Index").map (fun d => lineCells d.pdf.ops)
        = some ["Jane Smith", "John Smith", "John Smith"] := by
  refine ⟨by with_unfolding_all decide, by with_unfolding_all decide,
    by with_unfolding_all decide, by with_unfolding_all decide⟩

/-- C21, amended: when no two people of the index share a key, a run of
`writeFirstNames` that returns has drawn, after the lines already in the
document, one line per person of the mapping whose effective `Show` (resolved
against `Section{Show: true}`) is true, and nothing else as a line: there is an
order of the people of the mapping (heads and members of the households whose
head does not resolve `ShowHousehold = false`) with strictly ascending keys,
and the lines are the names of the shown people in this order. Every person of
the mapping is a head or a member of a household, never taken from the
children. -/
theorem C21_index_lines (env : Env) (fuel : Nat) (dir dir1 : PdfDir)
    (entries : List (String × Household)) (header : String)
    (hrun : writeFirstNames env fuel dir entries header = some dir1)
    (hnd : ((indexPeople env (entries.map Prod.snd) dir).1.map firstNameKey).Nodup) :
    (∃ order : List Person,
      order.Perm (indexPeople env (entries.map Prod.snd) dir).1
      ∧ order.Pairwise (fun a b => (firstNameKey a).data < (firstNameKey b).data)
      ∧ lineCells dir1.pdf.ops = lineCells dir.pdf.ops
          ++ (keepShown env showOnly order (indexPeople env (entries.map Prod.snd) dir).2).1.map
              (indexName env))
    ∧ ∀ p ∈ (indexPeople env (entries.map Prod.snd) dir).1,
        ∃ e ∈ entries, e.2.Head = some p ∨ p ∈ e.2.Members := by
  constructor
  · obtain ⟨hh1, hh2⟩ := writeFirstNamesHeader_lines env dir header
    have hinit : HoldsPeople
        { entriesKeyed := [], keys := [], dir := writeFirstNamesHeader env dir header } [] :=
      ⟨rfl, fun k => rfl⟩
    obtain ⟨hc1, hc2, hc3⟩ := HoldsPeople_collect env (entries.map Prod.snd) _ [] dir hinit hh2
    rw [List.nil_append] at hc1
    obtain ⟨hkeys, hlook⟩ := hc1
    unfold writeFirstNames at hrun
    simp only at hrun
    generalize hst : (entries.map Prod.snd).foldl (collectHousehold env)
        { entriesKeyed := [], keys := [], dir := writeFirstNamesHeader env dir header } = st
      at hrun hc2 hc3 hkeys hlook
    generalize hpeople : (indexPeople env (entries.map Prod.snd) dir).1 = people
      at hnd hkeys hlook ⊢
    have hfind : ∀ p ∈ people, (st.entriesKeyed.lookup (firstNameKey p)).getD Person.zero = p := by
      intro p hp
      rw [hlook, find_key_of_mem people p hp hnd]
      rfl
    obtain ⟨hperm, hsorted⟩ := sortStrings_spec st.keys
    refine ⟨(sortStrings st.keys).map (fun k => (st.entriesKeyed.lookup k).getD Person.zero),
      ?_, ?_, ?_⟩
    · have hmap : st.keys.map (fun k => (st.entriesKeyed.lookup k).getD Person.zero) = people := by
        rw [hkeys, List.map_map]
        conv_rhs => rw [← List.map_id people]
        apply List.map_congr_left
        intro p hp
        exact hfind p hp
      rw [← hmap]
      exact hperm.map _
    · rw [List.pairwise_map]
      have hnd2 : (sortStrings st.keys).Nodup := hperm.nodup_iff.2 (by rw [hkeys]; exact hnd)
      have hlt : (sortStrings st.keys).Pairwise (fun a b => a.data < b.data) := by
        have := hsorted.and hnd2
        refine this.imp ?_
        intro a b hab
        refine lt_of_le_of_ne hab.1 ?_
        intro hd
        exact hab.2 (String.ext hd)
      refine hlt.imp_of_mem ?_
      intro a b ha hb hab
      have hka : a ∈ st.keys := hperm.mem_iff.1 ha
      have hkb : b ∈ st.keys := hperm.mem_iff.1 hb
      rw [hkeys] at hka hkb
      obtain ⟨pa, hpa, rfl⟩ := List.mem_map.1 hka
      obtain ⟨pb, hpb, rfl⟩ := List.mem_map.1 hkb
      rw [hfind pa hpa, hfind pb hpb]
      exact hab
    · split at hrun
      · cases hrun
      · next st1 hlines =>
        simp only [Option.some.injEq] at hrun
        subst hrun
        have hl := writeFirstNameLines_lines env fuel _ _ _ _ _ _ _ _ _
          (indexPeople env (entries.map Prod.snd) dir).2 hc2 hlines
        rw [hl]
        congr 1
        show lineCells st.dir.pdf.ops = _
        rw [hc3]
        exact hh1
  · intro p hp
    obtain ⟨h, hm, hh⟩ := indexPeople_mem env _ dir p hp
    obtain ⟨e, he, rfl⟩ := List.mem_map.1 hm
    exact ⟨e, he, hh⟩

/-- C21 run on the scenario of the specification after a roster: the index
lists Jan Doe, Jane Smith and John Smith, in the order of the keys `JanDoe`,
`JaneSmith`, `JohnSmith`. -/
theorem C21_index_lines_witness :
    ((indexPeople (envWith .noBytes) (scenarioEntries.map Prod.snd) dirAfterRoster).1.map
        firstNameKey).Nodup
    ∧ (writeFirstNames (envWith .noBytes) 100 dirAfterRoster scenarioEntries "Index").map
        (fun d => lineCells d.pdf.ops) = some ["Jan Doe", "Jane Smith", "John Smith"]
    ∧ ∃ d1, writeFirstNames (envWith .noBytes) 100 dirAfterRoster scenarioEntries "Index" = some d1
      ∧ (∃ order : List Person,
        order.Perm (indexPeople (envWith .noBytes) (scenarioEntries.map Prod.snd) dirAfterRoster).1
        ∧ order.Pairwise (fun a b => (firstNameKey a).data < (firstNameKey b).data)
        ∧ lineCells d1.pdf.ops = lineCells dirAfterRoster.pdf.ops
            ++ (keepShown (envWith .noBytes) showOnly order
                (indexPeople (envWith .noBytes) (scenarioEntries.map Prod.snd)
                  dirAfterRoster).2).1.map (indexName (envWith .noBytes)))
      ∧ ∀ p ∈ (indexPeople (envWith .noBytes) (scenarioEntries.map Prod.snd) dirAfterRoster).1,
          ∃ e ∈ scenarioEntries, e.2.Head = some p ∨ p ∈ e.2.Members := by
  have hs : (writeFirstNames (envWith .noBytes) 100 dirAfterRoster scenarioEntries
      "Index").isSome = true := by with_unfolding_all decide
  obtain ⟨d1, hd1⟩ := Option.isSome_iff_exists.1 hs
  exact ⟨by with_unfolding_all decide, by with_unfolding_all decide, d1, hd1,
    C21_index_lines (envWith .noBytes) 100 dirAfterRoster d1 scenarioEntries "Index" hd1
      (by with_unfolding_all decide)⟩

/-- The cell drawn by `shrinkedCell` is the last drawing call; its width is the
width the caller passed, or the room left to the right margin when the caller
passed the width 0. -/
theorem shrinkedCell_width (env : Env) (fuel : Nat) (f g : Pdf) (width height : ℚ)
    (str align : String) (h : shrinkedCell env fuel f width height str align = some g) :
    lastCellWidth g.ops = some (if width = 0 then f.w - f.rMargin - f.x else width) := by
  unfold shrinkedCell at h
  simp only at h
  cases hl : shrinkLoop env width str fuel f with
  | none => rw [hl] at h; cases h
  | some f1 =>
    rw [hl] at h
    simp only [Option.some.injEq] at h
    obtain ⟨sz, hsz⟩ := shrinkLoop_frame env width str fuel f f1 hl
    subst h
    subst hsz
    unfold Pdf.CellFormat Pdf.SetFontSize
    simp only
    split <;> split <;> split <;> simp_all [lastCellWidth]

/-- A name of the index is fitted to the field `textWidth` of the receiver
(when it is not 0), whatever the width `colWd` of an index column. -/
theorem writeFirstName_width (env : Env) (fuel : Nat) (ek : List (String × Person))
    (left top bottom height colWd : ℚ) (st st1 : ℚ × Bool × PdfDir) (k : String)
    (hshow : (getSectionOverride env st.2.2 ((ek.lookup k).getD Person.zero) showOnly).1.Show
      = true)
    (hw : st.2.2.textWidth ≠ 0)
    (h : writeFirstName env fuel ek left top bottom height colWd st k = some st1) :
    lastCellWidth st1.2.2.pdf.ops = some st.2.2.textWidth := by
  obtain ⟨ov, sr, w, hd⟩ := getSectionOverride_dir env st.2.2
    ((ek.lookup k).getD Person.zero) showOnly
  unfold writeFirstName at h
  simp only [hshow, Bool.not_true, Bool.false_eq_true, if_false] at h
  split at h
  · cases h
  · next g hcell =>
    simp only [Option.some.injEq] at h
    subst h
    have hcw := shrinkedCell_width _ _ _ _ _ _ _ _ hcell
    rw [hd] at hcw
    simp only [hw, if_false] at hcw
    exact hcw

/-- C30, the code at the failing input: the names of the index are fitted to
the field `textWidth` of the receiver, which only `writeEntry` assigns, and not
to the width of an index column, here (215.9 - 10 - 10) / 6 = 32.65. When the
roster of the scenario was rendered before, the last name is fitted to 66.9,
the text width of a roster cell; when nothing was rendered before, the width
passed is 0: the name is drawn at font size 0, in a cell that reaches the right
margin; and with a text width of 12 left by earlier calls the same name is
shrunk to 6.8 points. -/
theorem C30_index_cell_width :
    (dirA.pdf.w - dirA.leftMargin - dirA.rightMargin) / 6 = 653 / 20
    ∧ ((writeSection (envWith .noBytes) 0 dirA scenarioEntries "Members" scenarioSection).bind
        (fun r => writeFirstNames (envWith .noBytes) 100 r.2 scenarioEntries "Index")).map
        (fun d => (lastCellWidth d.pdf.ops, lastCellSize d.pdf.ops))
        = some (some (669 / 10), some 9)
    ∧ (writeFirstNames (envWith .noBytes) 100 dirA scenarioEntries "Index").map
        (fun d => (lastCellWidth d.pdf.ops, lastCellSize d.pdf.ops))
        = some (some (1959 / 10), some 0)
    ∧ (writeFirstNames (envWith .noBytes) 100 { dirA with textWidth := narrowWidth }
        scenarioEntries "Index").map
        (fun d => (lastCellWidth d.pdf.ops, lastCellSize d.pdf.ops))
        = some (some 12, some (34 / 5)) :=
  ⟨by set_option maxRecDepth 8000 in with_unfolding_all decide,
   by set_option maxRecDepth 8000 in with_unfolding_all decide,
   by set_option maxRecDepth 8000 in with_unfolding_all decide,
   by set_option maxRecDepth 8000 in with_unfolding_all decide⟩

end DirectoryPrinter
